import Mathlib

/-!
# avr_pump_board: recipe store, dispense scheduler, deadline timer

A shallow embedding of `recipe.c`, `pumps.c`, `clock.c` and `lightsSet` of
`lights.c`.  All file-scope variables of these modules and the output
registers of the ports they drive are the fields of one record, `Board`.
Machine integers are natural numbers; where the C arithmetic can wrap, the
reduction modulo `2^16` or `2^64` is written out.  The target is an AVR
XMEGA, where `int` has 16 bits, so `uint16_t + uint16_t` is computed
modulo `2^16`.

An array access outside the 20-element `ingredients` array, or through a
NULL `pumpLastRecipe`, is undefined in C: the functions that read through
`pumpLastRecipe` return `Option Board` and yield `none` there.
-/

namespace PumpBoard

/-! ## Data model -/

/-- The struct `RecipeIngredient` of `recipe.h`. -/
structure RecipeIngredient where
  pump : Nat
  time : Nat
  delay : Nat
deriving DecidableEq, Repr

/-- The values a `RecipeIngredient *` takes in this firmware: `NULL`, or the
address of the static array `ingredients` of `recipe.c` (the only array of
ingredients there is; `recipeGo` is the only caller of `pumpsRecipe`). -/
inductive RecipePtr where
  | null
  | ingredients
deriving DecidableEq, Repr

/-- The functions passed to `quickTimeFireIn` as `callback`. -/
inductive CallbackType where
  | pumpHandleRecipeState
deriving DecidableEq, Repr

/-- One write to the serial port: `serialWriteString` or `serialWriteInt16`. -/
inductive SerialItem where
  | str (s : String)
  | int16 (n : Nat)
deriving DecidableEq, Repr

/-- `RECIPE_MAX_INGREDIENTS` of `config.h`. -/
def RECIPE_MAX_INGREDIENTS : Nat := 20

/-- `FLAG_STATE_PUMP` of `recipe.c`. -/
def FLAG_STATE_PUMP : Nat := 1

/-- `FLAG_STATE_TIME` of `recipe.c`. -/
def FLAG_STATE_TIME : Nat := 2

/-- `FLAG_STATE_DELAY` of `recipe.c`. -/
def FLAG_STATE_DELAY : Nat := 4

/-- The file-scope variables of `recipe.c`, `pumps.c` and `clock.c`, the
output registers of the pump ports (A, B, H) and light ports (C, D, E, F),
and what has been written to the serial port. -/
structure Board where
  ingredients : List RecipeIngredient
  ingredientCount : Nat
  statePump : Nat
  stateTime : Nat
  stateDelay : Nat
  state : Nat
  pumpRunning : Nat
  pumpLastTime : Nat
  pumpLastIndex : Nat
  pumpLastRecipe : RecipePtr
  pumpLastRecipeCount : Nat
  pumpCurrentRunTime : Nat
  portA : Nat
  portB : Nat
  portH : Nat
  portC : Nat
  portD : Nat
  portE : Nat
  portF : Nat
  systemTime : Nat
  quickTimeFire : Nat
  quickTimeCallback : Option CallbackType
  serial : List SerialItem
deriving DecidableEq, Repr

/-- The state after reset: every static variable is zero-initialised, the
20 array slots hold zeros, every output register is clear. -/
def powerOn : Board :=
  { ingredients := List.replicate 20 ⟨0, 0, 0⟩
    ingredientCount := 0, statePump := 0, stateTime := 0, stateDelay := 0, state := 0
    pumpRunning := 0, pumpLastTime := 0, pumpLastIndex := 0
    pumpLastRecipe := RecipePtr.null, pumpLastRecipeCount := 0, pumpCurrentRunTime := 0
    portA := 0, portB := 0, portH := 0, portC := 0, portD := 0, portE := 0, portF := 0
    systemTime := 0, quickTimeFire := 0, quickTimeCallback := none
    serial := [] }

/-- The call `serialWriteString(1, s)`. -/
def serialWriteString (s : String) (st : Board) : Board :=
  { st with serial := st.serial ++ [SerialItem.str s] }

/-- The call `serialWriteInt16(1, n)`. -/
def serialWriteInt16 (n : Nat) (st : Board) : Board :=
  { st with serial := st.serial ++ [SerialItem.int16 n] }

/-- The register write `PORTx.OUTSET = mask`: the bits of `mask` are set. -/
def outSet (port mask : Nat) : Nat := port ||| mask

/-- The register write `PORTx.OUTCLR = mask` on an 8-bit port: the bits of
`mask` are cleared. -/
def outClr (port mask : Nat) : Nat := port &&& (0xFF ^^^ mask)

/-! ## lights.c -/

/-- The function `lightsSet` of `lights.c`. -/
def lightsSet (id state : Nat) (st : Board) : Board :=
  if id < 1 ∨ id > 20 then st
  else
    let id := id - 1
    if id < 5 then
      if state ≠ 0 then { st with portC := outSet st.portC (1 <<< id) }
      else { st with portC := outClr st.portC (1 <<< id) }
    else if id < 10 then
      if state ≠ 0 then { st with portD := outSet st.portD (1 <<< (id - 5)) }
      else { st with portD := outClr st.portD (1 <<< (id - 5)) }
    else if id < 15 then
      if state ≠ 0 then { st with portE := outSet st.portE (1 <<< (id - 10)) }
      else { st with portE := outClr st.portE (1 <<< (id - 10)) }
    else
      if state ≠ 0 then { st with portF := outSet st.portF (1 <<< (id - 15)) }
      else { st with portF := outClr st.portF (1 <<< (id - 15)) }

/-! ## clock.c -/

/-- The function `quickTimeInit` of `clock.c`: its body is empty. -/
def quickTimeInit (st : Board) : Board := st

/-- The function `quickTimeFireIn` of `clock.c` (`DEBUG_CLOCK` is not
defined).  `millis` is a `uint16_t`, the sum a `uint64_t`. -/
def quickTimeFireIn (millis : Nat) (callback : Option CallbackType) (st : Board) : Board :=
  { st with quickTimeFire := (st.systemTime + millis) % 2 ^ 64
            quickTimeCallback := callback }

/-! ## pumps.c -/

/-- The function `pumpsDispensing` of `pumps.c`. -/
def pumpsDispensing (st : Board) : Nat := st.pumpRunning

/-- The function `pumpSet` of `pumps.c`; `id` and `state` are `uint8_t`. -/
def pumpSet (id state : Nat) (st : Board) : Board :=
  if id < 1 ∨ id > 20 then serialWriteString "Error: invalid pump id!\n" st
  else
    let id := id - 1
    let st :=
      if id < 8 then
        if state ≠ 0 then { st with portA := outSet st.portA (1 <<< id) }
        else { st with portA := outClr st.portA (1 <<< id) }
      else if id < 16 then
        if state ≠ 0 then { st with portB := outSet st.portB (1 <<< (id - 8)) }
        else { st with portB := outClr st.portB (1 <<< (id - 8)) }
      else
        if state ≠ 0 then { st with portH := outSet st.portH (1 <<< (id - 16)) }
        else { st with portH := outClr st.portH (1 <<< (id - 16)) }
    lightsSet id state st

/-- The function `pumpOn` of `pumps.c`: the `uint16_t` argument is converted
to the `uint8_t` parameter of `pumpSet`. -/
def pumpOn (arg : Nat) (st : Board) : Board := pumpSet (arg % 256) 1 st

/-- The function `pumpOff` of `pumps.c`. -/
def pumpOff (arg : Nat) (st : Board) : Board := pumpSet (arg % 256) 0 st

/-- The loop `for (i = 1; i <= 20; i++) pumpSet(i, state);` of
`pumpErrorInterrupt` and `pumpsClean`. -/
def pumpSetAll (state : Nat) (st : Board) : Board :=
  (List.range' 1 20).foldl (fun s i => pumpSet i state s) st

/-- The function `pumpErrorInterrupt` of `pumps.c`. -/
def pumpErrorInterrupt (n : Nat) (st : Board) : Board :=
  let st := serialWriteString "Error: pump driver port " st
  let st := serialWriteInt16 n st
  let st := serialWriteString " reports a problem!\n" st
  let st := pumpSetAll 0 st
  { st with pumpRunning := 0 }

/-- The element `p[i]` read through a `RecipeIngredient *`; `none` where the
access is undefined (NULL, or outside the array). -/
def RecipePtr.get (p : RecipePtr) (st : Board) (i : Nat) : Option RecipeIngredient :=
  match p with
  | RecipePtr.null => none
  | RecipePtr.ingredients => st.ingredients[i]?

/-- The assignment `p[i].time = v` through a `RecipeIngredient *`. -/
def RecipePtr.setTime (p : RecipePtr) (st : Board) (i v : Nat) : Option Board :=
  match p.get st i with
  | none => none
  | some ing => some { st with ingredients := st.ingredients.set i { ing with time := v } }

/-- One iteration, for index `i`, of the loop of `pumpHandleRecipeState`. -/
def handlerLoopBody (st : Board) (i : Nat) : Option Board :=
  match st.pumpLastRecipe.get st i with
  | none => none
  | some ing =>
    if ing.time > 0 then
      if ing.time ≤ st.pumpCurrentRunTime then
        st.pumpLastRecipe.setTime (pumpSet ing.pump 0 st) i 0
      else if ing.time < st.pumpLastTime then
        some { st with pumpLastTime := ing.time, pumpLastIndex := i }
      else some st
    else some st

/-- The function `pumpHandleRecipeState` of `pumps.c` (`DEBUG_PUMPS` is not
defined). -/
def pumpHandleRecipeState (st : Board) : Option Board :=
  match st.pumpLastRecipe.get st st.pumpLastIndex with
  | none => none
  | some cur =>
    let st := pumpSet cur.pump 0 st
    let st := { st with pumpCurrentRunTime := cur.time }
    match st.pumpLastRecipe.setTime st st.pumpLastIndex 0 with
    | none => none
    | some st =>
      let st := { st with pumpLastTime := 0xFFFF, pumpLastIndex := RECIPE_MAX_INGREDIENTS }
      match (List.range st.pumpLastRecipeCount).foldlM handlerLoopBody st with
      | none => none
      | some st =>
        if st.pumpLastIndex < RECIPE_MAX_INGREDIENTS then
          match st.pumpLastRecipe.get st st.pumpLastIndex with
          | none => none
          | some nxt =>
            some (quickTimeFireIn ((nxt.time + 2 ^ 16 - st.pumpCurrentRunTime) % 2 ^ 16)
              (some CallbackType.pumpHandleRecipeState) st)
        else some { st with pumpRunning := 0 }

/-- The outcome of the first loop of `pumpsRecipe`, which validates the
ingredients and selects the first stop: the loop runs to its end, or leaves
the function after reporting an error, or makes an undefined access. -/
inductive Scan where
  | done (st : Board)
  | rejected (st : Board)
  | undefined

/-- The first loop of `pumpsRecipe`, from index `i`, for `fuel` iterations. -/
def recipeScan (recipe : RecipePtr) : Nat → Nat → Board → Scan
  | 0, _, st => Scan.done st
  | fuel + 1, i, st =>
    match recipe.get st i with
    | none => Scan.undefined
    | some ing =>
      if ing.pump < 1 ∨ ing.pump > 20 then
        Scan.rejected (serialWriteString "Error: invalid pump in recipe!\n" st)
      else if ing.time < 1 then
        Scan.rejected (serialWriteString "Error: invalid time in recipe!\n" st)
      else if (ing.time + ing.delay) % 2 ^ 16 < st.pumpLastTime then
        recipeScan recipe fuel (i + 1)
          { st with pumpLastTime := (ing.time + ing.delay) % 2 ^ 16, pumpLastIndex := i }
      else recipeScan recipe fuel (i + 1) st

/-- The second loop of `pumpsRecipe`: every pump of the recipe is turned on. -/
def recipeAllOn (recipe : RecipePtr) (ingredients : Nat) (st : Board) : Option Board :=
  (List.range ingredients).foldlM
    (fun s i => match recipe.get s i with
      | none => none
      | some ing => some (pumpSet ing.pump 1 s)) st

/-- The function `pumpsRecipe` of `pumps.c` (`DEBUG_PUMPS` is not defined);
`ingredients` is a `uint8_t`. -/
def pumpsRecipe (recipe : RecipePtr) (ingredients : Nat) (st : Board) : Option Board :=
  if st.pumpRunning ≠ 0 then
    some (serialWriteString "Error: can't dispense recipe while pumps are running!\n" st)
  else if ingredients < 1 then
    some (serialWriteString "Error: can't dispense empty recipe!\n" st)
  else
    let st := { st with pumpLastRecipe := recipe, pumpLastRecipeCount := ingredients
                        pumpLastTime := 0xFFFF, pumpLastIndex := RECIPE_MAX_INGREDIENTS }
    match recipeScan recipe ingredients 0 st with
    | Scan.undefined => none
    | Scan.rejected st => some st
    | Scan.done st =>
      if st.pumpLastIndex ≥ RECIPE_MAX_INGREDIENTS then
        some (serialWriteString "Error: no valid next pump found!\n" st)
      else
        let st := { st with pumpCurrentRunTime := 0 }
        let st := quickTimeInit st
        let st := { st with pumpRunning := 1 }
        match recipeAllOn recipe ingredients st with
        | none => none
        | some st =>
          some (quickTimeFireIn st.pumpLastTime (some CallbackType.pumpHandleRecipeState) st)

/-- The interrupt service routine `ISR(TCC0_CCA_vect)` of `clock.c`: one
millisecond tick. -/
def tickISR (st : Board) : Option Board :=
  let st := { st with systemTime := (st.systemTime + 1) % 2 ^ 64 }
  match st.quickTimeCallback with
  | none => some st
  | some CallbackType.pumpHandleRecipeState =>
    if st.systemTime = st.quickTimeFire then pumpHandleRecipeState st else some st

/-- The state after `k` tick interrupts in a row, nothing else happening in
between. -/
def ticks : Nat → Board → Option Board
  | 0, st => some st
  | k + 1, st =>
    match tickISR st with
    | none => none
    | some st => ticks k st

/-! ## recipe.c -/

/-- The function `recipeReset` of `recipe.c`. -/
def recipeReset (_arg : Nat) (st : Board) : Board :=
  { st with ingredientCount := 0, statePump := 0, stateTime := 0, stateDelay := 0, state := 0 }

/-- The function `recipePump` of `recipe.c`; `arg` is a `uint16_t`. -/
def recipePump (arg : Nat) (st : Board) : Board :=
  if arg < 1 ∨ arg > 20 then serialWriteString "Error: invalid pump id!\n" st
  else if st.ingredientCount ≥ RECIPE_MAX_INGREDIENTS then
    serialWriteString "Error: too many ingredients in recipe!\n" st
  else { st with statePump := arg % 256, state := st.state ||| FLAG_STATE_PUMP }

/-- The function `recipeDuration` of `recipe.c`. -/
def recipeDuration (arg : Nat) (st : Board) : Board :=
  if arg = 0 then serialWriteString "Error: only positive integer times are allowed!\n" st
  else if st.ingredientCount ≥ RECIPE_MAX_INGREDIENTS then
    serialWriteString "Error: too many ingredients in recipe!\n" st
  else { st with stateTime := arg, state := st.state ||| FLAG_STATE_TIME }

/-- The function `recipeDelay` of `recipe.c`. -/
def recipeDelay (arg : Nat) (st : Board) : Board :=
  { st with stateDelay := arg, state := st.state ||| FLAG_STATE_DELAY }

/-- The search loop of `recipeStore`: the first index `i < ingredientCount`,
from `i` on, with `ingredients[i].pump == statePump`, if there is one. -/
def recipeFind (st : Board) : Nat → Nat → Option Nat
  | 0, _ => none
  | fuel + 1, i =>
    if (st.ingredients.getD i ⟨0, 0, 0⟩).pump = st.statePump then some i
    else recipeFind st fuel (i + 1)

/-- The function `recipeStore` of `recipe.c`.  Past the first guard
`ingredientCount < 20`, so every index used lies inside the array. -/
def recipeStore (_arg : Nat) (st : Board) : Board :=
  if st.ingredientCount ≥ RECIPE_MAX_INGREDIENTS then
    serialWriteString "Error: too many ingredients in recipe!\n" st
  else if st.state &&& FLAG_STATE_PUMP = 0 ∨ st.state &&& FLAG_STATE_TIME = 0 then
    serialWriteString "Error: can't store without pump and time!\n" st
  else
    match recipeFind st st.ingredientCount 0 with
    | some i =>
      { st with ingredients := st.ingredients.set i ⟨st.statePump, st.stateTime, st.stateDelay⟩ }
    | none =>
      { st with ingredients :=
                  st.ingredients.set st.ingredientCount ⟨st.statePump, st.stateTime, st.stateDelay⟩
                ingredientCount := st.ingredientCount + 1 }

/-- One iteration, for index `i`, of the loop of `recipeList`. -/
def recipeListBody (s : Board) (i : Nat) : Board :=
  let ing := s.ingredients.getD i ⟨0, 0, 0⟩
  let s := serialWriteString "Pump " s
  let s := serialWriteInt16 ing.pump s
  let s := serialWriteString " running for " s
  let s := serialWriteInt16 ing.time s
  let s := serialWriteString "ms after " s
  let s := serialWriteInt16 ing.delay s
  serialWriteString "ms\n" s

/-- The function `recipeList` of `recipe.c`. -/
def recipeList (_arg : Nat) (st : Board) : Board :=
  let st := serialWriteString "Stored " st
  let st := serialWriteInt16 st.ingredientCount st
  let st := serialWriteString " ingredients\n" st
  (List.range st.ingredientCount).foldl recipeListBody st

/-- The level of the output pin that drives pump `id` (1..20): P01..P08 are
PA0..PA7, P09..P16 are PB0..PB7, P17..P20 are PH0..PH3 (header of `pumps.c`). -/
def pumpOutput (st : Board) (id : Nat) : Bool :=
  if id - 1 < 8 then st.portA.testBit (id - 1)
  else if id - 1 < 16 then st.portB.testBit (id - 1 - 8)
  else st.portH.testBit (id - 1 - 16)

/-! ## Calls of the recipe store and their histories -/

/-- A call of one of the five functions of `recipe.c` that change the recipe
store; `recipeReset` and `recipeStore` ignore their argument. -/
inductive RecipeOp where
  | reset
  | pump (arg : Nat)
  | duration (arg : Nat)
  | delay (arg : Nat)
  | store
deriving DecidableEq, Repr

/-- The state after the call `op`. -/
def RecipeOp.run : RecipeOp → Board → Board
  | RecipeOp.reset, st => recipeReset 0 st
  | RecipeOp.pump arg, st => recipePump arg st
  | RecipeOp.duration arg, st => recipeDuration arg st
  | RecipeOp.delay arg, st => recipeDelay arg st
  | RecipeOp.store, st => recipeStore 0 st

/-- The state after the calls `ops`, made in this order. -/
def runOps (ops : List RecipeOp) (st : Board) : Board := ops.foldl (fun s op => op.run s) st

/-- The committed recipe: the first `ingredientCount` slots of `ingredients`,
which is what `recipeList` prints and `recipeGo` dispenses. -/
def committed (st : Board) : List RecipeIngredient := st.ingredients.take st.ingredientCount

/-- The entry that `recipeStore` writes. -/
def stagedIngredient (st : Board) : RecipeIngredient := ⟨st.statePump, st.stateTime, st.stateDelay⟩

/-- The invariant of the recipe store: the array has its 20 slots, the
committed entries are valid and have distinct pumps, and a staged field whose
flag is set is valid. -/
structure StoreInv (st : Board) : Prop where
  len : st.ingredients.length = 20
  count : st.ingredientCount ≤ 20
  valid : ∀ ing ∈ committed st, 1 ≤ ing.pump ∧ ing.pump ≤ 20 ∧ 0 < ing.time
  nodup : ((committed st).map (fun ing => ing.pump)).Nodup
  pumpStaged : st.state.testBit 0 = true → 1 ≤ st.statePump ∧ st.statePump ≤ 20
  timeStaged : st.state.testBit 1 = true → 0 < st.stateTime

/-- Whether the call is a `recipePump`. -/
def isPumpOp : RecipeOp → Bool
  | RecipeOp.pump _ => true
  | _ => false

/-- Whether the call is a `recipeDuration`. -/
def isDurationOp : RecipeOp → Bool
  | RecipeOp.duration _ => true
  | _ => false

/-- Whether, in the run of `ops` from `st`, a call selected by `sel` has
returned without reporting an error since the most recent `recipeReset`;
`acc` is the answer for the calls made before `ops`. -/
def succeededSinceReset (sel : RecipeOp → Bool) : List RecipeOp → Board → Bool → Bool
  | [], _, acc => acc
  | op :: ops, st, acc =>
    succeededSinceReset sel ops (op.run st)
      (if op = RecipeOp.reset then false
       else if sel op ∧ (op.run st).serial = st.serial then true
       else acc)

/-- The 60 calls that commit pumps 1..20, each for 100 ms. -/
def fillOps : List RecipeOp :=
  ((List.range' 1 20).map
    (fun p => [RecipeOp.pump p, RecipeOp.duration 100, RecipeOp.store])).flatten

/-- The three calls of the overwrite: stage pump `p`, stage duration `d`, commit. -/
def restage (p d : Nat) (st : Board) : Board :=
  recipeStore 0 (recipeDuration d (recipePump p st))

/-- The six orders in which pump, duration and delay can be staged. -/
inductive StageOrder where
  | pumpDurationDelay
  | pumpDelayDuration
  | durationPumpDelay
  | durationDelayPump
  | delayPumpDuration
  | delayDurationPump
deriving DecidableEq, Repr

/-- One ingredient the operator commits, with the order of its staging calls. -/
structure Commit where
  pump : Nat
  duration : Nat
  delay : Nat
  order : StageOrder
deriving DecidableEq, Repr

/-- The three staging calls of a commit, in its order. -/
def Commit.staging (c : Commit) : List RecipeOp :=
  match c.order with
  | StageOrder.pumpDurationDelay =>
    [RecipeOp.pump c.pump, RecipeOp.duration c.duration, RecipeOp.delay c.delay]
  | StageOrder.pumpDelayDuration =>
    [RecipeOp.pump c.pump, RecipeOp.delay c.delay, RecipeOp.duration c.duration]
  | StageOrder.durationPumpDelay =>
    [RecipeOp.duration c.duration, RecipeOp.pump c.pump, RecipeOp.delay c.delay]
  | StageOrder.durationDelayPump =>
    [RecipeOp.duration c.duration, RecipeOp.delay c.delay, RecipeOp.pump c.pump]
  | StageOrder.delayPumpDuration =>
    [RecipeOp.delay c.delay, RecipeOp.pump c.pump, RecipeOp.duration c.duration]
  | StageOrder.delayDurationPump =>
    [RecipeOp.delay c.delay, RecipeOp.duration c.duration, RecipeOp.pump c.pump]

/-- The calls of a commit: the staging calls, then `recipeStore`. -/
def Commit.ops (c : Commit) : List RecipeOp := c.staging ++ [RecipeOp.store]

/-- The calls of a sequence of commits. -/
def commitAll (cs : List Commit) : List RecipeOp := cs.flatMap Commit.ops

/-- The ingredient a commit asks for. -/
def Commit.ingredient (c : Commit) : RecipeIngredient := ⟨c.pump, c.duration, c.delay⟩

/-- The distinct pump ids of a sequence, in order of first occurrence. -/
def firstCommitOrder : List Nat → List Nat
  | [] => []
  | p :: ps => p :: (firstCommitOrder ps).filter (fun q => q ≠ p)

/-- The last commit of pump `p` in a sequence of commits. -/
def lastCommit (p : Nat) (cs : List Commit) : Option Commit :=
  cs.reverse.find? (fun c => c.pump = p)

/-- What the spec expects `recipeList` to report after the commits `cs`: the
distinct pump ids in order of first commit, each with the duration and delay
of its last commit. -/
def expectedList (cs : List Commit) : List RecipeIngredient :=
  (firstCommitOrder (cs.map Commit.pump)).filterMap
    (fun p => (lastCommit p cs).map Commit.ingredient)

/-- The serial writes by which `recipeList` reports the ingredient `ing`. -/
def reportLine (ing : RecipeIngredient) : List SerialItem :=
  [SerialItem.str "Pump ", SerialItem.int16 ing.pump, SerialItem.str " running for ",
   SerialItem.int16 ing.time, SerialItem.str "ms after ", SerialItem.int16 ing.delay,
   SerialItem.str "ms\n"]

/-- The serial writes by which `recipeList` reports the recipe `l`. -/
def report (l : List RecipeIngredient) : List SerialItem :=
  [SerialItem.str "Stored ", SerialItem.int16 l.length, SerialItem.str " ingredients\n"] ++
    l.flatMap reportLine

/-- Overwrite the entry of `x.pump` in place, or append `x`. -/
def upsert (l : List RecipeIngredient) (x : RecipeIngredient) : List RecipeIngredient :=
  if x.pump ∈ l.map (fun ing => ing.pump) then l.map (fun ing => if ing.pump = x.pump then x else ing)
  else l ++ [x]

/-- What `pumpSet` leaves alone: everything but the port registers and the
serial log. -/
structure SameControl (a b : Board) : Prop where
  ingredients : b.ingredients = a.ingredients
  ingredientCount : b.ingredientCount = a.ingredientCount
  statePump : b.statePump = a.statePump
  stateTime : b.stateTime = a.stateTime
  stateDelay : b.stateDelay = a.stateDelay
  state : b.state = a.state
  pumpRunning : b.pumpRunning = a.pumpRunning
  pumpLastTime : b.pumpLastTime = a.pumpLastTime
  pumpLastIndex : b.pumpLastIndex = a.pumpLastIndex
  pumpLastRecipe : b.pumpLastRecipe = a.pumpLastRecipe
  pumpLastRecipeCount : b.pumpLastRecipeCount = a.pumpLastRecipeCount
  pumpCurrentRunTime : b.pumpCurrentRunTime = a.pumpCurrentRunTime
  systemTime : b.systemTime = a.systemTime
  quickTimeFire : b.quickTimeFire = a.quickTimeFire
  quickTimeCallback : b.quickTimeCallback = a.quickTimeCallback

/-- No pump that was off is on afterwards. -/
def OffOnly (a b : Board) : Prop := ∀ q, pumpOutput b q = true → pumpOutput a q = true

/-- The stop value by which `pumpsRecipe` ranks an ingredient: the 16-bit sum
`time + delay`. -/
def rankKey (ing : RecipeIngredient) : Nat := (ing.time + ing.delay) % 2 ^ 16

/-- The checks of the first loop of `pumpsRecipe` on one ingredient. -/
def ValidIngredient (ing : RecipeIngredient) : Prop :=
  1 ≤ ing.pump ∧ ing.pump ≤ 20 ∧ 0 < ing.time

/-- What the first loop of `pumpsRecipe` leaves in `pumpLastTime` (`T`) and
`pumpLastIndex` (`I`) after the slots `i0 .. i0 + fuel - 1`: the least rank
key below the old `pumpLastTime`, at the first slot that has it. -/
def ScanResult (st : Board) (i0 fuel T I : Nat) : Prop :=
  T ≤ st.pumpLastTime ∧
  (∀ j ing, i0 ≤ j → j < i0 + fuel → st.ingredients[j]? = some ing → T ≤ rankKey ing) ∧
  ((T = st.pumpLastTime ∧ I = st.pumpLastIndex) ∨
    (i0 ≤ I ∧ I < i0 + fuel ∧ T < st.pumpLastTime ∧
      (∃ ing, st.ingredients[I]? = some ing ∧ rankKey ing = T) ∧
      ∀ j ing, i0 ≤ j → j < I → st.ingredients[j]? = some ing → T < rankKey ing))

/-- The state `st'` in which an accepted `pumpsRecipe(ingredients, n)` leaves
the board `st`; `I` is the recorded index and `ingI` the ingredient there. -/
structure StartEffect (st : Board) (n : Nat) (st' : Board) (I : Nat)
    (ingI : RecipeIngredient) : Prop where
  ingredients : st'.ingredients = st.ingredients
  pumpLastRecipe : st'.pumpLastRecipe = RecipePtr.ingredients
  pumpLastRecipeCount : st'.pumpLastRecipeCount = n
  pumpRunning : st'.pumpRunning = 1
  pumpCurrentRunTime : st'.pumpCurrentRunTime = 0
  systemTime : st'.systemTime = st.systemTime
  serial : st'.serial = st.serial
  quickTimeCallback : st'.quickTimeCallback = some CallbackType.pumpHandleRecipeState
  pumpLastIndex : st'.pumpLastIndex = I
  index_lt : I < n
  index_get : st.ingredients[I]? = some ingI
  pumpLastTime : st'.pumpLastTime = rankKey ingI
  key_lt : rankKey ingI < 0xFFFF
  quickTimeFire : st'.quickTimeFire = (st.systemTime + rankKey ingI) % 2 ^ 64
  least : ∀ j ing, j < n → st.ingredients[j]? = some ing → rankKey ingI ≤ rankKey ing
  earliest : ∀ j ing, j < I → st.ingredients[j]? = some ing → rankKey ingI < rankKey ing
  turned_on : ∀ j ing, j < n → st.ingredients[j]? = some ing → pumpOutput st' ing.pump = true
  stays_on : ∀ q, pumpOutput st q = true → pumpOutput st' q = true
  other : ∀ q, 1 ≤ q → q ≤ 20 →
    (∀ j ing, j < n → st.ingredients[j]? = some ing → ing.pump ≠ q) →
    pumpOutput st' q = pumpOutput st q

/-- The board after scenario A of the spec has been committed, with the
durations in ticks scaled down by 100: pump 1 for 5, pumps 2 and 3 for 3. -/
def scenarioA : Board :=
  { powerOn with ingredients := [⟨1, 5, 0⟩, ⟨2, 3, 0⟩, ⟨3, 3, 0⟩] ++ List.replicate 17 ⟨0, 0, 0⟩
                 ingredientCount := 3 }

/-- The ingredient with its stop marker zeroed: `p[i].time = 0`. -/
def zeroed (ing : RecipeIngredient) : RecipeIngredient := { ing with time := 0 }

/-- The variables that the loop of `pumpHandleRecipeState` does not write. -/
structure LoopFrame (a b : Board) : Prop where
  ingredientCount : b.ingredientCount = a.ingredientCount
  statePump : b.statePump = a.statePump
  stateTime : b.stateTime = a.stateTime
  stateDelay : b.stateDelay = a.stateDelay
  state : b.state = a.state
  pumpRunning : b.pumpRunning = a.pumpRunning
  pumpLastRecipe : b.pumpLastRecipe = a.pumpLastRecipe
  pumpLastRecipeCount : b.pumpLastRecipeCount = a.pumpLastRecipeCount
  pumpCurrentRunTime : b.pumpCurrentRunTime = a.pumpCurrentRunTime
  systemTime : b.systemTime = a.systemTime
  quickTimeFire : b.quickTimeFire = a.quickTimeFire
  quickTimeCallback : b.quickTimeCallback = a.quickTimeCallback

/-- The next stop that the loop of `pumpHandleRecipeState` has selected after
the slots below `m`: `T` and `I` are `pumpLastTime` and `pumpLastIndex`, `e`
is the elapsed time, `a` the board at loop entry. -/
def NextSpec (a : Board) (e m T I : Nat) : Prop :=
  (I = a.pumpLastIndex ∧ T = a.pumpLastTime ∧
    ∀ j x, j < m → a.ingredients[j]? = some x → e < x.time → a.pumpLastTime ≤ x.time) ∨
  (I < m ∧ T < a.pumpLastTime ∧ e < T ∧
    (∃ x, a.ingredients[I]? = some x ∧ x.time = T) ∧
    (∀ j x, j < m → a.ingredients[j]? = some x → e < x.time → T ≤ x.time) ∧
    (∀ j x, j < I → a.ingredients[j]? = some x → e < x.time → T < x.time))

/-- The board `b` after the loop of `pumpHandleRecipeState` has handled the
slots below `m`, entered on board `a` with elapsed time `e`. -/
structure LoopInv (a : Board) (e m : Nat) (b : Board) : Prop where
  frame : LoopFrame a b
  len : b.ingredients.length = a.ingredients.length
  entries : ∀ j, b.ingredients[j]? =
    (a.ingredients[j]?).map (fun x => if j < m ∧ 0 < x.time ∧ x.time ≤ e then zeroed x else x)
  offOnly : OffOnly a b
  off : ∀ j x, j < m → a.ingredients[j]? = some x → 0 < x.time → x.time ≤ e →
    1 ≤ x.pump → x.pump ≤ 20 → pumpOutput b x.pump = false
  keep : ∀ q, 1 ≤ q → q ≤ 20 →
    (∀ j x, j < m → a.ingredients[j]? = some x → 0 < x.time → x.time ≤ e → x.pump ≠ q) →
    pumpOutput b q = pumpOutput a q
  next : NextSpec a e m b.pumpLastTime b.pumpLastIndex

/-- The board on which the loop of `pumpHandleRecipeState` is entered: the
pump of the fired ingredient `cur` is off, its stop marker is zeroed, the
elapsed time is its stored duration, and no next stop is selected yet. -/
def handlerEntry (st : Board) (cur : RecipeIngredient) : Board :=
  { pumpSet cur.pump 0 st with
    pumpCurrentRunTime := cur.time
    ingredients := st.ingredients.set st.pumpLastIndex (zeroed cur)
    pumpLastTime := 0xFFFF
    pumpLastIndex := RECIPE_MAX_INGREDIENTS }

/-- The last step of `pumpHandleRecipeState`: re-arm the deadline for the
selected stop, or end the dispense. -/
def handlerExit (b : Board) : Option Board :=
  if b.pumpLastIndex < RECIPE_MAX_INGREDIENTS then
    match b.pumpLastRecipe.get b b.pumpLastIndex with
    | none => none
    | some nxt =>
      some (quickTimeFireIn ((nxt.time + 2 ^ 16 - b.pumpCurrentRunTime) % 2 ^ 16)
        (some CallbackType.pumpHandleRecipeState) b)
  else some { b with pumpRunning := 0 }

/-- The board `st'` after one run of `pumpHandleRecipeState` on `st`, where
`k` is the recorded index, `n` the recorded count and `cur` the ingredient of
slot `k`. -/
structure HandlerEffect (st : Board) (k n : Nat) (cur : RecipeIngredient) (st' : Board) :
    Prop where
  ingredientCount : st'.ingredientCount = st.ingredientCount
  statePump : st'.statePump = st.statePump
  stateTime : st'.stateTime = st.stateTime
  stateDelay : st'.stateDelay = st.stateDelay
  state : st'.state = st.state
  pumpLastRecipe : st'.pumpLastRecipe = st.pumpLastRecipe
  pumpLastRecipeCount : st'.pumpLastRecipeCount = st.pumpLastRecipeCount
  systemTime : st'.systemTime = st.systemTime
  pumpCurrentRunTime : st'.pumpCurrentRunTime = cur.time
  len : st'.ingredients.length = st.ingredients.length
  entries : ∀ j, st'.ingredients[j]? = (st.ingredients[j]?).map
    (fun x => if j = k ∨ (j < n ∧ 0 < x.time ∧ x.time ≤ cur.time) then zeroed x else x)
  offOnly : OffOnly st st'
  off_cur : 1 ≤ cur.pump → cur.pump ≤ 20 → pumpOutput st' cur.pump = false
  off : ∀ j x, j < n → st.ingredients[j]? = some x → 0 < x.time → x.time ≤ cur.time →
    1 ≤ x.pump → x.pump ≤ 20 → pumpOutput st' x.pump = false
  keep : ∀ q, 1 ≤ q → q ≤ 20 → q ≠ cur.pump →
    (∀ j x, j < n → st.ingredients[j]? = some x → 0 < x.time → x.time ≤ cur.time →
      x.pump ≠ q) →
    pumpOutput st' q = pumpOutput st q
  next :
    (∃ I x, I < n ∧ st.ingredients[I]? = some x ∧ cur.time < x.time ∧ x.time < 0xFFFF ∧
      st'.pumpLastIndex = I ∧ st'.pumpLastTime = x.time ∧
      (∀ j y, j < n → st.ingredients[j]? = some y → cur.time < y.time → x.time ≤ y.time) ∧
      (∀ j y, j < I → st.ingredients[j]? = some y → cur.time < y.time → x.time < y.time) ∧
      st'.pumpRunning = st.pumpRunning ∧
      st'.quickTimeCallback = some CallbackType.pumpHandleRecipeState ∧
      st'.quickTimeFire =
        (st.systemTime + (x.time + 2 ^ 16 - cur.time) % 2 ^ 16) % 2 ^ 64) ∨
    (st'.pumpLastIndex = RECIPE_MAX_INGREDIENTS ∧ st'.pumpLastTime = 0xFFFF ∧
      st'.pumpRunning = 0 ∧ st'.quickTimeFire = st.quickTimeFire ∧
      st'.quickTimeCallback = st.quickTimeCallback ∧
      ∀ j y, j < n → st.ingredients[j]? = some y → cur.time < y.time → 0xFFFF ≤ y.time)

/-- The board `st`, `k` ticks after `pumpsRecipe(ingredients, n)` was accepted
on board `st0` with zero delays, no fault and no command in between. -/
structure RunInv (st0 : Board) (n k : Nat) (st : Board) : Prop where
  ptr : st.pumpLastRecipe = RecipePtr.ingredients
  count : st.pumpLastRecipeCount = n
  len : st.ingredients.length = st0.ingredients.length
  entries : ∀ j, j < n → st.ingredients[j]? =
    (st0.ingredients[j]?).map (fun x => if x.time ≤ k then zeroed x else x)
  time : st.systemTime % 2 ^ 64 = (st0.systemTime + k) % 2 ^ 64
  off : ∀ j x, j < n → st0.ingredients[j]? = some x → x.time ≤ k →
    pumpOutput st x.pump = false
  ctl :
    (∃ I x, I < n ∧ st0.ingredients[I]? = some x ∧ k < x.time ∧ st.pumpLastIndex = I ∧
      (∀ j y, j < n → st0.ingredients[j]? = some y → k < y.time → x.time ≤ y.time) ∧
      st.pumpRunning = 1 ∧
      st.quickTimeCallback = some CallbackType.pumpHandleRecipeState ∧
      st.quickTimeFire = (st0.systemTime + x.time) % 2 ^ 64) ∨
    ((∀ j y, j < n → st0.ingredients[j]? = some y → y.time ≤ k) ∧ st.pumpRunning = 0)

/-- The ingredients `pumpsRecipe` is given in the zero-delay claims: slots
`0 .. n - 1` hold a pump id in 1..20, a duration in 1..65534 and delay 0. -/
def ZeroDelayRecipe (st0 : Board) (n : Nat) : Prop :=
  ∀ j, j < n → ∃ x, st0.ingredients[j]? = some x ∧
    (1 ≤ x.pump ∧ x.pump ≤ 20) ∧ (1 ≤ x.time ∧ x.time ≤ 65534) ∧ x.delay = 0

/-- The board after the statement `systemTime++` of the tick interrupt. -/
def advance (st : Board) : Board := { st with systemTime := (st.systemTime + 1) % 2 ^ 64 }

/-- The longest stored duration of a recipe. -/
def maxTime : List RecipeIngredient → Nat
  | [] => 0
  | x :: xs => max x.time (maxTime xs)

/-- The board on which the one-ingredient recipe (pump 1, duration 1 ms,
delay 65535 ms) has been committed. -/
def overflowRecipe : Board :=
  { powerOn with ingredients := [⟨1, 1, 65535⟩] ++ List.replicate 19 ⟨0, 0, 0⟩
                 ingredientCount := 1 }

/-- The function `pumpsClean` of `pumps.c`; `state` is a `uint8_t`.  The
`_delay_ms(PUMP_CLEAN_DELAY)` between two pumps is a busy wait that changes no
variable; it is left out. -/
def pumpsClean (state : Nat) (st : Board) : Board :=
  if state ≠ 0 ∧ st.pumpRunning ≠ 0 then
    serialWriteString "Error: can't clean while pumps are running!\n" st
  else if state = 0 ∧ st.pumpRunning = 0 then
    serialWriteString "Error: can't stop cleaning while no pumps are running!\n" st
  else
    pumpSetAll state { st with pumpRunning := if state ≠ 0 then 1 else 0 }

/-- Whether bit `j` of port A is the documented output of pump `id`: pumps
P01..P08 are PA0..PA7 (header of `pumps.c`). -/
def pinOfPortA (id j : Nat) : Bool := decide (1 ≤ id ∧ id ≤ 8 ∧ j = id - 1)

/-- Whether bit `j` of port B is the documented output of pump `id`: pumps
P09..P16 are PB0..PB7. -/
def pinOfPortB (id j : Nat) : Bool := decide (9 ≤ id ∧ id ≤ 16 ∧ j = id - 9)

/-- Whether bit `j` of port H is the documented output of pump `id`: pumps
P17..P20 are PH0..PH3. -/
def pinOfPortH (id j : Nat) : Bool := decide (17 ≤ id ∧ id ≤ 20 ∧ j = id - 17)

/-- The callback that `ISR(TCC0_CCA_vect)`, run on board `st`, invokes, if it
invokes one: the armed callback, when the incremented counter equals the fire
tick. -/
def tickInvokes (st : Board) : Option CallbackType :=
  if (st.systemTime + 1) % 2 ^ 64 = st.quickTimeFire then st.quickTimeCallback else none

/-- The variables of the recipe store and the tick counter, which neither
`pumpsRecipe` nor the deadline handler writes, and the `ingredients` array, of
which the handler only zeroes durations. -/
structure HandlerKeeps (a b : Board) : Prop where
  ingredientCount : b.ingredientCount = a.ingredientCount
  statePump : b.statePump = a.statePump
  stateTime : b.stateTime = a.stateTime
  stateDelay : b.stateDelay = a.stateDelay
  state : b.state = a.state
  systemTime : b.systemTime = a.systemTime
  len : b.ingredients.length = a.ingredients.length
  entries : ∀ (j : Nat), b.ingredients[j]? = a.ingredients[j]? ∨
    b.ingredients[j]? = (a.ingredients[j]?).map zeroed

/-- What the loop of the deadline handler keeps besides: the running flag and
the deadline slot. -/
structure LoopKeeps (a b : Board) : Prop where
  keeps : HandlerKeeps a b
  pumpRunning : b.pumpRunning = a.pumpRunning
  quickTimeFire : b.quickTimeFire = a.quickTimeFire
  quickTimeCallback : b.quickTimeCallback = a.quickTimeCallback
  pumpLastRecipe : b.pumpLastRecipe = a.pumpLastRecipe
  pumpLastRecipeCount : b.pumpLastRecipeCount = a.pumpLastRecipeCount

/-- What any run of the deadline handler does to the deadline slot: it re-arms
it for the recorded index, which is then below `RECIPE_MAX_INGREDIENTS`, or it
leaves it alone and clears the running flag. -/
def SlotAfter (st st' : Board) : Prop :=
  (st'.pumpLastIndex < RECIPE_MAX_INGREDIENTS ∧
    st'.quickTimeCallback = some CallbackType.pumpHandleRecipeState ∧
    st'.pumpRunning = st.pumpRunning) ∨
  (¬ st'.pumpLastIndex < RECIPE_MAX_INGREDIENTS ∧ st'.quickTimeFire = st.quickTimeFire ∧
    st'.quickTimeCallback = st.quickTimeCallback ∧ st'.pumpRunning = 0)

/-- The board four ticks into the dispense of scenario A: the next tick fires
the last deadline. -/
def scenarioLastTick : Board :=
  ((pumpsRecipe RecipePtr.ingredients 3 scenarioA).bind (ticks 4)).getD powerOn

/-- The bit mask `PIN7_bm` of the device header: bit 7 of a port. -/
def PIN7_bm : Nat := 0x80

/-- The first part of `recipeGo` on a non-empty store: the status LED is
turned on (`PORTE.OUTCLR = PIN7_bm`) and `pumpsRecipe(ingredients,
ingredientCount)` is called. -/
def recipeGoStart (st : Board) : Option Board :=
  pumpsRecipe RecipePtr.ingredients st.ingredientCount
    { st with portE := outClr st.portE PIN7_bm }

/-- The busy wait `while (pumpsDispensing());` of `recipeGo`: the only code
that runs meanwhile is the tick interrupt, and `fuel` bounds the number of
ticks waited for. -/
def recipeGoWait : Nat → Board → Option Board
  | 0, st => if pumpsDispensing st ≠ 0 then none else some st
  | fuel + 1, st =>
    if pumpsDispensing st ≠ 0 then (tickISR st).bind (recipeGoWait fuel) else some st

/-- The function `recipeGo` of `recipe.c`, waiting for at most `fuel` ticks. -/
def recipeGo (fuel : Nat) (_arg : Nat) (st : Board) : Option Board :=
  if st.ingredientCount = 0 then
    some (serialWriteString "Error: no ingredients stored!\n" st)
  else
    match recipeGoStart st with
    | none => none
    | some st =>
      match recipeGoWait fuel st with
      | none => none
      | some st => some (recipeReset 0 { st with portE := outSet st.portE PIN7_bm })

/-- What a run of ticks may do to the recipe store: the count and the array
length stay, and every slot is as before or has its duration zeroed. -/
structure StoreKeeps (a b : Board) : Prop where
  ingredientCount : b.ingredientCount = a.ingredientCount
  len : b.ingredients.length = a.ingredients.length
  entries : ∀ (j : Nat), b.ingredients[j]? = a.ingredients[j]? ∨
    b.ingredients[j]? = (a.ingredients[j]?).map zeroed

/-- The board three ticks into the dispense that `recipeGo` starts in
scenario A. -/
def scenarioGo : Board := ((recipeGoStart scenarioA).bind (ticks 3)).getD powerOn

/-- The board on which the one-ingredient recipe (pump 1, duration 65535 ms)
has been staged and committed. -/
def sentinelRecipe : Board :=
  runOps [RecipeOp.pump 1, RecipeOp.duration 65535, RecipeOp.store] powerOn

/-- The invariant of a started recipe of `n` ingredients, `st0` being the
board on which `pumpsRecipe` was called: the handler still works on the
store's array, the pump ids in it are those of `st0`, the recorded index is
a slot of the recipe or `RECIPE_MAX_INGREDIENTS`, and a pump is on exactly
when an ingredient with a non-zero stored duration names it. -/
structure PendingInv (st0 : Board) (n : Nat) (st : Board) : Prop where
  ptr : st.pumpLastRecipe = RecipePtr.ingredients
  count : st.pumpLastRecipeCount = n
  len : st.ingredients.length = st0.ingredients.length
  pumps : ∀ (j : Nat) (x : RecipeIngredient), j < n → st.ingredients[j]? = some x →
    ∃ x0, st0.ingredients[j]? = some x0 ∧ x0.pump = x.pump
  index : st.pumpLastIndex < n ∨ st.pumpLastIndex = RECIPE_MAX_INGREDIENTS
  energized : ∀ q, 1 ≤ q → q ≤ 20 →
    (pumpOutput st q = true ↔
      ∃ (j : Nat) (x : RecipeIngredient), j < n ∧ st.ingredients[j]? = some x ∧ x.pump = q ∧
        x.time ≠ 0)

/-- The ingredient with its delay erased. -/
def noDelay (ing : RecipeIngredient) : RecipeIngredient := { ing with delay := 0 }

/-- The board with every stored delay erased: two boards with the same image
differ in stored delays only. -/
def eraseDelay (st : Board) : Board := { st with ingredients := st.ingredients.map noDelay }

/-- The board on which the second half of an accepted `pumpsRecipe(p, n)`
works: the first loop has recorded the stop value `T` at index `I`. -/
def startEntry (p : RecipePtr) (n T I : Nat) (st : Board) : Board :=
  { st with pumpLastRecipe := p, pumpLastRecipeCount := n, pumpLastTime := T,
            pumpLastIndex := I, pumpCurrentRunTime := 0, pumpRunning := 1 }

/-- The one-ingredient recipe (pump 1, 2 ms, no delay), committed. -/
def delayFree : Board :=
  { powerOn with ingredients := [⟨1, 2, 0⟩] ++ List.replicate 19 ⟨0, 0, 0⟩, ingredientCount := 1 }

/-- The one-ingredient recipe (pump 1, 2 ms, delay 1 ms), committed. -/
def delayed : Board :=
  { powerOn with ingredients := [⟨1, 2, 1⟩] ++ List.replicate 19 ⟨0, 0, 0⟩, ingredientCount := 1 }

/-- The recipe (pump 1, 3 ms), (pump 2, 5 ms) without delays, committed. -/
def delayPairA : Board :=
  { powerOn with ingredients := [⟨1, 3, 0⟩, ⟨2, 5, 0⟩] ++ List.replicate 18 ⟨0, 0, 0⟩
                 ingredientCount := 2 }

/-- The recipe (pump 1, 3 ms), (pump 2, 5 ms, delay 4 ms), committed. -/
def delayPairB : Board :=
  { powerOn with ingredients := [⟨1, 3, 0⟩, ⟨2, 5, 4⟩] ++ List.replicate 18 ⟨0, 0, 0⟩
                 ingredientCount := 2 }

/-- The delay that the claim on staged delays expects after the calls `ops`:
the argument of the most recent `recipeDelay` since the last `recipeReset`,
and `acc` (0 right after a reset) if there was none. -/
def lastDelay : List RecipeOp → Nat → Nat
  | [], acc => acc
  | RecipeOp.reset :: ops, _ => lastDelay ops 0
  | RecipeOp.delay arg :: ops, _ => lastDelay ops arg
  | RecipeOp.pump _ :: ops, acc => lastDelay ops acc
  | RecipeOp.duration _ :: ops, acc => lastDelay ops acc
  | RecipeOp.store :: ops, acc => lastDelay ops acc

/-- The level of the output pin of status light `id` (1..20), as `lightsSet`
drives them: lights 1..5 are PC0..PC4, 6..10 are PD0..PD4, 11..15 are
PE0..PE4, 16..20 are PF0..PF4. -/
def lightOutput (st : Board) (id : Nat) : Bool :=
  if id - 1 < 5 then st.portC.testBit (id - 1)
  else if id - 1 < 10 then st.portD.testBit (id - 1 - 5)
  else if id - 1 < 15 then st.portE.testBit (id - 1 - 10)
  else st.portF.testBit (id - 1 - 15)

/-- The board on which the recipe (pump 1, 1 ms), (pump 2, 65535 ms) has been
committed. -/
def sentinelPair : Board :=
  runOps [RecipeOp.pump 1, RecipeOp.duration 1, RecipeOp.store,
    RecipeOp.pump 2, RecipeOp.duration 65535, RecipeOp.store] powerOn

/-- The board on which the deadline handler of `sentinelPair` is invoked: the
dispense has been started and the counter has been incremented to tick 1. -/
def sentinelPairDue : Board :=
  ((pumpsRecipe RecipePtr.ingredients 2 sentinelPair).map advance).getD powerOn

/-- A run from power-on: the recipe (pump 1, 5 ms) is committed and started by
`recipeGo` at tick 0 (deadline at tick 5); after one tick the fault interrupt
of driver port 0 is taken, which ends the wait loop of `recipeGo`, and
`recipeGo` returns through `recipeReset`; then the recipe (pump 1, 65535 ms)
is committed and `recipeGo` is called, whose `pumpsRecipe` refuses it; three
more ticks pass.  The board is at tick 4. -/
def staleDeadline : Option Board :=
  (recipeGoStart (runOps [RecipeOp.pump 1, RecipeOp.duration 5, RecipeOp.store] powerOn)).bind
    fun s1 => (ticks 1 s1).bind
    fun s2 => (recipeGoWait 0 (pumpErrorInterrupt 0 s2)).bind
    fun s3 => (recipeGo 0 0
        (runOps [RecipeOp.pump 1, RecipeOp.duration 65535, RecipeOp.store]
          (recipeReset 0 { s3 with portE := outSet s3.portE PIN7_bm }))).bind
    (ticks 3)

/-- The second loop of `pumpsRecipe` from index `i0` on: the iterations for
`i0 .. ingredients - 1`. -/
def recipeAllOnFrom (recipe : RecipePtr) (i0 ingredients : Nat) (st : Board) : Option Board :=
  (List.range' i0 (ingredients - i0)).foldlM
    (fun s i => match recipe.get s i with
      | none => none
      | some ing => some (pumpSet ing.pump 1 s)) st

/-- The second half of an accepted `pumpsRecipe(recipe, ingredients)`, after
the first loop has recorded `T` and `I`, with a stop after `j` iterations of
the second loop at which `during` runs: the identity for an undisturbed call,
an interrupt handler for a call that is preempted there.  No statement of
`pumpsRecipe` disables interrupts. -/
def pumpsRecipePreempted (during : Board → Board) (recipe : RecipePtr)
    (ingredients T I j : Nat) (st : Board) : Option Board :=
  (recipeAllOn recipe j (startEntry recipe ingredients T I st)).bind fun s =>
    (recipeAllOnFrom recipe j ingredients (during s)).map fun s =>
      quickTimeFireIn s.pumpLastTime (some CallbackType.pumpHandleRecipeState) s

/-- The command methods of `interface.c`: the functions that the function
pointers of `commands[]` point to. -/
inductive InterfaceMethod where
  | methodHelp
  | methodVersion
  | recipeReset
  | recipePump
  | recipeDuration
  | recipeDelay
  | recipeStore
  | recipeGo
  | recipeList
  | methodClean
  | pumpOn
  | pumpOff
  | methodDebug
deriving DecidableEq, Repr

/-- The struct `InterfaceCommand`: the bytes `chars[MAX_CHARS_PER_COMMAND]`
and the method. -/
structure InterfaceCommand where
  chars : List Nat
  callback : InterfaceMethod
deriving DecidableEq, Repr

/-- `MAX_CHARS_PER_COMMAND` of `interface.c`. -/
def MAX_CHARS_PER_COMMAND : Nat := 3

/-- The table `commands[]` of `interface.c`, the characters as byte values:
`h H ?`, `v V`, `r R`, `p P`, `d D`, `w W`, `s S`, `g G`, `l L`, `c C`, `n N`,
`f F`, `q`; the unused slots are written as 0 in the source. -/
def commands : List InterfaceCommand :=
  [ ⟨[104, 72, 63], InterfaceMethod.methodHelp⟩,
    ⟨[118, 86, 0], InterfaceMethod.methodVersion⟩,
    ⟨[114, 82, 0], InterfaceMethod.recipeReset⟩,
    ⟨[112, 80, 0], InterfaceMethod.recipePump⟩,
    ⟨[100, 68, 0], InterfaceMethod.recipeDuration⟩,
    ⟨[119, 87, 0], InterfaceMethod.recipeDelay⟩,
    ⟨[115, 83, 0], InterfaceMethod.recipeStore⟩,
    ⟨[103, 71, 0], InterfaceMethod.recipeGo⟩,
    ⟨[108, 76, 0], InterfaceMethod.recipeList⟩,
    ⟨[99, 67, 0], InterfaceMethod.methodClean⟩,
    ⟨[110, 78, 0], InterfaceMethod.pumpOn⟩,
    ⟨[102, 70, 0], InterfaceMethod.pumpOff⟩,
    ⟨[113, 0, 0], InterfaceMethod.methodDebug⟩ ]

/-- `STATE_RESET` of `interface.c`. -/
def STATE_RESET : Nat := 0

/-- `STATE_READING` of `interface.c`. -/
def STATE_READING : Nat := 1

/-- `PREFIX_LEN` of `interface.c`: `config.h` sets the command prefix to the
empty string. -/
def PREFIX_LEN : Nat := 0

/-- `MAX_PARAMETER_LEN` of `interface.c`. -/
def MAX_PARAMETER_LEN : Nat := 6

/-- `BUF_LEN` of `interface.c`. -/
def BUF_LEN : Nat := MAX_PARAMETER_LEN + PREFIX_LEN + 10

/-- `COMMANDLINE_STRING` of `config.h`. -/
def COMMANDLINE_STRING : String := "?> "

/-- What `interface.c` does to the rest of the firmware: a string written
with `serialWriteString(1, s)`, a byte echoed with `serialWrite(1, c)`, or a
command method called with its argument. -/
inductive InterfaceEvent where
  | write (s : String)
  | echo (c : Nat)
  | call (m : InterfaceMethod) (arg : Nat)
deriving DecidableEq, Repr

/-- The variables of `interface.c`, the bytes received on UART 1 that
`serialGet` has not yet returned (`rx`), and what the module has done so far
(`events`).  The command methods act on the board and on no variable of
`interface.c`; their calls are recorded. -/
structure Interface where
  state : Nat
  lineBuffer : List Nat
  lineBufferLen : Nat
  rx : List Nat
  events : List InterfaceEvent
deriving DecidableEq, Repr

/-- The module after reset: the statics are zero-initialised, nothing has
been received. -/
def interfaceAtReset : Interface :=
  { state := STATE_RESET, lineBuffer := List.replicate BUF_LEN 0, lineBufferLen := 0,
    rx := [], events := [] }

/-- Record one event. -/
def Interface.emit (ifc : Interface) (e : InterfaceEvent) : Interface :=
  { ifc with events := ifc.events ++ [e] }

/-- The search of `interfaceHandler`: the method of the first entry of the
table one of whose `MAX_CHARS_PER_COMMAND` bytes equals `c`. -/
def interfaceFind (c : Nat) : List InterfaceCommand → Option InterfaceMethod
  | [] => none
  | cmd :: rest =>
    if (cmd.chars.take MAX_CHARS_PER_COMMAND).any (fun ch => ch == c) then some cmd.callback
    else interfaceFind c rest

/-- The function `interfaceHandler` of `interface.c`; `c` is a `uint8_t`. -/
def interfaceHandler (c arg : Nat) (ifc : Interface) : Interface :=
  match interfaceFind c commands with
  | some m => ifc.emit (InterfaceEvent.call m arg)
  | none => ifc.emit (InterfaceEvent.write "Error: unknown command!\n")

/-- The inner loop of `convertAsciiToInt`: `x = 1`, then `n` times
`x *= 10` in 16 bits. -/
def tenTimes (n : Nat) : Nat := (List.range n).foldl (fun x _ => (x * 10) % 2 ^ 16) 1

/-- One iteration, for index `i`, of the outer loop of `convertAsciiToInt`.
The loop state is `(res, n)`; `n` is a `uint8_t`, `res` and `x` are
`uint16_t`, and `(s[i] - 48) * x` is computed in 16-bit unsigned arithmetic.
A read outside `s` gives `none`. -/
def convertStep (s : List Nat) (acc : Nat × Nat) (i : Nat) : Option (Nat × Nat) :=
  match s[i]? with
  | none => none
  | some d =>
    some ((acc.1 + ((d + 2 ^ 16 - 48) % 2 ^ 16 * tenTimes acc.2) % 2 ^ 16) % 2 ^ 16,
      (acc.2 + 255) % 256)

/-- The function `convertAsciiToInt` of `interface.c`: `res = 0` and
`n = l - 1` (as a `uint8_t`) before the loop, `res` is returned. -/
def convertAsciiToInt (s : List Nat) (l : Nat) : Option Nat :=
  ((List.range l).foldlM (convertStep s) (0, (l + 255) % 256)).map Prod.fst

/-- How the parameter loop of `interfaceHandleLine` ends: with an error
message, or with `digitIndex` bytes in `digitBuffer`. -/
inductive DigitScan where
  | error (msg : String)
  | done (digitBuffer : List Nat) (digitIndex : Nat)
deriving DecidableEq, Repr

/-- The loop `while (n < lineBufferLen)` of `interfaceHandleLine`, with
`fuel = lineBufferLen - n` iterations to go.  An access outside `lineBuffer`
or `digitBuffer` gives `none`. -/
def interfaceDigits (lineBuffer : List Nat) : Nat → Nat → List Nat → Nat → Option DigitScan
  | 0, _, digitBuffer, digitIndex => some (DigitScan.done digitBuffer digitIndex)
  | fuel + 1, n, digitBuffer, digitIndex =>
    match lineBuffer[n]? with
    | none => none
    | some ch =>
      if ch < 48 ∨ ch > 57 then some (DigitScan.error "Error: non-ASCII-digit parameter!\n")
      else if digitIndex < digitBuffer.length then
        if digitIndex < MAX_PARAMETER_LEN - 1 then
          interfaceDigits lineBuffer fuel (n + 1) (digitBuffer.set digitIndex ch) (digitIndex + 1)
        else some (DigitScan.error "Error: parameter is too long!\n")
      else none

/-- The function `interfaceHandleLine` of `interface.c`.  With the empty
command prefix the prefix loop has no iteration.  The local `digitBuffer` is
not initialised in the source; it starts as zeros here and is read only where
it has been written. -/
def interfaceHandleLine (ifc : Interface) : Option Interface :=
  if ifc.lineBufferLen < PREFIX_LEN + 1 then some ifc
  else
    match ifc.lineBuffer[PREFIX_LEN]? with
    | none => none
    | some c =>
      if PREFIX_LEN + 1 ≥ ifc.lineBufferLen then some (interfaceHandler c 0 ifc)
      else
        match interfaceDigits ifc.lineBuffer (ifc.lineBufferLen - (PREFIX_LEN + 1))
            (PREFIX_LEN + 1) (List.replicate MAX_PARAMETER_LEN 0) 0 with
        | none => none
        | some (DigitScan.error msg) => some (ifc.emit (InterfaceEvent.write msg))
        | some (DigitScan.done digitBuffer digitIndex) =>
          match convertAsciiToInt digitBuffer digitIndex with
          | none => none
          | some v => some (interfaceHandler c v ifc)

/-- The function `interfaceLoop` of `interface.c` (`DISABLE_SERIAL_ECHO` is
not defined).  `serialHasChar(1)` is `rx ≠ []`, `serialGet(1)` takes the first
byte of `rx`; a write outside `lineBuffer` gives `none`. -/
def interfaceLoop (ifc : Interface) : Option Interface :=
  if ifc.state = STATE_RESET then
    some { ifc.emit (InterfaceEvent.write COMMANDLINE_STRING) with
      state := STATE_READING, lineBufferLen := 0 }
  else if ifc.state = STATE_READING then
    match ifc.rx with
    | [] => some ifc
    | c :: rest =>
      let ifc := { ifc with rx := rest }
      let ifc := ifc.emit (InterfaceEvent.echo c)
      if c ≠ 13 ∧ c ≠ 10 then
        if ifc.lineBufferLen < ifc.lineBuffer.length then
          let ifc := { ifc with lineBuffer := ifc.lineBuffer.set ifc.lineBufferLen c }
          if ifc.lineBufferLen < BUF_LEN - 1 then
            some { ifc with lineBufferLen := ifc.lineBufferLen + 1 }
          else
            some (ifc.emit
              (InterfaceEvent.write "Error: command line buffer will overflow!\n"))
        else none
      else if c = 10 then
        match interfaceHandleLine ifc with
        | none => none
        | some ifc => some { ifc with state := STATE_RESET }
      else some ifc
  else
    some { ifc.emit (InterfaceEvent.write "Error: Invalid State!\n") with state := STATE_RESET }

/-- The main loop as far as `interface.c` goes: before each call of
`interfaceLoop` the bytes of one element of `arrivals` (possibly none) have
been received. -/
def interfaceRun : List (List Nat) → Interface → Option Interface
  | [], ifc => some ifc
  | bytes :: rest, ifc =>
    match interfaceLoop { ifc with rx := ifc.rx ++ bytes } with
    | none => none
    | some ifc => interfaceRun rest ifc

/-- The decimal value of a string of ASCII digits, as the claims on
parameters read it. -/
def decimalValue (ds : List Nat) : Nat := ds.foldl (fun v d => 10 * v + (d - 48)) 0

/-- The 25 command characters listed in the claim on `interfaceHandler`:
h H ? v V r R p P d D w W s S g G l L c C n N f F q. -/
def listedCommandChars : List Nat :=
  [104, 72, 63, 118, 86, 114, 82, 112, 80, 100, 68, 119, 87, 115, 83, 103, 71, 108, 76, 99, 67,
    110, 78, 102, 70, 113]

/-- The module with `line` collected in `lineBuffer`, waiting for the end of
the line. -/
def interfaceWithLine (line : List Nat) : Interface :=
  { interfaceAtReset with
    state := STATE_READING
    lineBuffer := line ++ List.replicate (BUF_LEN - line.length) 0
    lineBufferLen := line.length }

/-- The invariant of the line buffer: `lineBuffer` has its `BUF_LEN` slots and
`lineBufferLen` is at most `BUF_LEN - 1`. -/
def InterfaceInv (ifc : Interface) : Prop :=
  ifc.lineBuffer.length = BUF_LEN ∧ ifc.lineBufferLen ≤ BUF_LEN - 1

/-- The call `quickTimeCallback()` of the tick interrupt, through the
function pointer `cb`. -/
def CallbackType.invoke : CallbackType → Board → Option Board
  | CallbackType.pumpHandleRecipeState, st => PumpBoard.pumpHandleRecipeState st

/-- The board right after `pumpsRecipe` has started scenario A. -/
def scenarioStarted : Board := (pumpsRecipe RecipePtr.ingredients 3 scenarioA).getD powerOn

/-- Scenario A just started, the deadline armed anew 2 ticks ahead, one tick
later. -/
def scenarioRearmed : Board :=
  (ticks 1 (quickTimeFireIn 2 (some CallbackType.pumpHandleRecipeState) scenarioStarted)).getD
    powerOn

/-! ## Registers and flags -/

theorem testBit_outSet (p i j : Nat) :
    (outSet p (1 <<< i)).testBit j = (p.testBit j || decide (i = j)) := by
  simp [outSet, Nat.one_shiftLeft, Nat.testBit_two_pow]

theorem testBit_outClr (p i j : Nat) (hi : i < 8) :
    (outClr p (1 <<< i)).testBit j = (p.testBit j && decide (j < 8) && !decide (i = j)) := by
  have h255 : (0xFF : Nat) = 2 ^ 8 - 1 := by norm_num
  simp only [outClr, Nat.one_shiftLeft, Nat.testBit_and, Nat.testBit_xor, h255,
    Nat.testBit_two_pow_sub_one, Nat.testBit_two_pow]
  by_cases h1 : j < 8 <;> by_cases h2 : i = j <;> simp [h1, h2]
  omega

/-! ## The recipe store -/

theorem and_flag_eq_zero (x i : Nat) : x &&& 2 ^ i = 0 ↔ x.testBit i = false := by
  rw [Nat.and_two_pow]
  cases h : x.testBit i <;> simp [h]

theorem pumpFlag_eq_zero (x : Nat) : x &&& FLAG_STATE_PUMP = 0 ↔ x.testBit 0 = false :=
  and_flag_eq_zero x 0

theorem timeFlag_eq_zero (x : Nat) : x &&& FLAG_STATE_TIME = 0 ↔ x.testBit 1 = false :=
  and_flag_eq_zero x 1

theorem testBit_or_flag (x i j : Nat) : (x ||| 2 ^ i).testBit j = (x.testBit j || decide (i = j)) := by
  simp [Nat.testBit_two_pow]

/-- What `recipeFind` returns. -/
theorem recipeFind_some (st : Board) (fuel i k : Nat) (h : recipeFind st fuel i = some k) :
    i ≤ k ∧ k < i + fuel ∧ (st.ingredients.getD k ⟨0, 0, 0⟩).pump = st.statePump ∧
      ∀ j, i ≤ j → j < k → (st.ingredients.getD j ⟨0, 0, 0⟩).pump ≠ st.statePump := by
  induction fuel generalizing i with
  | zero => simp [recipeFind] at h
  | succ n ih =>
    unfold recipeFind at h
    split at h
    · next heq =>
      cases h
      exact ⟨le_refl _, by omega, heq, fun j h1 h2 => by omega⟩
    · next hne =>
      obtain ⟨h1, h2, h3, h4⟩ := ih (i + 1) h
      refine ⟨by omega, by omega, h3, fun j hj1 hj2 => ?_⟩
      by_cases hji : j = i
      · subst hji; exact hne
      · exact h4 j (by omega) hj2

theorem recipeFind_none (st : Board) (fuel i : Nat) (h : recipeFind st fuel i = none) :
    ∀ j, i ≤ j → j < i + fuel → (st.ingredients.getD j ⟨0, 0, 0⟩).pump ≠ st.statePump := by
  induction fuel generalizing i with
  | zero => intro j h1 h2; omega
  | succ n ih =>
    unfold recipeFind at h
    split at h
    · cases h
    · next hne =>
      intro j h1 h2
      by_cases hji : j = i
      · subst hji; exact hne
      · exact ih (i + 1) h j (by omega) (by omega)

theorem committed_getElem? (st : Board) (j : Nat) (hj : j < st.ingredientCount) :
    (committed st)[j]? = st.ingredients[j]? := by
  simp [committed, List.getElem?_take, hj]

theorem committed_length (st : Board) (h : st.ingredientCount ≤ st.ingredients.length) :
    (committed st).length = st.ingredientCount := by
  simp [committed, h]

/-- A rejected `recipeStore` only writes the error message. -/
theorem recipeStore_rejected (st : Board)
    (h : st.ingredientCount ≥ 20 ∨ st.state.testBit 0 = false ∨ st.state.testBit 1 = false) :
    recipeStore 0 st = serialWriteString "Error: too many ingredients in recipe!\n" st ∨
      recipeStore 0 st = serialWriteString "Error: can't store without pump and time!\n" st := by
  unfold recipeStore
  by_cases h1 : st.ingredientCount ≥ RECIPE_MAX_INGREDIENTS
  · exact Or.inl (if_pos h1)
  · rw [if_neg h1]
    right
    have h2 : st.state &&& FLAG_STATE_PUMP = 0 ∨ st.state &&& FLAG_STATE_TIME = 0 := by
      rw [pumpFlag_eq_zero, timeFlag_eq_zero]
      rcases h with h | h | h
      · exact absurd h h1
      · exact Or.inl h
      · exact Or.inr h
    exact if_pos h2

/-- An accepted `recipeStore` that finds the staged pump at index `k`. -/
theorem recipeStore_overwrite (st : Board) (k : Nat) (hc : st.ingredientCount < 20)
    (hp : st.state.testBit 0 = true) (ht : st.state.testBit 1 = true)
    (hk : recipeFind st st.ingredientCount 0 = some k) :
    recipeStore 0 st = { st with ingredients := st.ingredients.set k (stagedIngredient st) } := by
  unfold recipeStore
  have h1 : ¬ st.ingredientCount ≥ RECIPE_MAX_INGREDIENTS := by
    simp only [RECIPE_MAX_INGREDIENTS]; omega
  have h2 : ¬ (st.state &&& FLAG_STATE_PUMP = 0 ∨ st.state &&& FLAG_STATE_TIME = 0) := by
    rw [pumpFlag_eq_zero, timeFlag_eq_zero]; simp [hp, ht]
  rw [if_neg h1, if_neg h2, hk]
  rfl

/-- An accepted `recipeStore` that does not find the staged pump. -/
theorem recipeStore_append (st : Board) (hc : st.ingredientCount < 20)
    (hp : st.state.testBit 0 = true) (ht : st.state.testBit 1 = true)
    (hk : recipeFind st st.ingredientCount 0 = none) :
    recipeStore 0 st =
      { st with ingredients := st.ingredients.set st.ingredientCount (stagedIngredient st)
                ingredientCount := st.ingredientCount + 1 } := by
  unfold recipeStore
  have h1 : ¬ st.ingredientCount ≥ RECIPE_MAX_INGREDIENTS := by
    simp only [RECIPE_MAX_INGREDIENTS]; omega
  have h2 : ¬ (st.state &&& FLAG_STATE_PUMP = 0 ∨ st.state &&& FLAG_STATE_TIME = 0) := by
    rw [pumpFlag_eq_zero, timeFlag_eq_zero]; simp [hp, ht]
  rw [if_neg h1, if_neg h2, hk]
  rfl

/-- The pump of slot `j` as the search loop reads it, for a committed slot. -/
theorem getD_pump_committed (st : Board) (j : Nat) (hj : j < st.ingredientCount)
    (hlen : st.ingredientCount ≤ st.ingredients.length) :
    ∃ ing, (committed st)[j]? = some ing ∧ st.ingredients.getD j ⟨0, 0, 0⟩ = ing := by
  have hj2 : j < st.ingredients.length := by omega
  refine ⟨st.ingredients[j], ?_, ?_⟩
  · rw [committed_getElem? st j hj, List.getElem?_eq_getElem hj2]
  · rw [List.getD_eq_getElem?_getD, List.getElem?_eq_getElem hj2]; rfl

/-- The search loop finds the staged pump exactly when it is committed. -/
theorem recipeFind_none_iff (st : Board) (hlen : st.ingredientCount ≤ st.ingredients.length) :
    recipeFind st st.ingredientCount 0 = none ↔
      st.statePump ∉ (committed st).map (fun ing => ing.pump) := by
  constructor
  · intro h hmem
    obtain ⟨ing, hing, hpump⟩ := List.mem_map.1 hmem
    obtain ⟨j, hj⟩ := List.mem_iff_getElem?.1 hing
    have hjc : j < st.ingredientCount := by
      by_contra hcon
      simp [committed, List.getElem?_take, hcon] at hj
    obtain ⟨ing2, h1, h2⟩ := getD_pump_committed st j hjc hlen
    rw [hj] at h1; cases h1
    exact recipeFind_none st _ 0 h j (Nat.zero_le _) (by omega) (by rw [h2]; exact hpump)
  · intro h
    cases hf : recipeFind st st.ingredientCount 0 with
    | none => rfl
    | some k =>
      exfalso
      obtain ⟨_, hk, hpump, _⟩ := recipeFind_some st _ 0 k hf
      obtain ⟨ing, h1, h2⟩ := getD_pump_committed st k (by omega) hlen
      apply h
      exact List.mem_map.2 ⟨ing, List.mem_iff_getElem?.2 ⟨k, h1⟩, by rw [← h2]; exact hpump⟩

theorem committed_overwrite (st : Board) (k : Nat) (x : RecipeIngredient) :
    committed { st with ingredients := st.ingredients.set k x } = (committed st).set k x := by
  simp [committed, List.set_take]

theorem committed_append (st : Board) (x : RecipeIngredient)
    (h : st.ingredientCount < st.ingredients.length) :
    committed { st with ingredients := st.ingredients.set st.ingredientCount x
                        ingredientCount := st.ingredientCount + 1 } = committed st ++ [x] := by
  simp only [committed]
  rw [List.take_succ, List.set_take, List.set_eq_of_length_le (by simp)]
  simp [List.getElem?_set, h]

theorem set_eq_self {α : Type} (l : List α) (k : Nat) (a : α) (h : l[k]? = some a) :
    l.set k a = l := by
  apply List.ext_getElem?
  intro j
  rw [List.getElem?_set]
  by_cases hkj : k = j
  · subst hkj
    have hlt : k < l.length := by
      by_contra hcon
      rw [List.getElem?_eq_none (by omega)] at h
      cases h
    simp [hlt, h]
  · simp [hkj]

theorem testBit_or_one (x j : Nat) : (x ||| FLAG_STATE_PUMP).testBit j = (x.testBit j || decide (0 = j)) :=
  testBit_or_flag x 0 j

theorem testBit_or_two (x j : Nat) : (x ||| FLAG_STATE_TIME).testBit j = (x.testBit j || decide (1 = j)) :=
  testBit_or_flag x 1 j

theorem testBit_or_four (x j : Nat) : (x ||| FLAG_STATE_DELAY).testBit j = (x.testBit j || decide (2 = j)) :=
  testBit_or_flag x 2 j

theorem StoreInv.serial (st : Board) (msg : String) (h : StoreInv st) :
    StoreInv (serialWriteString msg st) :=
  ⟨h.len, h.count, h.valid, h.nodup, h.pumpStaged, h.timeStaged⟩

theorem StoreInv.reset (st : Board) (hlen : st.ingredients.length = 20) :
    StoreInv (recipeReset 0 st) := by
  refine ⟨hlen, Nat.zero_le _, ?_, ?_, ?_, ?_⟩ <;> simp [recipeReset, committed]

theorem StoreInv.pump (st : Board) (arg : Nat) (h : StoreInv st) : StoreInv (recipePump arg st) := by
  unfold recipePump
  split
  · exact h.serial _ _
  · next hr =>
    split
    · exact h.serial _ _
    · refine ⟨h.len, h.count, h.valid, h.nodup, fun _ => ?_, fun ht => h.timeStaged ?_⟩
      · have : arg % 256 = arg := Nat.mod_eq_of_lt (by omega)
        simp only [this]; omega
      · rw [testBit_or_one] at ht; simpa using ht

theorem StoreInv.duration (st : Board) (arg : Nat) (h : StoreInv st) :
    StoreInv (recipeDuration arg st) := by
  unfold recipeDuration
  split
  · exact h.serial _ _
  · next hr =>
    split
    · exact h.serial _ _
    · refine ⟨h.len, h.count, h.valid, h.nodup, fun hp => h.pumpStaged ?_, fun _ => ?_⟩
      · rw [testBit_or_two] at hp; simpa using hp
      · exact Nat.pos_of_ne_zero hr

theorem StoreInv.delay (st : Board) (arg : Nat) (h : StoreInv st) :
    StoreInv (recipeDelay arg st) := by
  unfold recipeDelay
  refine ⟨h.len, h.count, h.valid, h.nodup, fun hp => h.pumpStaged ?_, fun ht => h.timeStaged ?_⟩
  · rw [testBit_or_four] at hp; simpa using hp
  · rw [testBit_or_four] at ht; simpa using ht

theorem StoreInv.store (st : Board) (h : StoreInv st) : StoreInv (recipeStore 0 st) := by
  by_cases hc : st.ingredientCount ≥ 20
  · rcases recipeStore_rejected st (Or.inl hc) with hm | hm <;>
      (rw [hm]; exact h.serial _ _)
  cases hp : st.state.testBit 0 with
  | false =>
    rcases recipeStore_rejected st (Or.inr (Or.inl hp)) with hm | hm <;>
      (rw [hm]; exact h.serial _ _)
  | true =>
  cases ht : st.state.testBit 1 with
  | false =>
    rcases recipeStore_rejected st (Or.inr (Or.inr ht)) with hm | hm <;>
      (rw [hm]; exact h.serial _ _)
  | true =>
  have hc2 : st.ingredientCount < 20 := by omega
  have hlen : st.ingredientCount ≤ st.ingredients.length := by rw [h.len]; omega
  have hnew : 1 ≤ (stagedIngredient st).pump ∧ (stagedIngredient st).pump ≤ 20 ∧
      0 < (stagedIngredient st).time := ⟨(h.pumpStaged hp).1, (h.pumpStaged hp).2, h.timeStaged ht⟩
  cases hf : recipeFind st st.ingredientCount 0 with
  | some k =>
    rw [recipeStore_overwrite st k hc2 hp ht hf]
    obtain ⟨_, hk, hpump, _⟩ := recipeFind_some st _ 0 k hf
    obtain ⟨ing, h1, h2⟩ := getD_pump_committed st k (by omega) hlen
    refine ⟨by simpa using h.len, h.count, ?_, ?_, h.pumpStaged, h.timeStaged⟩
    · intro x hx
      rw [committed_overwrite] at hx
      rcases List.mem_or_eq_of_mem_set hx with hx | hx
      · exact h.valid x hx
      · rw [hx]; exact hnew
    · rw [committed_overwrite, List.map_set]
      rw [set_eq_self]
      · exact h.nodup
      · rw [List.getElem?_map, h1]
        simp only [Option.map_some', stagedIngredient]
        rw [← h2, hpump]
  | none =>
    rw [recipeStore_append st hc2 hp ht hf]
    have hlt : st.ingredientCount < st.ingredients.length := by rw [h.len]; omega
    refine ⟨by simpa using h.len, by simp only; omega, ?_, ?_, h.pumpStaged, h.timeStaged⟩
    · intro x hx
      rw [committed_append st _ hlt] at hx
      rcases List.mem_append.1 hx with hx | hx
      · exact h.valid x hx
      · rw [List.mem_singleton.1 hx]; exact hnew
    · rw [committed_append st _ hlt, List.map_append, List.nodup_append]
      refine ⟨h.nodup, by simp, ?_⟩
      have := (recipeFind_none_iff st hlen).1 hf
      simpa [List.Disjoint, stagedIngredient] using this

theorem StoreInv.run (op : RecipeOp) (st : Board) (h : StoreInv st) : StoreInv (op.run st) := by
  cases op with
  | reset => exact StoreInv.reset st h.len
  | pump arg => exact h.pump st arg
  | duration arg => exact h.duration st arg
  | delay arg => exact h.delay st arg
  | store => exact h.store st

theorem StoreInv.runOps (ops : List RecipeOp) (st : Board) (h : StoreInv st) :
    StoreInv (runOps ops st) := by
  induction ops generalizing st with
  | nil => exact h
  | cons op ops ih => exact ih _ (h.run op st)

theorem StoreInv.powerOn : StoreInv powerOn := by
  refine ⟨by decide, by decide, ?_, ?_, ?_, ?_⟩ <;> simp [PumpBoard.powerOn, committed]

theorem serial_append_ne (l : List SerialItem) (a : SerialItem) : l ++ [a] ≠ l := by
  intro h
  have := congrArg List.length h
  simp at this

theorem recipeStore_state (st : Board) : (recipeStore 0 st).state = st.state := by
  unfold recipeStore
  split
  · rfl
  · split
    · rfl
    · split <;> rfl

theorem pumpFlag_tracks (ops : List RecipeOp) (st : Board) :
    succeededSinceReset isPumpOp ops st (st.state.testBit 0) = (runOps ops st).state.testBit 0 := by
  induction ops generalizing st with
  | nil => rfl
  | cons op ops ih =>
    simp only [succeededSinceReset, runOps, List.foldl_cons]
    rw [← runOps, ← ih (op.run st)]
    congr 1
    cases op with
    | reset => simp [RecipeOp.run, recipeReset]
    | pump arg =>
      simp only [RecipeOp.run, recipePump, isPumpOp, reduceCtorEq, if_false, true_and]
      split
      · simp [serialWriteString, serial_append_ne]
      · split
        · simp [serialWriteString, serial_append_ne]
        · simp [FLAG_STATE_PUMP]
    | duration arg =>
      simp only [RecipeOp.run, recipeDuration, isPumpOp, reduceCtorEq, if_false, false_and,
        Bool.false_eq_true]
      split
      · rfl
      · split
        · rfl
        · rw [testBit_or_two]; simp
    | delay arg =>
      simp only [RecipeOp.run, recipeDelay, isPumpOp, reduceCtorEq, if_false, false_and,
        Bool.false_eq_true]
      rw [testBit_or_four]; simp
    | store =>
      simp only [RecipeOp.run, isPumpOp, reduceCtorEq, if_false, false_and, Bool.false_eq_true]
      rw [recipeStore_state]

theorem timeFlag_tracks (ops : List RecipeOp) (st : Board) :
    succeededSinceReset isDurationOp ops st (st.state.testBit 1) =
      (runOps ops st).state.testBit 1 := by
  induction ops generalizing st with
  | nil => rfl
  | cons op ops ih =>
    simp only [succeededSinceReset, runOps, List.foldl_cons]
    rw [← runOps, ← ih (op.run st)]
    congr 1
    cases op with
    | reset => simp [RecipeOp.run, recipeReset]
    | pump arg =>
      simp only [RecipeOp.run, recipePump, isDurationOp, reduceCtorEq, if_false, false_and,
        Bool.false_eq_true]
      split
      · rfl
      · split
        · rfl
        · rw [testBit_or_one]; simp
    | duration arg =>
      simp only [RecipeOp.run, recipeDuration, isDurationOp, reduceCtorEq, if_false, true_and]
      split
      · simp [serialWriteString, serial_append_ne]
      · split
        · simp [serialWriteString, serial_append_ne]
        · simp only [if_true]; rw [testBit_or_two]; simp
    | delay arg =>
      simp only [RecipeOp.run, recipeDelay, isDurationOp, reduceCtorEq, if_false, false_and,
        Bool.false_eq_true]
      rw [testBit_or_four]; simp
    | store =>
      simp only [RecipeOp.run, isDurationOp, reduceCtorEq, if_false, false_and,
        Bool.false_eq_true]
      rw [recipeStore_state]

/-- Claim C6: in every state reached from power-on by any sequence of
`recipeReset`, `recipePump`, `recipeDuration`, `recipeDelay` and `recipeStore`
calls with arbitrary arguments, the committed recipe has at most 20
ingredients, every ingredient has a pump id in 1..20 and a duration above 0,
and no two ingredients share a pump id. -/
theorem store_invariant (ops : List RecipeOp) :
    (runOps ops powerOn).ingredientCount ≤ 20 ∧
    (committed (runOps ops powerOn)).length = (runOps ops powerOn).ingredientCount ∧
    (∀ ing ∈ committed (runOps ops powerOn), 1 ≤ ing.pump ∧ ing.pump ≤ 20 ∧ 0 < ing.time) ∧
    ((committed (runOps ops powerOn)).map (fun ing => ing.pump)).Nodup := by
  have h := StoreInv.runOps ops powerOn StoreInv.powerOn
  exact ⟨h.count, committed_length _ (by rw [h.len]; exact h.count), h.valid, h.nodup⟩

/-- Claim C8, amended: if `recipePump` has not succeeded, or `recipeDuration`
has not succeeded, since the most recent `recipeReset`, then `recipeStore`
reports an error and changes nothing but the serial log, so the committed
recipe keeps its count and every entry.  (A successful `recipeStore` does not
clear the staging flags, so staging carries over from one commit to the next.) -/
theorem store_without_staging (st0 : Board) (ops : List RecipeOp)
    (h : succeededSinceReset isPumpOp ops (recipeReset 0 st0) false = false ∨
      succeededSinceReset isDurationOp ops (recipeReset 0 st0) false = false) :
    recipeStore 0 (runOps ops (recipeReset 0 st0)) =
        serialWriteString "Error: too many ingredients in recipe!\n"
          (runOps ops (recipeReset 0 st0)) ∨
      recipeStore 0 (runOps ops (recipeReset 0 st0)) =
        serialWriteString "Error: can't store without pump and time!\n"
          (runOps ops (recipeReset 0 st0)) := by
  apply recipeStore_rejected
  right
  have hp := pumpFlag_tracks ops (recipeReset 0 st0)
  have ht := timeFlag_tracks ops (recipeReset 0 st0)
  have h0 : (recipeReset 0 st0).state = 0 := rfl
  rw [h0] at hp ht
  simp only [Nat.zero_testBit] at hp ht
  rcases h with h | h
  · left; rw [← hp]; exact h
  · right; rw [← ht]; exact h

/-- After a reset, `recipePump(3)` and `recipeDelay(7)` stage no duration:
`recipeStore` reports an error. -/
theorem store_without_staging_witness :
    recipeStore 0 (runOps [RecipeOp.pump 3, RecipeOp.delay 7] (recipeReset 0 powerOn)) =
        serialWriteString "Error: too many ingredients in recipe!\n"
          (runOps [RecipeOp.pump 3, RecipeOp.delay 7] (recipeReset 0 powerOn)) ∨
      recipeStore 0 (runOps [RecipeOp.pump 3, RecipeOp.delay 7] (recipeReset 0 powerOn)) =
        serialWriteString "Error: can't store without pump and time!\n"
          (runOps [RecipeOp.pump 3, RecipeOp.delay 7] (recipeReset 0 powerOn)) :=
  store_without_staging powerOn [RecipeOp.pump 3, RecipeOp.delay 7] (Or.inr (by decide))

/-- Claim C8 as stated fails: after pump 1 has been committed for 100 ms, a
lone `recipePump(2)` followed by `recipeStore` (no `recipeDuration` since the
successful store) reports nothing and commits pump 2 with the old duration. -/
theorem store_after_store_counterexample :
    (runOps [RecipeOp.pump 1, RecipeOp.duration 100, RecipeOp.store] (recipeReset 0 powerOn)).ingredientCount = 1 ∧
    succeededSinceReset isDurationOp [RecipeOp.pump 2] (runOps [RecipeOp.pump 1, RecipeOp.duration 100, RecipeOp.store] (recipeReset 0 powerOn)) false = false ∧
    (recipeStore 0 (runOps [RecipeOp.pump 1, RecipeOp.duration 100, RecipeOp.store, RecipeOp.pump 2] (recipeReset 0 powerOn))).serial = [] ∧
    committed (recipeStore 0 (runOps [RecipeOp.pump 1, RecipeOp.duration 100, RecipeOp.store, RecipeOp.pump 2] (recipeReset 0 powerOn))) = [⟨1, 100, 0⟩, ⟨2, 100, 0⟩] := by
  decide

theorem nodup_index_unique (l : List Nat) (h : l.Nodup) (i j : Nat) (p : Nat)
    (hi : l[i]? = some p) (hj : l[j]? = some p) : i = j := by
  have hil : i < l.length := by
    by_contra hcon; rw [List.getElem?_eq_none (by omega)] at hi; cases hi
  have hjl : j < l.length := by
    by_contra hcon; rw [List.getElem?_eq_none (by omega)] at hj; cases hj
  rw [List.nodup_iff_getElem?_ne_getElem?] at h
  rcases Nat.lt_trichotomy i j with hlt | heq | hgt
  · exact absurd (hi.trans hj.symm) (h i j hlt hjl)
  · exact heq
  · exact absurd (hj.trans hi.symm) (h j i hgt hil)

/-- Overwrite on a state that satisfies the store invariant. -/
theorem restage_overwrite (st : Board) (h : StoreInv st) (p d k : Nat) (ing : RecipeIngredient)
    (hcount : st.ingredientCount < 20) (hd : 0 < d)
    (hk : (committed st)[k]? = some ing) (hp : ing.pump = p) :
    (restage p d st).ingredientCount = st.ingredientCount ∧
      committed (restage p d st) = (committed st).set k ⟨p, d, st.stateDelay⟩ := by
  have hmem : ing ∈ committed st := List.mem_iff_getElem?.2 ⟨k, hk⟩
  have hv := h.valid ing hmem
  rw [hp] at hv
  have hlen : st.ingredientCount ≤ st.ingredients.length := by rw [h.len]; omega
  -- the two staging calls succeed
  have h1 : recipePump p st =
      { st with statePump := p, state := st.state ||| FLAG_STATE_PUMP } := by
    unfold recipePump
    rw [if_neg (by omega), if_neg (by simp only [RECIPE_MAX_INGREDIENTS]; omega),
      Nat.mod_eq_of_lt (by omega)]
  have h2 : recipeDuration d (recipePump p st) =
      { st with statePump := p, stateTime := d
                state := st.state ||| FLAG_STATE_PUMP ||| FLAG_STATE_TIME } := by
    rw [h1]; unfold recipeDuration
    rw [if_neg (by omega), if_neg (by simp only [RECIPE_MAX_INGREDIENTS]; omega)]
  generalize hs2 : recipeDuration d (recipePump p st) = st2 at h2
  have hcom : committed st2 = committed st := by rw [h2]; rfl
  have hcnt : st2.ingredientCount = st.ingredientCount := by rw [h2]
  have hst : stagedIngredient st2 = ⟨p, d, st.stateDelay⟩ := by rw [h2]; rfl
  have hsp : st2.statePump = p := by rw [h2]
  have hlen2 : st2.ingredientCount ≤ st2.ingredients.length := by rw [h2]; exact hlen
  have hb0 : st2.state.testBit 0 = true := by
    rw [h2]; show (st.state ||| FLAG_STATE_PUMP ||| FLAG_STATE_TIME).testBit 0 = true
    rw [testBit_or_two, testBit_or_one]; simp
  have hb1 : st2.state.testBit 1 = true := by
    rw [h2]; show (st.state ||| FLAG_STATE_PUMP ||| FLAG_STATE_TIME).testBit 1 = true
    rw [testBit_or_two]; simp
  -- the search finds index k
  have hfind : recipeFind st2 st2.ingredientCount 0 = some k := by
    cases hf : recipeFind st2 st2.ingredientCount 0 with
    | none =>
      exfalso
      apply (recipeFind_none_iff st2 hlen2).1 hf
      rw [hcom, hsp]
      exact List.mem_map.2 ⟨ing, hmem, hp⟩
    | some k2 =>
      obtain ⟨_, hk2, hpump, _⟩ := recipeFind_some st2 _ 0 k2 hf
      obtain ⟨ing2, e1, e2⟩ := getD_pump_committed st2 k2 (by omega) hlen2
      rw [hcom] at e1
      have : k2 = k := by
        apply nodup_index_unique _ h.nodup k2 k p
        · rw [List.getElem?_map, e1]; simp only [Option.map_some']
          rw [← e2, hpump, hsp]
        · rw [List.getElem?_map, hk]; simp only [Option.map_some']; rw [hp]
      rw [this]
  unfold restage
  rw [hs2, recipeStore_overwrite st2 k (by omega) hb0 hb1 hfind]
  refine ⟨hcnt, ?_⟩
  rw [committed_overwrite, hcom, hst]

/-- Claim C7, amended: in every state reached from `recipeReset` that holds
fewer than 20 ingredients and has pump `p` committed at slot `k`, the calls
`recipePump(p)`, `recipeDuration(d)` with `d > 0` and `recipeStore` leave the
ingredient count unchanged and replace slot `k` by pump `p` with duration `d`
(and the staged delay); every other slot is unchanged. -/
theorem overwrite_in_place (st0 : Board) (ops : List RecipeOp) (p d k : Nat)
    (ing : RecipeIngredient) (hlen : st0.ingredients.length = 20)
    (hcount : (runOps ops (recipeReset 0 st0)).ingredientCount < 20) (hd : 0 < d)
    (hk : (committed (runOps ops (recipeReset 0 st0)))[k]? = some ing) (hp : ing.pump = p) :
    (restage p d (runOps ops (recipeReset 0 st0))).ingredientCount =
        (runOps ops (recipeReset 0 st0)).ingredientCount ∧
      committed (restage p d (runOps ops (recipeReset 0 st0))) =
        (committed (runOps ops (recipeReset 0 st0))).set k
          ⟨p, d, (runOps ops (recipeReset 0 st0)).stateDelay⟩ :=
  restage_overwrite _ (StoreInv.runOps ops _ (StoreInv.reset st0 hlen)) p d k ing hcount hd hk hp

/-- With pumps 1 and 2 committed, restaging pump 1 for 500 ms overwrites slot 0. -/
theorem overwrite_in_place_witness :
    committed (restage 1 500 (runOps [RecipeOp.pump 1, RecipeOp.duration 100, RecipeOp.store,
        RecipeOp.pump 2, RecipeOp.duration 300, RecipeOp.store] (recipeReset 0 powerOn))) =
      [⟨1, 500, 0⟩, ⟨2, 300, 0⟩] :=
  (overwrite_in_place powerOn [RecipeOp.pump 1, RecipeOp.duration 100, RecipeOp.store,
    RecipeOp.pump 2, RecipeOp.duration 300, RecipeOp.store] 1 500 0 ⟨1, 100, 0⟩
    (by decide) (by decide) (by decide) (by decide) (by decide)).2

set_option maxRecDepth 100000 in
/-- Claim C7 as stated fails at size 20: with pumps 1..20 committed for 100 ms
each, the calls `recipePump(1)`, `recipeDuration(200)`, `recipeStore` leave
the entry of pump 1 at 100 ms. -/
theorem overwrite_full_counterexample :
    (runOps fillOps (recipeReset 0 powerOn)).ingredientCount = 20 ∧
    (committed (runOps fillOps (recipeReset 0 powerOn)))[0]? = some ⟨1, 100, 0⟩ ∧
    (committed (restage 1 200 (runOps fillOps (recipeReset 0 powerOn))))[0]? = some ⟨1, 100, 0⟩ := by
  decide

/-- Claim C10: for every 16-bit argument `x` outside 1..20, `recipePump(x)`
reports an error and changes nothing else (staged pump, duration, delay, flags
and committed recipe are as before); `recipeDuration(0)` likewise. -/
theorem invalid_staging_rejected (st : Board) (x : Nat) (_hx : x < 2 ^ 16) (hr : x < 1 ∨ 20 < x) :
    recipePump x st =
        { st with serial := st.serial ++ [SerialItem.str "Error: invalid pump id!\n"] } ∧
      recipeDuration 0 st =
        { st with serial := st.serial ++
            [SerialItem.str "Error: only positive integer times are allowed!\n"] } := by
  constructor
  · unfold recipePump; rw [if_pos hr]; rfl
  · rfl

/-- Scenario C of the spec: `recipePump(21)` after power-on. -/
theorem invalid_staging_rejected_witness :
    recipePump 21 powerOn =
        { powerOn with serial := powerOn.serial ++ [SerialItem.str "Error: invalid pump id!\n"] } ∧
      recipeDuration 0 powerOn =
        { powerOn with serial := powerOn.serial ++
            [SerialItem.str "Error: only positive integer times are allowed!\n"] } :=
  invalid_staging_rejected powerOn 21 (by decide) (by decide)

/-! ## Listing the recipe -/

theorem mem_firstCommitOrder (ps : List Nat) (q : Nat) : q ∈ firstCommitOrder ps ↔ q ∈ ps := by
  induction ps with
  | nil => simp [firstCommitOrder]
  | cons p ps ih =>
    simp only [firstCommitOrder, List.mem_cons, List.mem_filter, ih]
    by_cases h : q = p <;> simp [h]

theorem firstCommitOrder_snoc (ps : List Nat) (p : Nat) :
    firstCommitOrder (ps ++ [p]) =
      if p ∈ ps then firstCommitOrder ps else firstCommitOrder ps ++ [p] := by
  induction ps with
  | nil => simp [firstCommitOrder]
  | cons a ps ih =>
    rw [List.cons_append, firstCommitOrder, ih, firstCommitOrder]
    by_cases h1 : p = a
    · subst h1
      by_cases h2 : p ∈ ps <;> simp [h2, List.filter_append]
    · by_cases h2 : p ∈ ps <;> simp [h1, h2, List.filter_append]

theorem lastCommit_snoc (p : Nat) (cs : List Commit) (c : Commit) :
    lastCommit p (cs ++ [c]) = if c.pump = p then some c else lastCommit p cs := by
  simp only [lastCommit, List.reverse_append, List.reverse_cons, List.reverse_nil, List.nil_append,
    List.singleton_append, List.find?_cons]
  by_cases h : c.pump = p <;> simp [h]

theorem lastCommit_pump (p : Nat) (cs : List Commit) (c : Commit) (h : lastCommit p cs = some c) :
    c.pump = p := by
  have := List.find?_some h
  simpa using this

theorem lastCommit_isSome (p : Nat) (cs : List Commit) (h : p ∈ cs.map Commit.pump) :
    ∃ c, lastCommit p cs = some c := by
  obtain ⟨c, hc, hp⟩ := List.mem_map.1 h
  cases hl : lastCommit p cs with
  | some c => exact ⟨c, rfl⟩
  | none =>
    exfalso
    simp only [lastCommit, List.find?_eq_none, List.mem_reverse] at hl
    exact hl c hc (by simpa using hp)

theorem expectedList_pumps (cs : List Commit) :
    (expectedList cs).map (fun ing => ing.pump) = firstCommitOrder (cs.map Commit.pump) := by
  unfold expectedList
  rw [List.map_filterMap]
  have : ∀ p ∈ firstCommitOrder (cs.map Commit.pump),
      Option.map (fun ing => ing.pump) (Option.map Commit.ingredient (lastCommit p cs)) = some p := by
    intro p hp
    obtain ⟨c, hc⟩ := lastCommit_isSome p cs ((mem_firstCommitOrder _ _).1 hp)
    simp [hc, Commit.ingredient, lastCommit_pump p cs c hc]
  rw [List.filterMap_congr this]
  simp

theorem expectedList_snoc (cs : List Commit) (c : Commit) :
    expectedList (cs ++ [c]) = upsert (expectedList cs) c.ingredient := by
  unfold upsert
  rw [expectedList_pumps]
  have hcp : c.ingredient.pump = c.pump := rfl
  simp only [hcp, mem_firstCommitOrder]
  unfold expectedList
  rw [List.map_append, List.map_singleton, firstCommitOrder_snoc]
  by_cases hmem : c.pump ∈ cs.map Commit.pump
  · rw [if_pos hmem, if_pos hmem, List.map_filterMap]
    apply List.filterMap_congr
    intro p hp
    rw [lastCommit_snoc]
    by_cases h : c.pump = p
    · obtain ⟨c2, hc2⟩ := lastCommit_isSome p cs ((mem_firstCommitOrder _ _).1 hp)
      have := lastCommit_pump p cs c2 hc2
      simp [h, hc2, Commit.ingredient, this]
    · rw [if_neg h]
      cases hl : lastCommit p cs with
      | none => rfl
      | some c2 =>
        have := lastCommit_pump p cs c2 hl
        simp only [Option.map_some', Commit.ingredient]
        rw [if_neg (by rw [this]; exact fun e => h e.symm)]
  · rw [if_neg hmem, if_neg hmem, List.filterMap_append]
    congr 1
    · apply List.filterMap_congr
      intro p hp
      rw [lastCommit_snoc]
      have : c.pump ≠ p := by
        intro e; apply hmem; rw [e]; exact (mem_firstCommitOrder _ _).1 hp
      rw [if_neg this]
    · simp [lastCommit_snoc]

/-- The loop of `recipeList` writes one report line per slot. -/
theorem recipeList_loop (st : Board) (n : Nat) (hn : n ≤ st.ingredients.length) :
    (List.range n).foldl recipeListBody st =
      { st with serial := st.serial ++ (st.ingredients.take n).flatMap reportLine } := by
  induction n with
  | zero => simp
  | succ n ih =>
    rw [List.range_succ, List.foldl_append, ih (by omega)]
    have hlt : n < st.ingredients.length := by omega
    simp only [List.foldl_cons, List.foldl_nil, recipeListBody, serialWriteString,
      serialWriteInt16, List.take_succ, List.flatMap_append, List.getD_eq_getElem?_getD,
      List.getElem?_eq_getElem hlt, Option.getD_some, Option.toList_some, List.flatMap_cons,
      List.flatMap_nil, List.append_nil, reportLine, List.append_assoc, List.singleton_append,
      List.cons_append, List.nil_append]

theorem recipeList_serial (st : Board) (h : st.ingredientCount ≤ st.ingredients.length) :
    (recipeList 0 st).serial = st.serial ++ report (committed st) := by
  unfold recipeList
  simp only []
  have e : (serialWriteString " ingredients\n" (serialWriteInt16
      (serialWriteString "Stored " st).ingredientCount (serialWriteString "Stored " st))).ingredientCount
      = st.ingredientCount := rfl
  rw [e, recipeList_loop _ _ (show st.ingredientCount ≤ (serialWriteString " ingredients\n"
    (serialWriteInt16 (serialWriteString "Stored " st).ingredientCount
      (serialWriteString "Stored " st))).ingredients.length from h)]
  simp [report, committed, h, serialWriteString, serialWriteInt16]

theorem recipePump_ok (st : Board) (p : Nat) (h1 : 1 ≤ p) (h2 : p ≤ 20)
    (hc : st.ingredientCount < 20) :
    recipePump p st = { st with statePump := p, state := st.state ||| FLAG_STATE_PUMP } := by
  unfold recipePump
  rw [if_neg (by omega), if_neg (by simp only [RECIPE_MAX_INGREDIENTS]; omega),
    Nat.mod_eq_of_lt (by omega)]

theorem recipeDuration_ok (st : Board) (d : Nat) (h1 : 0 < d) (hc : st.ingredientCount < 20) :
    recipeDuration d st = { st with stateTime := d, state := st.state ||| FLAG_STATE_TIME } := by
  unfold recipeDuration
  rw [if_neg (by omega), if_neg (by simp only [RECIPE_MAX_INGREDIENTS]; omega)]

/-- After the three staging calls of a valid commit, in any order, the three
fields are staged and both required flags are set. -/
theorem staging_effect (st : Board) (c : Commit) (hcount : st.ingredientCount < 20)
    (hp : 1 ≤ c.pump ∧ c.pump ≤ 20) (hd : 0 < c.duration) :
    (runOps c.staging st).ingredients = st.ingredients ∧
    (runOps c.staging st).ingredientCount = st.ingredientCount ∧
    (runOps c.staging st).serial = st.serial ∧
    stagedIngredient (runOps c.staging st) = c.ingredient ∧
    (runOps c.staging st).state.testBit 0 = true ∧
    (runOps c.staging st).state.testBit 1 = true := by
  obtain ⟨h1, h2⟩ := hp
  have t21 : Nat.testBit 2 1 = true := by decide
  unfold Commit.staging
  cases c.order <;>
    simp only [runOps, List.foldl_cons, List.foldl_nil, RecipeOp.run] <;>
    simp [recipePump_ok, recipeDuration_ok, recipeDelay, h1, h2, hd, hcount, t21,
      stagedIngredient, Commit.ingredient, FLAG_STATE_PUMP, FLAG_STATE_TIME, FLAG_STATE_DELAY]

theorem set_eq_map_replace (l : List RecipeIngredient)
    (hnd : (l.map (fun ing => ing.pump)).Nodup) (k : Nat) (ing x : RecipeIngredient)
    (hk : l[k]? = some ing) (hp : ing.pump = x.pump) :
    l.set k x = l.map (fun ing => if ing.pump = x.pump then x else ing) := by
  apply List.ext_getElem?
  intro j
  rw [List.getElem?_set, List.getElem?_map]
  have hkl : k < l.length := by
    by_contra hcon; rw [List.getElem?_eq_none (by omega)] at hk; cases hk
  by_cases hkj : k = j
  · subst hkj
    simp [hkl, hk, hp]
  · rw [if_neg hkj]
    cases hj : l[j]? with
    | none => rfl
    | some y =>
      simp only [Option.map_some']
      by_cases hy : y.pump = x.pump
      · exfalso
        apply hkj
        apply nodup_index_unique _ hnd k j x.pump
        · rw [List.getElem?_map, hk]; simp [hp]
        · rw [List.getElem?_map, hj]; simp [hy]
      · rw [if_neg hy]

/-- An accepted `recipeStore` overwrites or appends the staged ingredient. -/
theorem recipeStore_upsert (st : Board) (hlen : st.ingredients.length = 20)
    (hc : st.ingredientCount < 20) (hnd : ((committed st).map (fun ing => ing.pump)).Nodup)
    (hp : st.state.testBit 0 = true) (ht : st.state.testBit 1 = true) :
    committed (recipeStore 0 st) = upsert (committed st) (stagedIngredient st) ∧
    (recipeStore 0 st).serial = st.serial ∧
    (recipeStore 0 st).ingredients.length = 20 ∧
    (recipeStore 0 st).ingredientCount = (upsert (committed st) (stagedIngredient st)).length := by
  have hle : st.ingredientCount ≤ st.ingredients.length := by omega
  have hcl := committed_length st hle
  cases hf : recipeFind st st.ingredientCount 0 with
  | some k =>
    rw [recipeStore_overwrite st k hc hp ht hf]
    obtain ⟨_, hk, hpump, _⟩ := recipeFind_some st _ 0 k hf
    obtain ⟨ing, h1, h2⟩ := getD_pump_committed st k (by omega) hle
    have hmem : (stagedIngredient st).pump ∈ (committed st).map (fun ing => ing.pump) :=
      List.mem_map.2 ⟨ing, List.mem_iff_getElem?.2 ⟨k, h1⟩, by rw [← h2]; exact hpump⟩
    have hups : upsert (committed st) (stagedIngredient st) =
        (committed st).set k (stagedIngredient st) := by
      unfold upsert
      rw [if_pos hmem, set_eq_map_replace _ hnd k ing _ h1 (by rw [← h2]; exact hpump)]
    rw [committed_overwrite, hups]
    refine ⟨rfl, rfl, by simpa using hlen, ?_⟩
    simp [hcl]
  | none =>
    rw [recipeStore_append st hc hp ht hf]
    have hnm : (stagedIngredient st).pump ∉ (committed st).map (fun ing => ing.pump) :=
      (recipeFind_none_iff st hle).1 hf
    have hups : upsert (committed st) (stagedIngredient st) =
        committed st ++ [stagedIngredient st] := by
      unfold upsert; rw [if_neg hnm]
    rw [committed_append st _ (by omega), hups]
    refine ⟨rfl, rfl, by simpa using hlen, ?_⟩
    simp [hcl]

theorem runOps_append (a b : List RecipeOp) (st : Board) :
    runOps (a ++ b) st = runOps b (runOps a st) := by
  simp [runOps, List.foldl_append]

theorem length_firstCommitOrder_le (ps : List Nat) : (firstCommitOrder ps).length ≤ ps.length := by
  induction ps with
  | nil => simp [firstCommitOrder]
  | cons p ps ih =>
    simp only [firstCommitOrder, List.length_cons]
    have := List.length_filter_le (fun q => decide (q ≠ p)) (firstCommitOrder ps)
    omega

theorem nodup_firstCommitOrder (ps : List Nat) : (firstCommitOrder ps).Nodup := by
  induction ps with
  | nil => simp [firstCommitOrder]
  | cons p ps ih =>
    simp only [firstCommitOrder, List.nodup_cons, List.mem_filter]
    exact ⟨by simp, ih.filter _⟩

theorem length_expectedList_le (cs : List Commit) : (expectedList cs).length ≤ cs.length := by
  have h := congrArg List.length (expectedList_pumps cs)
  have h2 := length_firstCommitOrder_le (cs.map Commit.pump)
  simp only [List.length_map] at h h2
  omega

/-- The store after a sequence of valid commits. -/
theorem commitAll_effect (st0 : Board) (hlen : st0.ingredients.length = 20) (cs : List Commit)
    (hn : cs.length ≤ 20)
    (hv : ∀ c ∈ cs, 1 ≤ c.pump ∧ c.pump ≤ 20 ∧ 0 < c.duration) :
    committed (runOps (commitAll cs) (recipeReset 0 st0)) = expectedList cs ∧
    (runOps (commitAll cs) (recipeReset 0 st0)).serial = st0.serial ∧
    (runOps (commitAll cs) (recipeReset 0 st0)).ingredients.length = 20 ∧
    (runOps (commitAll cs) (recipeReset 0 st0)).ingredientCount = (expectedList cs).length := by
  induction cs using List.reverseRecOn with
  | nil => simp [commitAll, runOps, recipeReset, committed, expectedList, firstCommitOrder, hlen]
  | append_singleton cs c ih =>
    have hn2 : cs.length + 1 ≤ 20 := by simpa using hn
    obtain ⟨ih1, ih2, ih3, ih4⟩ := ih (by omega) (fun x hx => hv x (List.mem_append_left _ hx))
    obtain ⟨hc1, hc2, hc3⟩ := hv c (List.mem_append_right _ (List.mem_singleton_self c))
    have hops : commitAll (cs ++ [c]) = commitAll cs ++ (c.staging ++ [RecipeOp.store]) := by
      simp [commitAll, Commit.ops]
    rw [hops, runOps_append, runOps_append]
    generalize runOps (commitAll cs) (recipeReset 0 st0) = st at ih1 ih2 ih3 ih4
    have hcount : st.ingredientCount < 20 := by
      have := length_expectedList_le cs
      omega
    obtain ⟨s1, s2, s3, s4, s5, s6⟩ := staging_effect st c hcount ⟨hc1, hc2⟩ hc3
    generalize runOps c.staging st = st1 at s1 s2 s3 s4 s5 s6
    have hcom : committed st1 = committed st := by simp [committed, s1, s2]
    have hnd : ((committed st1).map (fun ing => ing.pump)).Nodup := by
      rw [hcom, ih1, expectedList_pumps]; exact nodup_firstCommitOrder _
    obtain ⟨u1, u2, u3, u4⟩ := recipeStore_upsert st1 (by rw [s1]; exact ih3) (by omega) hnd s5 s6
    have hrun : runOps [RecipeOp.store] st1 = recipeStore 0 st1 := rfl
    rw [hrun, expectedList_snoc, ← ih1, ← hcom, ← s4]
    exact ⟨u1, by rw [u2, s3, ih2], u3, u4⟩

/-- Claim C9: after `recipeReset`, for every sequence of at most 20 commits
with pump in 1..20, duration in 1..65535 and delay in 0..65535, each staged in
any of the six orders and then stored, the committed recipe, and what
`recipeList` writes to the serial port, is the list of the distinct pump ids
in order of first commit, each with the duration and delay of its last commit. -/
theorem list_roundtrip (st0 : Board) (cs : List Commit) (hlen : st0.ingredients.length = 20)
    (hn : cs.length ≤ 20)
    (hv : ∀ c ∈ cs, (1 ≤ c.pump ∧ c.pump ≤ 20) ∧ (1 ≤ c.duration ∧ c.duration ≤ 65535) ∧
      c.delay ≤ 65535) :
    committed (runOps (commitAll cs) (recipeReset 0 st0)) = expectedList cs ∧
    (recipeList 0 (runOps (commitAll cs) (recipeReset 0 st0))).serial =
      st0.serial ++ report (expectedList cs) := by
  obtain ⟨h1, h2, h3, h4⟩ := commitAll_effect st0 hlen cs hn
    (fun c hc => ⟨(hv c hc).1.1, (hv c hc).1.2, (hv c hc).2.1.1⟩)
  refine ⟨h1, ?_⟩
  rw [recipeList_serial _ (by rw [h3, h4]; have := length_expectedList_le cs; omega), h1, h2]

/-- Three commits in three different staging orders, the third overwriting the
first. -/
theorem list_roundtrip_witness :
    committed (runOps (commitAll [⟨1, 10, 0, StageOrder.pumpDurationDelay⟩,
        ⟨2, 10, 0, StageOrder.delayDurationPump⟩, ⟨1, 30, 5, StageOrder.durationPumpDelay⟩])
        (recipeReset 0 powerOn)) = [⟨1, 30, 5⟩, ⟨2, 10, 0⟩] :=
  (list_roundtrip powerOn [⟨1, 10, 0, StageOrder.pumpDurationDelay⟩,
        ⟨2, 10, 0, StageOrder.delayDurationPump⟩, ⟨1, 30, 5, StageOrder.durationPumpDelay⟩]
    (by decide) (by decide) (by decide)).1

/-! ## Pump outputs, the fault handler and the deadline handler -/

theorem SameControl.reflSame (a : Board) : SameControl a a := by
  constructor <;> rfl

theorem SameControl.transSame {a b c : Board} (h1 : SameControl a b) (h2 : SameControl b c) :
    SameControl a c := by
  constructor
  · rw [h2.ingredients, h1.ingredients]
  · rw [h2.ingredientCount, h1.ingredientCount]
  · rw [h2.statePump, h1.statePump]
  · rw [h2.stateTime, h1.stateTime]
  · rw [h2.stateDelay, h1.stateDelay]
  · rw [h2.state, h1.state]
  · rw [h2.pumpRunning, h1.pumpRunning]
  · rw [h2.pumpLastTime, h1.pumpLastTime]
  · rw [h2.pumpLastIndex, h1.pumpLastIndex]
  · rw [h2.pumpLastRecipe, h1.pumpLastRecipe]
  · rw [h2.pumpLastRecipeCount, h1.pumpLastRecipeCount]
  · rw [h2.pumpCurrentRunTime, h1.pumpCurrentRunTime]
  · rw [h2.systemTime, h1.systemTime]
  · rw [h2.quickTimeFire, h1.quickTimeFire]
  · rw [h2.quickTimeCallback, h1.quickTimeCallback]

theorem lightsSet_sameControl (id state : Nat) (st : Board) :
    SameControl st (lightsSet id state st) := by
  unfold lightsSet
  dsimp only
  split_ifs <;> constructor <;> rfl

theorem lightsSet_pumpPorts (id state : Nat) (st : Board) :
    (lightsSet id state st).portA = st.portA ∧ (lightsSet id state st).portB = st.portB ∧
      (lightsSet id state st).portH = st.portH ∧ (lightsSet id state st).serial = st.serial := by
  unfold lightsSet
  dsimp only
  split_ifs <;> exact ⟨rfl, rfl, rfl, rfl⟩

theorem pumpSet_sameControl (id state : Nat) (st : Board) :
    SameControl st (pumpSet id state st) := by
  unfold pumpSet
  dsimp only
  split_ifs
  · constructor <;> rfl
  all_goals exact SameControl.transSame (by constructor <;> rfl) (lightsSet_sameControl _ _ _)

theorem pumpSet_portA (id state : Nat) (st : Board) :
    (pumpSet id state st).portA =
      if 1 ≤ id ∧ id ≤ 8 then
        (if state ≠ 0 then outSet st.portA (1 <<< (id - 1)) else outClr st.portA (1 <<< (id - 1)))
      else st.portA := by
  unfold pumpSet
  dsimp only
  split_ifs <;> (try rw [(lightsSet_pumpPorts _ _ _).1]) <;> first | rfl | (exfalso; omega)

theorem pumpSet_portB (id state : Nat) (st : Board) :
    (pumpSet id state st).portB =
      if 9 ≤ id ∧ id ≤ 16 then
        (if state ≠ 0 then outSet st.portB (1 <<< (id - 1 - 8))
         else outClr st.portB (1 <<< (id - 1 - 8)))
      else st.portB := by
  unfold pumpSet
  dsimp only
  split_ifs <;> (try rw [(lightsSet_pumpPorts _ _ _).2.1]) <;> first | rfl | (exfalso; omega)

theorem pumpSet_portH (id state : Nat) (st : Board) :
    (pumpSet id state st).portH =
      if 17 ≤ id ∧ id ≤ 20 then
        (if state ≠ 0 then outSet st.portH (1 <<< (id - 1 - 16))
         else outClr st.portH (1 <<< (id - 1 - 16)))
      else st.portH := by
  unfold pumpSet
  dsimp only
  split_ifs <;> (try rw [(lightsSet_pumpPorts _ _ _).2.2.1]) <;> first | rfl | (exfalso; omega)

/-- Turning a pump off turns no pump on. -/
theorem pumpOutput_pumpSet_off_mono (id q : Nat) (st : Board)
    (h : pumpOutput (pumpSet id 0 st) q = true) : pumpOutput st q = true := by
  unfold pumpOutput at h ⊢
  rw [pumpSet_portA, pumpSet_portB, pumpSet_portH] at h
  simp only [ne_eq, not_true_eq_false, if_false] at h
  split_ifs at h ⊢ <;> first
    | exact h
    | (rw [testBit_outClr _ _ _ (by omega)] at h
       simp only [Bool.and_eq_true] at h
       exact h.1.1)

/-- Turning pump `id` off clears its output. -/
theorem pumpOutput_pumpSet_off_self (id : Nat) (st : Board) (h1 : 1 ≤ id) (h2 : id ≤ 20) :
    pumpOutput (pumpSet id 0 st) id = false := by
  unfold pumpOutput
  rw [pumpSet_portA, pumpSet_portB, pumpSet_portH]
  simp only [ne_eq, not_true_eq_false, if_false]
  split_ifs <;> first
    | (exfalso; omega)
    | (rw [testBit_outClr _ _ _ (by omega)]; simp)

/-- Turning pump `id` on sets its output. -/
theorem pumpOutput_pumpSet_on_self (id : Nat) (st : Board) (h1 : 1 ≤ id) (h2 : id ≤ 20) :
    pumpOutput (pumpSet id 1 st) id = true := by
  unfold pumpOutput
  rw [pumpSet_portA, pumpSet_portB, pumpSet_portH]
  simp only [ne_eq, one_ne_zero, not_false_eq_true, if_true]
  split_ifs <;> first
    | (exfalso; omega)
    | (rw [testBit_outSet]; simp)

/-- Switching pump `id` leaves the output of every other pump as it is. -/
theorem pumpOutput_pumpSet_other (id state q : Nat) (st : Board) (hq1 : 1 ≤ q) (hq2 : q ≤ 20)
    (hne : q ≠ id) : pumpOutput (pumpSet id state st) q = pumpOutput st q := by
  unfold pumpOutput
  rw [pumpSet_portA, pumpSet_portB, pumpSet_portH]
  split_ifs <;> first
    | rfl
    | (exfalso; omega)
    | (rw [testBit_outSet]
       have : ¬ (id - 1 = q - 1) := by omega
       simp [this]; done)
    | (rw [testBit_outSet]
       have : ¬ (id - 1 - 8 = q - 1 - 8) := by omega
       simp [this]; done)
    | (rw [testBit_outSet]
       have : ¬ (id - 1 - 16 = q - 1 - 16) := by omega
       simp [this]; done)
    | (rw [testBit_outClr _ _ _ (by omega)]
       have : ¬ (id - 1 = q - 1) := by omega
       have : q - 1 < 8 := by omega
       simp [*]; done)
    | (rw [testBit_outClr _ _ _ (by omega)]
       have : ¬ (id - 1 - 8 = q - 1 - 8) := by omega
       have : q - 1 - 8 < 8 := by omega
       simp [*]; done)
    | (rw [testBit_outClr _ _ _ (by omega)]
       have : ¬ (id - 1 - 16 = q - 1 - 16) := by omega
       have : q - 1 - 16 < 8 := by omega
       simp [*]; done)

/-- An invalid id changes no port. -/
theorem pumpSet_invalid (id state : Nat) (st : Board) (h : id < 1 ∨ id > 20) :
    pumpSet id state st = serialWriteString "Error: invalid pump id!\n" st := by
  unfold pumpSet
  rw [if_pos h]

theorem OffOnly.reflOff (a : Board) : OffOnly a a := fun _ h => h

theorem OffOnly.transOff {a b c : Board} (h1 : OffOnly a b) (h2 : OffOnly b c) : OffOnly a c :=
  fun q h => h1 q (h2 q h)

theorem OffOnly.of_ports {a b : Board} (hA : b.portA = a.portA) (hB : b.portB = a.portB)
    (hH : b.portH = a.portH) : OffOnly a b := by
  intro q h
  unfold pumpOutput at h ⊢
  rw [hA, hB, hH] at h
  exact h

theorem pumpOutput_of_ports {a b : Board} (hA : b.portA = a.portA) (hB : b.portB = a.portB)
    (hH : b.portH = a.portH) (q : Nat) : pumpOutput b q = pumpOutput a q := by
  unfold pumpOutput
  rw [hA, hB, hH]

theorem pumpSet_off_offOnly (id : Nat) (st : Board) : OffOnly st (pumpSet id 0 st) :=
  fun q h => pumpOutput_pumpSet_off_mono id q st h

theorem pumpSetAll_off_offOnly (l : List Nat) (st : Board) :
    OffOnly st (l.foldl (fun s i => pumpSet i 0 s) st) := by
  induction l generalizing st with
  | nil => exact OffOnly.reflOff _
  | cons a l ih => exact (pumpSet_off_offOnly a st).transOff (ih _)

theorem pumpSetAll_off_mem (l : List Nat) (st : Board) (q : Nat) (hq : q ∈ l)
    (hl : ∀ i ∈ l, 1 ≤ i ∧ i ≤ 20) :
    pumpOutput (l.foldl (fun s i => pumpSet i 0 s) st) q = false := by
  induction l generalizing st with
  | nil => cases hq
  | cons a l ih =>
    simp only [List.foldl_cons]
    by_cases hqa : q = a
    · subst hqa
      have h1 := pumpOutput_pumpSet_off_self q st (hl q (List.mem_cons_self _ _)).1
        (hl q (List.mem_cons_self _ _)).2
      by_contra hcon
      have := pumpSetAll_off_offOnly l (pumpSet q 0 st) q (by simpa using hcon)
      rw [h1] at this
      cases this
    · have hq2 : q ∈ l := by
        rcases List.mem_cons.1 hq with h | h
        · exact absurd h hqa
        · exact h
      exact ih _ hq2 (fun i hi => hl i (List.mem_cons_of_mem _ hi))

theorem pumpSetAll_sameControl (state : Nat) (l : List Nat) (st : Board) :
    SameControl st (l.foldl (fun s i => pumpSet i state s) st) := by
  induction l generalizing st with
  | nil => exact SameControl.reflSame _
  | cons a l ih => exact (pumpSet_sameControl a state st).transSame (ih _)

/-- After the fault handler every pump output is off and nothing is running. -/
theorem pumpErrorInterrupt_off (n : Nat) (st : Board) :
    (∀ q, 1 ≤ q → q ≤ 20 → pumpOutput (pumpErrorInterrupt n st) q = false) ∧
      (pumpErrorInterrupt n st).pumpRunning = 0 := by
  refine ⟨fun q h1 h2 => ?_, rfl⟩
  show pumpOutput (List.foldl (fun s i => pumpSet i 0 s)
    (serialWriteString " reports a problem!\n"
      (serialWriteInt16 n (serialWriteString "Error: pump driver port " st))) (List.range' 1 20))
    q = false
  apply pumpSetAll_off_mem
  · simp only [List.mem_range']; exact ⟨q - 1, by omega, by omega⟩
  · intro i hi
    simp only [List.mem_range'] at hi
    omega

theorem foldlM_option_rel {σ α : Type} (f : σ → α → Option σ) (R : σ → σ → Prop)
    (hrefl : ∀ s, R s s) (htrans : ∀ a b c, R a b → R b c → R a c)
    (hstep : ∀ s x s', f s x = some s' → R s s') (l : List α) (s s' : σ)
    (h : l.foldlM f s = some s') : R s s' := by
  induction l generalizing s with
  | nil =>
    simp only [List.foldlM_nil] at h
    cases h
    exact hrefl _
  | cons x l ih =>
    simp only [List.foldlM_cons] at h
    cases hf : f s x with
    | none => rw [hf] at h; cases h
    | some s1 =>
      rw [hf] at h
      exact htrans _ _ _ (hstep s x s1 hf) (ih s1 h)

theorem setTime_eq (p : RecipePtr) (st st' : Board) (i v : Nat) (h : p.setTime st i v = some st') :
    ∃ ing, st.ingredients[i]? = some ing ∧ p = RecipePtr.ingredients ∧
      st' = { st with ingredients := st.ingredients.set i { ing with time := v } } := by
  unfold RecipePtr.setTime at h
  cases p with
  | null => simp [RecipePtr.get] at h
  | ingredients =>
    simp only [RecipePtr.get] at h
    cases hg : st.ingredients[i]? with
    | none => rw [hg] at h; cases h
    | some ing =>
      rw [hg] at h
      cases h
      exact ⟨ing, rfl, rfl, rfl⟩

theorem recipeScan_rejects (fuel i0 j : Nat) (st : Board) (ing : RecipeIngredient)
    (h1 : i0 ≤ j) (h2 : j < i0 + fuel) (hj : st.ingredients[j]? = some ing)
    (hbad : ing.pump < 1 ∨ 20 < ing.pump ∨ ing.time = 0) :
    ∃ T I msg, recipeScan RecipePtr.ingredients fuel i0 st =
      Scan.rejected { st with pumpLastTime := T, pumpLastIndex := I,
                              serial := st.serial ++ [SerialItem.str msg] } := by
  induction fuel generalizing i0 st with
  | zero => omega
  | succ fuel ih =>
    have hlen : j < st.ingredients.length := by
      by_contra hcon; rw [List.getElem?_eq_none (by omega)] at hj; cases hj
    have hi0 : i0 < st.ingredients.length := by omega
    unfold recipeScan
    simp only [RecipePtr.get, List.getElem?_eq_getElem hi0]
    split_ifs with c1 c2 c3
    · exact ⟨_, _, _, rfl⟩
    · exact ⟨_, _, _, rfl⟩
    · have hne : j ≠ i0 := by
        intro e; subst e
        rw [List.getElem?_eq_getElem hi0] at hj
        cases hj; omega
      obtain ⟨T, I, msg, h⟩ := ih (i0 + 1)
        { st with pumpLastTime := (st.ingredients[i0].time + st.ingredients[i0].delay) % 2 ^ 16,
                  pumpLastIndex := i0 } (by omega) (by omega) hj
      exact ⟨T, I, msg, h⟩
    · have hne : j ≠ i0 := by
        intro e; subst e
        rw [List.getElem?_eq_getElem hi0] at hj
        cases hj; omega
      exact ih (i0 + 1) st (by omega) (by omega) hj

/-- Claim C3: when `pumpsRecipe` rejects its input because a dispense is
running, the count is zero, or some ingredient has a pump id outside 1..20 or
duration 0, it returns after reporting an error, with the pump ports, the
running flag, the armed fire tick and the armed callback unchanged. -/
theorem rejected_recipe_changes_nothing (st : Board) (n : Nat)
    (hrej : st.pumpRunning ≠ 0 ∨ n = 0 ∨
      ∃ i ing, i < n ∧ st.ingredients[i]? = some ing ∧
        (ing.pump < 1 ∨ 20 < ing.pump ∨ ing.time = 0)) :
    ∃ st' msg, pumpsRecipe RecipePtr.ingredients n st = some st' ∧
      st'.serial = st.serial ++ [SerialItem.str msg] ∧
      st'.portA = st.portA ∧ st'.portB = st.portB ∧ st'.portH = st.portH ∧
      pumpsDispensing st' = pumpsDispensing st ∧
      st'.quickTimeFire = st.quickTimeFire ∧ st'.quickTimeCallback = st.quickTimeCallback := by
  unfold pumpsRecipe
  by_cases hr : st.pumpRunning ≠ 0
  · rw [if_pos hr]
    exact ⟨_, _, rfl, rfl, rfl, rfl, rfl, rfl, rfl, rfl⟩
  rw [if_neg hr]
  by_cases hn : n < 1
  · rw [if_pos hn]
    exact ⟨_, _, rfl, rfl, rfl, rfl, rfl, rfl, rfl, rfl⟩
  rw [if_neg hn]
  rcases hrej with h | h | ⟨i, ing, hi, hget, hbad⟩
  · exact absurd h hr
  · omega
  · obtain ⟨T, I, msg, h⟩ := recipeScan_rejects n 0 i
      { st with pumpLastRecipe := RecipePtr.ingredients, pumpLastRecipeCount := n,
                pumpLastTime := 0xFFFF, pumpLastIndex := RECIPE_MAX_INGREDIENTS }
      ing (Nat.zero_le _) (by omega) hget hbad
    dsimp only
    rw [h]
    exact ⟨_, msg, rfl, rfl, rfl, rfl, rfl, rfl, rfl, rfl⟩

/-- A recipe whose second ingredient names pump 21 is rejected; port A keeps
its value 5. -/
theorem rejected_recipe_changes_nothing_witness :
    ∃ st' msg, pumpsRecipe RecipePtr.ingredients 2
        { powerOn with ingredients := [⟨1, 500, 0⟩, ⟨21, 300, 0⟩] ++ List.replicate 18 ⟨0, 0, 0⟩
                       portA := 5 } = some st' ∧
      st'.serial = [] ++ [SerialItem.str msg] ∧
      st'.portA = 5 ∧ st'.portB = 0 ∧ st'.portH = 0 ∧
      pumpsDispensing st' = 0 ∧
      st'.quickTimeFire = 0 ∧ st'.quickTimeCallback = none :=
  rejected_recipe_changes_nothing
    { powerOn with ingredients := [⟨1, 500, 0⟩, ⟨21, 300, 0⟩] ++ List.replicate 18 ⟨0, 0, 0⟩
                   portA := 5 } 2
    (Or.inr (Or.inr ⟨1, ⟨21, 300, 0⟩, by decide, by decide, by decide⟩))

theorem recipeScan_done (fuel i0 : Nat) (st : Board)
    (hv : ∀ j, i0 ≤ j → j < i0 + fuel →
      ∃ ing, st.ingredients[j]? = some ing ∧ ValidIngredient ing) :
    ∃ T I, recipeScan RecipePtr.ingredients fuel i0 st =
        Scan.done { st with pumpLastTime := T, pumpLastIndex := I } ∧
      ScanResult st i0 fuel T I := by
  induction fuel generalizing i0 st with
  | zero =>
    refine ⟨st.pumpLastTime, st.pumpLastIndex, rfl, le_refl _, ?_, Or.inl ⟨rfl, rfl⟩⟩
    intro j ing h1 h2; omega
  | succ fuel ih =>
    obtain ⟨ing0, hget0, hp1, hp2, ht⟩ := hv i0 (le_refl _) (by omega)
    unfold recipeScan
    simp only [RecipePtr.get, hget0]
    rw [if_neg (by omega), if_neg (by omega)]
    have hkey : (ing0.time + ing0.delay) % 2 ^ 16 = rankKey ing0 := rfl
    rw [hkey]
    by_cases hlt : rankKey ing0 < st.pumpLastTime
    · rw [if_pos hlt]
      obtain ⟨T, I, hscan, hT, hall, hcase⟩ := ih (i0 + 1)
        { st with pumpLastTime := rankKey ing0, pumpLastIndex := i0 }
        (fun j h1 h2 => hv j (by omega) (by omega))
      dsimp only at hT hall hcase
      refine ⟨T, I, hscan, ?_, ?_, Or.inr ?_⟩
      · exact le_trans hT (le_of_lt hlt)
      · intro j ing h1 h2 hj
        by_cases hji : j = i0
        · subst hji; rw [hget0] at hj; cases hj; exact hT
        · exact hall j ing (by omega) (by omega) hj
      · rcases hcase with ⟨e1, e2⟩ | ⟨c1, c2, c3, c4, c5⟩
        · refine ⟨by rw [e2], by rw [e2]; omega, by rw [e1]; exact hlt,
            ⟨ing0, by rw [e2]; exact hget0, e1.symm⟩, ?_⟩
          intro j ing h1 h2 _
          rw [e2] at h2
          exact absurd h2 (by simp only [not_lt]; exact h1)
        · refine ⟨by omega, by omega, lt_trans c3 hlt, c4, ?_⟩
          intro j ing h1 h2 hj
          by_cases hji : j = i0
          · subst hji; rw [hget0] at hj; cases hj; exact c3
          · exact c5 j ing (by omega) h2 hj
    · rw [if_neg hlt]
      obtain ⟨T, I, hscan, hT, hall, hcase⟩ := ih (i0 + 1) st
        (fun j h1 h2 => hv j (by omega) (by omega))
      refine ⟨T, I, hscan, hT, ?_, ?_⟩
      · intro j ing h1 h2 hj
        by_cases hji : j = i0
        · subst hji; rw [hget0] at hj; cases hj; omega
        · exact hall j ing (by omega) (by omega) hj
      · rcases hcase with h | ⟨c1, c2, c3, c4, c5⟩
        · exact Or.inl h
        · refine Or.inr ⟨by omega, by omega, c3, c4, ?_⟩
          intro j ing h1 h2 hj
          by_cases hji : j = i0
          · subst hji; rw [hget0] at hj; cases hj; omega
          · exact c5 j ing (by omega) h2 hj

/-- Turning a pump on turns no pump off. -/
theorem pumpOutput_pumpSet_on_mono (id q : Nat) (st : Board) (h : pumpOutput st q = true) :
    pumpOutput (pumpSet id 1 st) q = true := by
  unfold pumpOutput at h ⊢
  rw [pumpSet_portA, pumpSet_portB, pumpSet_portH]
  simp only [ne_eq, one_ne_zero, not_false_eq_true, if_true]
  split_ifs at h ⊢ <;> first
    | exact h
    | (rw [testBit_outSet, h]; rfl)

/-- The second loop of `pumpsRecipe` on the first `m` slots. -/
theorem recipeAllOn_effect (m : Nat) (st : Board)
    (hv : ∀ j, j < m → ∃ ing, st.ingredients[j]? = some ing ∧ ValidIngredient ing) :
    ∃ st', recipeAllOn RecipePtr.ingredients m st = some st' ∧ SameControl st st' ∧
      st'.serial = st.serial ∧
      (∀ q, pumpOutput st q = true → pumpOutput st' q = true) ∧
      (∀ j ing, j < m → st.ingredients[j]? = some ing → pumpOutput st' ing.pump = true) ∧
      (∀ q, 1 ≤ q → q ≤ 20 →
        (∀ j ing, j < m → st.ingredients[j]? = some ing → ing.pump ≠ q) →
        pumpOutput st' q = pumpOutput st q) := by
  induction m with
  | zero =>
    refine ⟨st, rfl, SameControl.reflSame _, rfl, fun _ h => h, ?_, fun _ _ _ _ => rfl⟩
    intro j ing h; omega
  | succ m ih =>
    obtain ⟨s1, h1, hc, hser, hmono, hon, hother⟩ := ih (fun j hj => hv j (by omega))
    obtain ⟨ing, hget, hp1, hp2, _⟩ := hv m (by omega)
    have hget1 : s1.ingredients[m]? = some ing := by rw [hc.ingredients]; exact hget
    refine ⟨pumpSet ing.pump 1 s1, ?_, hc.transSame (pumpSet_sameControl _ _ _), ?_, ?_, ?_, ?_⟩
    · unfold recipeAllOn at h1 ⊢
      rw [List.range_succ, List.foldlM_append, h1]
      simp [RecipePtr.get, hget1]
    · rw [← hser]
      unfold pumpSet
      rw [if_neg (by omega)]
      exact (lightsSet_pumpPorts _ _ _).2.2.2.trans (by split_ifs <;> rfl)
    · intro q hq
      exact pumpOutput_pumpSet_on_mono _ _ _ (hmono q hq)
    · intro j x hj hx
      by_cases hjm : j = m
      · subst hjm
        rw [hget] at hx; cases hx
        exact pumpOutput_pumpSet_on_self _ _ hp1 hp2
      · exact pumpOutput_pumpSet_on_mono _ _ _ (hon j x (by omega) hx)
    · intro q hq1 hq2 hne
      rw [pumpOutput_pumpSet_other _ _ _ _ hq1 hq2 (fun e => hne m ing (by omega) hget e.symm)]
      exact hother q hq1 hq2 (fun j x hj hx => hne j x (by omega) hx)

/-- An accepted start: nothing runs, the ingredients pass the checks, and
some rank key is below the sentinel `0xFFFF`. -/
theorem pumpsRecipe_start (st : Board) (n : Nat) (hrun : st.pumpRunning = 0)
    (hn1 : 1 ≤ n) (hn2 : n ≤ 20)
    (hv : ∀ j, j < n → ∃ ing, st.ingredients[j]? = some ing ∧ ValidIngredient ing)
    (hkey : ∃ j ing, j < n ∧ st.ingredients[j]? = some ing ∧ rankKey ing < 0xFFFF) :
    ∃ st' I ingI, pumpsRecipe RecipePtr.ingredients n st = some st' ∧
      StartEffect st n st' I ingI := by
  unfold pumpsRecipe
  rw [if_neg (by simp [hrun]), if_neg (by omega)]
  dsimp only
  obtain ⟨T, I, hscan, hT, hall, hcase⟩ := recipeScan_done n 0
    { st with pumpLastRecipe := RecipePtr.ingredients, pumpLastRecipeCount := n,
              pumpLastTime := 0xFFFF, pumpLastIndex := RECIPE_MAX_INGREDIENTS }
    (fun j _ h2 => hv j (by omega))
  dsimp only at hT hall hcase
  rw [hscan]
  dsimp only
  rcases hcase with ⟨e1, _⟩ | ⟨_, c2, c3, ⟨ingI, c4, c4b⟩, c5⟩
  · exfalso
    obtain ⟨j, ing, hj, hget, hk⟩ := hkey
    have := hall j ing (Nat.zero_le _) (by omega) hget
    omega
  · rw [if_neg (by simp only [RECIPE_MAX_INGREDIENTS]; omega)]
    obtain ⟨s1, hon, hc, hser, hmono, hpon, hother⟩ := recipeAllOn_effect n
      { st with pumpLastRecipe := RecipePtr.ingredients, pumpLastRecipeCount := n,
                pumpLastTime := T, pumpLastIndex := I, pumpCurrentRunTime := 0,
                pumpRunning := 1 }
      hv
    refine ⟨quickTimeFireIn s1.pumpLastTime (some CallbackType.pumpHandleRecipeState) s1,
      I, ingI, ?_, ?_⟩
    · dsimp only [quickTimeInit]
      rw [hon]
    · have hlt : s1.pumpLastTime = T := hc.pumpLastTime
      have hst : s1.systemTime = st.systemTime := hc.systemTime
      constructor
      · exact hc.ingredients
      · exact hc.pumpLastRecipe
      · exact hc.pumpLastRecipeCount
      · exact hc.pumpRunning
      · exact hc.pumpCurrentRunTime
      · exact hst
      · exact hser
      · rfl
      · exact hc.pumpLastIndex
      · omega
      · exact c4
      · rw [c4b]; exact hlt
      · rw [c4b]; exact c3
      · show (s1.systemTime + s1.pumpLastTime) % 2 ^ 64 = _
        rw [hlt, hst, c4b]
      · intro j ing hj hget
        rw [c4b]; exact hall j ing (Nat.zero_le _) (by omega) hget
      · intro j ing hj hget
        rw [c4b]; exact c5 j ing (Nat.zero_le _) hj hget
      · intro j ing hj hget
        exact hpon j ing hj hget
      · intro q hq
        exact hmono q hq
      · intro q hq1 hq2 hne
        exact hother q hq1 hq2 hne

/-- Claim C4, amended: for a recipe of 1 to 20 ingredients with pump ids in
1..20, durations above 0 and `duration + delay <= 65535` for each, at least
one of these sums being at most 65534, started by `pumpsRecipe` while nothing
runs: every listed pump is on, every unlisted pump is as before, the running
flag is set, the elapsed time is 0, and the deadline handler is armed for tick
`s + min (duration + delay)`, the recorded index being the first slot that
attains the minimum. -/
theorem start_effect (st : Board) (n : Nat) (hrun : pumpsDispensing st = 0)
    (hn1 : 1 ≤ n) (hn2 : n ≤ 20)
    (hv : ∀ j, j < n → ∃ ing, st.ingredients[j]? = some ing ∧
      (1 ≤ ing.pump ∧ ing.pump ≤ 20) ∧ 0 < ing.time ∧ ing.time + ing.delay ≤ 65535)
    (hkey : ∃ j ing, j < n ∧ st.ingredients[j]? = some ing ∧ ing.time + ing.delay ≤ 65534) :
    ∃ st' I ingI, pumpsRecipe RecipePtr.ingredients n st = some st' ∧
      (∀ j ing, j < n → st.ingredients[j]? = some ing → pumpOutput st' ing.pump = true) ∧
      (∀ q, 1 ≤ q → q ≤ 20 →
        (∀ j ing, j < n → st.ingredients[j]? = some ing → ing.pump ≠ q) →
        pumpOutput st' q = pumpOutput st q) ∧
      pumpsDispensing st' = 1 ∧
      st'.pumpCurrentRunTime = 0 ∧
      st'.quickTimeCallback = some CallbackType.pumpHandleRecipeState ∧
      st'.pumpLastIndex = I ∧ I < n ∧ st.ingredients[I]? = some ingI ∧
      st'.quickTimeFire = (st.systemTime + (ingI.time + ingI.delay)) % 2 ^ 64 ∧
      (∀ j ing, j < n → st.ingredients[j]? = some ing →
        ingI.time + ingI.delay ≤ ing.time + ing.delay) ∧
      (∀ j ing, j < I → st.ingredients[j]? = some ing →
        ingI.time + ingI.delay < ing.time + ing.delay) := by
  have hk : ∀ j ing, j < n → st.ingredients[j]? = some ing →
      rankKey ing = ing.time + ing.delay := by
    intro j ing hj hget
    obtain ⟨x, hx, _, _, hsum⟩ := hv j hj
    rw [hget] at hx; cases hx
    exact Nat.mod_eq_of_lt (by omega)
  obtain ⟨st', I, ingI, hrec, he⟩ := pumpsRecipe_start st n hrun hn1 hn2
    (fun j hj => by
      obtain ⟨ing, hget, hp, ht, _⟩ := hv j hj
      exact ⟨ing, hget, hp.1, hp.2, ht⟩)
    (by
      obtain ⟨j, ing, hj, hget, hs⟩ := hkey
      exact ⟨j, ing, hj, hget, by rw [hk j ing hj hget]; omega⟩)
  have hkI := hk I ingI he.index_lt he.index_get
  refine ⟨st', I, ingI, hrec, he.turned_on, he.other, he.pumpRunning, he.pumpCurrentRunTime,
    he.quickTimeCallback, he.pumpLastIndex, he.index_lt, he.index_get, ?_, ?_, ?_⟩
  · rw [he.quickTimeFire, hkI]
  · intro j ing hj hget
    rw [← hkI, ← hk j ing hj hget]
    exact he.least j ing hj hget
  · intro j ing hj hget
    rw [← hkI, ← hk j ing (by have := he.index_lt; omega) hget]
    exact he.earliest j ing hj hget

/-- Scenario A: the deadline is armed for tick 3 with recorded index 1, the
first of the two ingredients of duration 3. -/
theorem start_effect_witness :
    ∃ st', pumpsRecipe RecipePtr.ingredients 3 scenarioA = some st' ∧
      pumpsDispensing st' = 1 ∧ st'.quickTimeFire = 3 ∧ st'.pumpLastIndex = 1 := by
  obtain ⟨st', I, ingI, h, _, _, hr, _, _, hI, hIn, hget, hfire, hleast, hfirst⟩ :=
    start_effect scenarioA 3 (by decide) (by decide) (by decide)
      (by
        intro j hj
        interval_cases j
        · exact ⟨⟨1, 5, 0⟩, rfl, by decide⟩
        · exact ⟨⟨2, 3, 0⟩, rfl, by decide⟩
        · exact ⟨⟨3, 3, 0⟩, rfl, by decide⟩)
      ⟨1, ⟨2, 3, 0⟩, by decide, rfl, by decide⟩
  have h1 := hleast 1 ⟨2, 3, 0⟩ (by decide) rfl
  have hI1 : I = 1 := by
    interval_cases I
    · have e : ingI = ⟨1, 5, 0⟩ := by
        have : scenarioA.ingredients[0]? = some ⟨1, 5, 0⟩ := rfl
        rw [this] at hget; cases hget; rfl
      rw [e] at h1; simp at h1
    · rfl
    · exact absurd (hfirst 1 ⟨2, 3, 0⟩ (by decide) rfl) (by
        have e : ingI = ⟨3, 3, 0⟩ := by
          have : scenarioA.ingredients[2]? = some ⟨3, 3, 0⟩ := rfl
          rw [this] at hget; cases hget; rfl
        rw [e]; decide)
  refine ⟨st', h, hr, ?_, by rw [hI, hI1]⟩
  rw [hfire]
  subst hI1
  have e : ingI = ⟨2, 3, 0⟩ := by
    have : scenarioA.ingredients[1]? = some ⟨2, 3, 0⟩ := rfl
    rw [this] at hget; cases hget; rfl
  rw [e]; rfl

/-- Claim C4 as stated fails: for (pump 1, duration 1, delay 65535) the
deadline is armed 0 ticks ahead, not 65536; and the recipe (pump 1, duration
65535, delay 0) is rejected, so nothing runs and pump 1 stays off. -/
theorem start_effect_counterexample :
    (pumpsRecipe RecipePtr.ingredients 1
        { powerOn with ingredients := [⟨1, 1, 65535⟩] ++ List.replicate 19 ⟨0, 0, 0⟩ }).map
      (fun s => (s.pumpRunning, s.quickTimeFire, s.pumpLastTime)) = some (1, 0, 0) ∧
    (pumpsRecipe RecipePtr.ingredients 1
        { powerOn with ingredients := [⟨1, 65535, 0⟩] ++ List.replicate 19 ⟨0, 0, 0⟩ }).map
      (fun s => (s.pumpRunning, pumpOutput s 1, s.quickTimeCallback)) = some (0, false, none) := by
  decide

/-! ## One run of the deadline handler -/

theorem LoopFrame.reflFrame (a : Board) : LoopFrame a a := by constructor <;> rfl

theorem handlerLoopBody_eq (b : Board) (m e : Nat) (x : RecipeIngredient)
    (hp : b.pumpLastRecipe = RecipePtr.ingredients) (hx : b.ingredients[m]? = some x)
    (he : b.pumpCurrentRunTime = e) :
    handlerLoopBody b m = some
      (if 0 < x.time then
        if x.time ≤ e then
          { pumpSet x.pump 0 b with
            ingredients := (pumpSet x.pump 0 b).ingredients.set m (zeroed x) }
        else if x.time < b.pumpLastTime then
          { b with pumpLastTime := x.time, pumpLastIndex := m }
        else b
      else b) := by
  subst he
  unfold handlerLoopBody
  rw [hp]
  simp only [RecipePtr.get, hx]
  split_ifs with h1 h2 h3
  · unfold RecipePtr.setTime
    simp only [RecipePtr.get, (pumpSet_sameControl x.pump 0 b).ingredients, hx]
    rfl
  · rfl
  · rfl
  · rfl

theorem handlerLoop_inv (a : Board) (e m : Nat) (hp : a.pumpLastRecipe = RecipePtr.ingredients)
    (he : a.pumpCurrentRunTime = e) (hm : m ≤ a.ingredients.length) :
    ∃ b, (List.range m).foldlM handlerLoopBody a = some b ∧ LoopInv a e m b := by
  induction m with
  | zero =>
    refine ⟨a, rfl, LoopFrame.reflFrame a, rfl, ?_, OffOnly.reflOff a, ?_, fun _ _ _ _ => rfl,
      Or.inl ⟨rfl, rfl, ?_⟩⟩
    · intro j
      cases a.ingredients[j]? <;> simp
    · intro j x h; omega
    · intro j x h; omega
  | succ m ih =>
    obtain ⟨b, hb, inv⟩ := ih (by omega)
    have hmlt : m < a.ingredients.length := by omega
    have hbm : b.ingredients[m]? = some a.ingredients[m] := by
      rw [inv.entries m, List.getElem?_eq_getElem hmlt]
      simp
    have ham : a.ingredients[m]? = some a.ingredients[m] := List.getElem?_eq_getElem hmlt
    generalize a.ingredients[m] = x at hbm ham
    have hbp : b.pumpLastRecipe = RecipePtr.ingredients := by rw [inv.frame.pumpLastRecipe, hp]
    have hbe : b.pumpCurrentRunTime = e := by rw [inv.frame.pumpCurrentRunTime, he]
    have hbody := handlerLoopBody_eq b m e x hbp hbm hbe
    rw [List.range_succ, List.foldlM_append, hb]
    simp only [Option.bind_eq_bind, Option.some_bind, List.foldlM_cons, List.foldlM_nil,
      hbody, Option.pure_def, Option.bind_some]
    refine ⟨_, rfl, ?_⟩
    have hentries_other : ∀ j, j ≠ m → ∀ (c : Prop) [Decidable c],
        (a.ingredients[j]?).map (fun x => if j < m ∧ 0 < x.time ∧ x.time ≤ e then zeroed x else x)
        = (a.ingredients[j]?).map
          (fun x => if j < m + 1 ∧ 0 < x.time ∧ x.time ≤ e then zeroed x else x) := by
      intro j hj _ _
      have : (j < m + 1) = (j < m) := by
        apply propext; constructor <;> intro h <;> omega
      simp only [this]
    by_cases h1 : 0 < x.time
    · by_cases h2 : x.time ≤ e
      · -- the pump of slot m is due: it is turned off and marked stopped
        rw [if_pos h1, if_pos h2]
        have hsc := pumpSet_sameControl x.pump 0 b
        constructor
        · constructor
          · exact hsc.ingredientCount.trans inv.frame.ingredientCount
          · exact hsc.statePump.trans inv.frame.statePump
          · exact hsc.stateTime.trans inv.frame.stateTime
          · exact hsc.stateDelay.trans inv.frame.stateDelay
          · exact hsc.state.trans inv.frame.state
          · exact hsc.pumpRunning.trans inv.frame.pumpRunning
          · exact hsc.pumpLastRecipe.trans inv.frame.pumpLastRecipe
          · exact hsc.pumpLastRecipeCount.trans inv.frame.pumpLastRecipeCount
          · exact hsc.pumpCurrentRunTime.trans inv.frame.pumpCurrentRunTime
          · exact hsc.systemTime.trans inv.frame.systemTime
          · exact hsc.quickTimeFire.trans inv.frame.quickTimeFire
          · exact hsc.quickTimeCallback.trans inv.frame.quickTimeCallback
        · show ((pumpSet x.pump 0 b).ingredients.set m (zeroed x)).length = _
          rw [List.length_set, hsc.ingredients, inv.len]
        · intro j
          show ((pumpSet x.pump 0 b).ingredients.set m (zeroed x))[j]? = _
          rw [hsc.ingredients, List.getElem?_set]
          by_cases hjm : m = j
          · subst hjm
            rw [if_pos rfl, if_pos (by rw [inv.len]; exact hmlt), ham]
            simp [h1, h2]
          · rw [if_neg hjm, inv.entries j, hentries_other j (fun h => hjm h.symm) True]
        · exact inv.offOnly.transOff
            ((pumpSet_off_offOnly x.pump b).transOff (OffOnly.of_ports rfl rfl rfl))
        · intro j y hj hy hy1 hy2 hy3 hy4
          show pumpOutput (pumpSet x.pump 0 b) y.pump = false
          by_cases hjm : j = m
          · subst hjm
            rw [ham] at hy; cases hy
            exact pumpOutput_pumpSet_off_self _ _ hy3 hy4
          · have := inv.off j y (by omega) hy hy1 hy2 hy3 hy4
            by_contra hcon
            have h3 := pumpSet_off_offOnly x.pump b y.pump (by simpa using hcon)
            rw [this] at h3; cases h3
        · intro q hq1 hq2 hne
          show pumpOutput (pumpSet x.pump 0 b) q = _
          rw [pumpOutput_pumpSet_other _ _ _ _ hq1 hq2
            (fun e => hne m x (by omega) ham h1 h2 e.symm)]
          exact inv.keep q hq1 hq2 (fun j y hj => hne j y (by omega))
        · show NextSpec a e (m + 1) (pumpSet x.pump 0 b).pumpLastTime
            (pumpSet x.pump 0 b).pumpLastIndex
          rw [hsc.pumpLastTime, hsc.pumpLastIndex]
          rcases inv.next with ⟨n1, n2, n3⟩ | ⟨n1, n2, n3, n4, n5, n6⟩
          · refine Or.inl ⟨n1, n2, ?_⟩
            intro j y hj hy hey
            by_cases hjm : j = m
            · subst hjm; rw [ham] at hy; cases hy; omega
            · exact n3 j y (by omega) hy hey
          · refine Or.inr ⟨by omega, n2, n3, n4, ?_, n6⟩
            intro j y hj hy hey
            by_cases hjm : j = m
            · subst hjm; rw [ham] at hy; cases hy; omega
            · exact n5 j y (by omega) hy hey
      · by_cases h3 : x.time < b.pumpLastTime
        · -- slot m becomes the next stop
          rw [if_pos h1, if_neg h2, if_pos h3]
          refine ⟨?_, inv.len, ?_, inv.offOnly, ?_, ?_, ?_⟩
          · constructor
            · exact inv.frame.ingredientCount
            · exact inv.frame.statePump
            · exact inv.frame.stateTime
            · exact inv.frame.stateDelay
            · exact inv.frame.state
            · exact inv.frame.pumpRunning
            · exact inv.frame.pumpLastRecipe
            · exact inv.frame.pumpLastRecipeCount
            · exact inv.frame.pumpCurrentRunTime
            · exact inv.frame.systemTime
            · exact inv.frame.quickTimeFire
            · exact inv.frame.quickTimeCallback
          · intro j
            show b.ingredients[j]? = _
            rw [inv.entries j]
            by_cases hjm : j = m
            · subst hjm; rw [ham]; simp [h2]
            · exact hentries_other j hjm True
          · intro j y hj hy hy1 hy2 hy3 hy4
            by_cases hjm : j = m
            · subst hjm; rw [ham] at hy; cases hy; omega
            · exact inv.off j y (by omega) hy hy1 hy2 hy3 hy4
          · intro q hq1 hq2 hne
            exact inv.keep q hq1 hq2 (fun j y hj => hne j y (by omega))
          · show NextSpec a e (m + 1) x.time m
            have hTle : ∀ j y, j < m → a.ingredients[j]? = some y → e < y.time →
                b.pumpLastTime ≤ y.time := by
              intro j y hj hy hey
              rcases inv.next with ⟨_, n2, n3⟩ | ⟨_, _, _, _, n5, _⟩
              · rw [n2]; exact n3 j y hj hy hey
              · exact n5 j y hj hy hey
            have hTA : b.pumpLastTime ≤ a.pumpLastTime := by
              rcases inv.next with ⟨_, n2, _⟩ | ⟨_, n2, _⟩
              · rw [n2]
              · exact le_of_lt n2
            refine Or.inr ⟨by omega, by omega, by omega, ⟨x, ham, rfl⟩, ?_, ?_⟩
            · intro j y hj hy hey
              by_cases hjm : j = m
              · subst hjm; rw [ham] at hy; cases hy; exact le_refl _
              · have := hTle j y (by omega) hy hey
                omega
            · intro j y hj hy hey
              have := hTle j y hj hy hey
              omega
        · -- slot m stays on and is not the next stop
          rw [if_pos h1, if_neg h2, if_neg h3]
          refine ⟨inv.frame, inv.len, ?_, inv.offOnly, ?_, ?_, ?_⟩
          · intro j
            rw [inv.entries j]
            by_cases hjm : j = m
            · subst hjm; rw [ham]; simp [h2]
            · exact hentries_other j hjm True
          · intro j y hj hy hy1 hy2 hy3 hy4
            by_cases hjm : j = m
            · subst hjm; rw [ham] at hy; cases hy; omega
            · exact inv.off j y (by omega) hy hy1 hy2 hy3 hy4
          · intro q hq1 hq2 hne
            exact inv.keep q hq1 hq2 (fun j y hj => hne j y (by omega))
          · rcases inv.next with ⟨n1, n2, n3⟩ | ⟨n1, n2, n3, n4, n5, n6⟩
            · refine Or.inl ⟨n1, n2, ?_⟩
              intro j y hj hy hey
              by_cases hjm : j = m
              · subst hjm; rw [ham] at hy; cases hy; omega
              · exact n3 j y (by omega) hy hey
            · refine Or.inr ⟨by omega, n2, n3, n4, ?_, n6⟩
              intro j y hj hy hey
              by_cases hjm : j = m
              · subst hjm; rw [ham] at hy; cases hy; omega
              · exact n5 j y (by omega) hy hey
    · -- slot m is already stopped
      rw [if_neg h1]
      refine ⟨inv.frame, inv.len, ?_, inv.offOnly, ?_, ?_, ?_⟩
      · intro j
        rw [inv.entries j]
        by_cases hjm : j = m
        · subst hjm; rw [ham]; simp [h1]
        · exact hentries_other j hjm True
      · intro j y hj hy hy1 hy2 hy3 hy4
        by_cases hjm : j = m
        · subst hjm; rw [ham] at hy; cases hy; omega
        · exact inv.off j y (by omega) hy hy1 hy2 hy3 hy4
      · intro q hq1 hq2 hne
        exact inv.keep q hq1 hq2 (fun j y hj => hne j y (by omega))
      · rcases inv.next with ⟨n1, n2, n3⟩ | ⟨n1, n2, n3, n4, n5, n6⟩
        · refine Or.inl ⟨n1, n2, ?_⟩
          intro j y hj hy hey
          by_cases hjm : j = m
          · subst hjm; rw [ham] at hy; cases hy; omega
          · exact n3 j y (by omega) hy hey
        · refine Or.inr ⟨by omega, n2, n3, n4, ?_, n6⟩
          intro j y hj hy hey
          by_cases hjm : j = m
          · subst hjm; rw [ham] at hy; cases hy; omega
          · exact n5 j y (by omega) hy hey

theorem pumpHandleRecipeState_eq (st : Board) (cur : RecipeIngredient)
    (hp : st.pumpLastRecipe = RecipePtr.ingredients)
    (hk : st.ingredients[st.pumpLastIndex]? = some cur) :
    pumpHandleRecipeState st =
      match (List.range st.pumpLastRecipeCount).foldlM handlerLoopBody (handlerEntry st cur) with
      | none => none
      | some b => handlerExit b := by
  have hsc := pumpSet_sameControl cur.pump 0 st
  unfold pumpHandleRecipeState
  rw [hp]
  simp only [RecipePtr.get, hk, RecipePtr.setTime, hsc.pumpLastRecipe, hsc.pumpLastIndex,
    hsc.ingredients, hp, hsc.pumpLastRecipeCount, handlerEntry, zeroed]
  rfl

theorem handlerEntry_get (st : Board) (cur : RecipeIngredient)
    (hk : st.ingredients[st.pumpLastIndex]? = some cur) (j : Nat) :
    (handlerEntry st cur).ingredients[j]? =
      if j = st.pumpLastIndex then some (zeroed cur) else st.ingredients[j]? := by
  have hlt : st.pumpLastIndex < st.ingredients.length := by
    by_contra hcon; rw [List.getElem?_eq_none (by omega)] at hk; cases hk
  show (st.ingredients.set st.pumpLastIndex (zeroed cur))[j]? = _
  rw [List.getElem?_set]
  by_cases h : st.pumpLastIndex = j
  · rw [if_pos h, if_pos hlt, if_pos h.symm]
  · rw [if_neg h, if_neg (fun e => h e.symm)]

/-- One run of the deadline handler whose recorded index and count lie inside
the array. -/
theorem pumpHandleRecipeState_effect (st : Board) (cur : RecipeIngredient)
    (hp : st.pumpLastRecipe = RecipePtr.ingredients)
    (hk : st.ingredients[st.pumpLastIndex]? = some cur)
    (hn : st.pumpLastRecipeCount ≤ st.ingredients.length)
    (hn20 : st.pumpLastRecipeCount ≤ 20) :
    ∃ st', pumpHandleRecipeState st = some st' ∧
      HandlerEffect st st.pumpLastIndex st.pumpLastRecipeCount cur st' := by
  have hsc := pumpSet_sameControl cur.pump 0 st
  have hklt : st.pumpLastIndex < st.ingredients.length := by
    by_contra hcon; rw [List.getElem?_eq_none (by omega)] at hk; cases hk
  have hAp : (handlerEntry st cur).pumpLastRecipe = RecipePtr.ingredients :=
    hsc.pumpLastRecipe.trans hp
  have hAlen : (handlerEntry st cur).ingredients.length = st.ingredients.length := by
    show (st.ingredients.set st.pumpLastIndex (zeroed cur)).length = _
    rw [List.length_set]
  obtain ⟨b, hb, inv⟩ := handlerLoop_inv (handlerEntry st cur) cur.time
    st.pumpLastRecipeCount hAp rfl (by rw [hAlen]; exact hn)
  rw [pumpHandleRecipeState_eq st cur hp hk, hb]
  dsimp only
  -- entries of the loop-entry board against those of `st`
  have hA := handlerEntry_get st cur hk
  have hAof : ∀ (j : Nat) (y : RecipeIngredient), st.ingredients[j]? = some y → cur.time < y.time →
      (handlerEntry st cur).ingredients[j]? = some y := by
    intro j y hy hlt
    rw [hA j]
    by_cases hjk : j = st.pumpLastIndex
    · subst hjk; rw [hk] at hy; cases hy; omega
    · rw [if_neg hjk]; exact hy
  have hAto : ∀ (j : Nat) (y : RecipeIngredient), (handlerEntry st cur).ingredients[j]? = some y → 0 < y.time →
      st.ingredients[j]? = some y ∧ j ≠ st.pumpLastIndex := by
    intro j y hy hpos
    rw [hA j] at hy
    by_cases hjk : j = st.pumpLastIndex
    · rw [if_pos hjk] at hy; cases hy; simp [zeroed] at hpos
    · rw [if_neg hjk] at hy; exact ⟨hy, hjk⟩
  have hentries : ∀ j, b.ingredients[j]? = (st.ingredients[j]?).map
      (fun x => if j = st.pumpLastIndex ∨
        (j < st.pumpLastRecipeCount ∧ 0 < x.time ∧ x.time ≤ cur.time) then zeroed x else x) := by
    intro j
    rw [inv.entries j, hA j]
    by_cases hjk : j = st.pumpLastIndex
    · subst hjk
      rw [if_pos rfl, hk]
      simp [zeroed]
    · rw [if_neg hjk]
      simp only [hjk, false_or]
  have hoffOnly : OffOnly st b :=
    ((pumpSet_off_offOnly cur.pump st).transOff (OffOnly.of_ports rfl rfl rfl)).transOff inv.offOnly
  have hoffcur : 1 ≤ cur.pump → cur.pump ≤ 20 → pumpOutput b cur.pump = false := by
    intro h1 h2
    by_contra hcon
    have h3 := inv.offOnly cur.pump (by simpa using hcon)
    have h4 : pumpOutput (handlerEntry st cur) cur.pump = pumpOutput (pumpSet cur.pump 0 st) cur.pump :=
      pumpOutput_of_ports rfl rfl rfl _
    rw [h4, pumpOutput_pumpSet_off_self _ _ h1 h2] at h3
    cases h3
  have hoff : ∀ (j : Nat) (x : RecipeIngredient), j < st.pumpLastRecipeCount → st.ingredients[j]? = some x → 0 < x.time →
      x.time ≤ cur.time → 1 ≤ x.pump → x.pump ≤ 20 → pumpOutput b x.pump = false := by
    intro j x hj hx h1 h2 h3 h4
    by_cases hjk : j = st.pumpLastIndex
    · subst hjk; rw [hk] at hx; cases hx; exact hoffcur h3 h4
    · exact inv.off j x hj (by rw [hA j, if_neg hjk]; exact hx) h1 h2 h3 h4
  have hkeep : ∀ q, 1 ≤ q → q ≤ 20 → q ≠ cur.pump →
      (∀ (j : Nat) (x : RecipeIngredient), j < st.pumpLastRecipeCount → st.ingredients[j]? = some x →
        0 < x.time → x.time ≤ cur.time → x.pump ≠ q) → pumpOutput b q = pumpOutput st q := by
    intro q h1 h2 hne hall
    rw [inv.keep q h1 h2 (fun j x hj hx hpos hle => hall j x hj (hAto j x hx hpos).1 hpos hle)]
    have h4 : pumpOutput (handlerEntry st cur) q = pumpOutput (pumpSet cur.pump 0 st) q :=
      pumpOutput_of_ports rfl rfl rfl _
    rw [h4, pumpOutput_pumpSet_other _ _ _ _ h1 h2 hne]
  have hbp : b.pumpLastRecipe = RecipePtr.ingredients := inv.frame.pumpLastRecipe.trans hAp
  have hbe : b.pumpCurrentRunTime = cur.time := inv.frame.pumpCurrentRunTime
  have hbt : b.systemTime = st.systemTime := inv.frame.systemTime.trans hsc.systemTime
  rcases inv.next with ⟨n1, n2, n3⟩ | ⟨n1, n2, n3, ⟨x, n4, n4b⟩, n5, n6⟩
  · -- no stop is left: the dispense ends
    have hidx : ¬ b.pumpLastIndex < RECIPE_MAX_INGREDIENTS := by
      rw [n1]; exact Nat.lt_irrefl _
    unfold handlerExit
    rw [if_neg hidx]
    refine ⟨_, rfl, ?_⟩
    constructor
    · exact inv.frame.ingredientCount.trans hsc.ingredientCount
    · exact inv.frame.statePump.trans hsc.statePump
    · exact inv.frame.stateTime.trans hsc.stateTime
    · exact inv.frame.stateDelay.trans hsc.stateDelay
    · exact inv.frame.state.trans hsc.state
    · exact inv.frame.pumpLastRecipe.trans hsc.pumpLastRecipe
    · exact inv.frame.pumpLastRecipeCount.trans hsc.pumpLastRecipeCount
    · exact hbt
    · exact hbe
    · exact inv.len.trans hAlen
    · exact hentries
    · exact hoffOnly.transOff (OffOnly.of_ports rfl rfl rfl)
    · exact hoffcur
    · exact hoff
    · exact hkeep
    · refine Or.inr ⟨n1, n2, rfl, inv.frame.quickTimeFire.trans hsc.quickTimeFire,
        inv.frame.quickTimeCallback.trans hsc.quickTimeCallback, ?_⟩
      intro j y hj hy hlt
      exact n3 j y hj (hAof j y hy hlt) hlt
  · -- the deadline is re-armed for slot `b.pumpLastIndex`
    have hidx : b.pumpLastIndex < RECIPE_MAX_INGREDIENTS := by
      simp only [RECIPE_MAX_INGREDIENTS]; omega
    have hxpos : 0 < x.time := by omega
    obtain ⟨hxst, hIk⟩ := hAto _ x n4 hxpos
    have hbget : b.ingredients[b.pumpLastIndex]? = some x := by
      rw [hentries, hxst]
      simp only [Option.map_some']
      rw [if_neg (by
        intro h
        rcases h with h | ⟨_, _, h⟩
        · exact hIk h
        · omega)]
    unfold handlerExit
    rw [if_pos hidx, hbp]
    simp only [RecipePtr.get, hbget]
    refine ⟨_, rfl, ?_⟩
    constructor
    · exact inv.frame.ingredientCount.trans hsc.ingredientCount
    · exact inv.frame.statePump.trans hsc.statePump
    · exact inv.frame.stateTime.trans hsc.stateTime
    · exact inv.frame.stateDelay.trans hsc.stateDelay
    · exact inv.frame.state.trans hsc.state
    · exact inv.frame.pumpLastRecipe.trans hsc.pumpLastRecipe
    · exact inv.frame.pumpLastRecipeCount.trans hsc.pumpLastRecipeCount
    · exact hbt
    · exact hbe
    · exact inv.len.trans hAlen
    · exact hentries
    · exact hoffOnly.transOff (OffOnly.of_ports rfl rfl rfl)
    · exact hoffcur
    · exact hoff
    · exact hkeep
    · refine Or.inl ⟨b.pumpLastIndex, x, n1, hxst, by omega, ?_, rfl, n4b.symm, ?_, ?_,
        inv.frame.pumpRunning.trans hsc.pumpRunning, rfl, ?_⟩
      · have : (handlerEntry st cur).pumpLastTime = 0xFFFF := rfl
        omega
      · intro j y hj hy hlt
        rw [n4b]; exact n5 j y hj (hAof j y hy hlt) hlt
      · intro j y hj hy hlt
        rw [n4b]; exact n6 j y hj (hAof j y hy hlt) hlt
      · show (b.systemTime + (x.time + 2 ^ 16 - b.pumpCurrentRunTime) % 2 ^ 16) % 2 ^ 64 = _
        rw [hbt, hbe]

/-! ## A dispense with zero delays -/

theorem tickISR_eq (st : Board) :
    tickISR st =
      if st.quickTimeCallback = some CallbackType.pumpHandleRecipeState ∧
          (st.systemTime + 1) % 2 ^ 64 = st.quickTimeFire then
        pumpHandleRecipeState (advance st)
      else some (advance st) := by
  unfold tickISR advance
  dsimp only
  cases hcb : st.quickTimeCallback with
  | none => simp
  | some cb =>
    cases cb
    by_cases h : (st.systemTime + 1) % 2 ^ 64 = st.quickTimeFire
    · simp [h]
    · simp [h]

theorem zeroed_zeroed (x : RecipeIngredient) : zeroed (zeroed x) = zeroed x := rfl

theorem fire_iff (a s k t : Nat) (ha : a % 2 ^ 64 = (s + k) % 2 ^ 64) (hk : k < t)
    (ht : t ≤ 65534) : (a + 1) % 2 ^ 64 = (s + t) % 2 ^ 64 ↔ k + 1 = t := by
  have e : (2 : Nat) ^ 64 = 18446744073709551616 := by norm_num
  rw [e] at ha ⊢
  omega

theorem rearm_eq (a s k t : Nat) (ha : a % 2 ^ 64 = (s + k) % 2 ^ 64) (hk : k + 1 < t)
    (ht : t ≤ 65534) :
    ((a + 1) % 2 ^ 64 + (t + 2 ^ 16 - (k + 1)) % 2 ^ 16) % 2 ^ 64 = (s + t) % 2 ^ 64 := by
  have e : (2 : Nat) ^ 64 = 18446744073709551616 := by norm_num
  have e2 : (2 : Nat) ^ 16 = 65536 := by norm_num
  rw [e, e2] at *
  omega

/-- One tick during a zero-delay dispense that has not ended. -/
theorem RunInv.step (st0 : Board) (n k : Nat) (st : Board) (hn20 : n ≤ 20)
    (hv : ZeroDelayRecipe st0 n) (inv : RunInv st0 n k st)
    (hlive : ∃ j y, j < n ∧ st0.ingredients[j]? = some y ∧ k < y.time) :
    ∃ st', tickISR st = some st' ∧ RunInv st0 n (k + 1) st' := by
  have hnlen : n ≤ st0.ingredients.length := by
    by_contra hcon
    obtain ⟨x, hx, _⟩ := hv (n - 1) (by omega)
    rw [List.getElem?_eq_none (by omega)] at hx
    cases hx
  rcases inv.ctl with ⟨I, x, hI, hIx, hkx, hidx, hmin, hrun, hcb, hfire⟩ | ⟨hall, _⟩
  swap
  · obtain ⟨j, y, hj, hy, hky⟩ := hlive
    have := hall j y hj hy
    omega
  have hxle : x.time ≤ 65534 := by
    obtain ⟨x2, hx2, _, ⟨_, h⟩, _⟩ := hv I hI
    rw [hIx] at hx2; cases hx2; exact h
  rw [tickISR_eq, hcb, hfire]
  have hfi := fire_iff st.systemTime st0.systemTime k x.time inv.time hkx hxle
  have hst1 : ∀ j, j < n → (advance st).ingredients[j]? =
      (st0.ingredients[j]?).map (fun x => if x.time ≤ k then zeroed x else x) := inv.entries
  have hst1_live : ∀ (j : Nat) (y : RecipeIngredient), j < n → st0.ingredients[j]? = some y →
      k < y.time → (advance st).ingredients[j]? = some y := by
    intro j y hj hy hky
    rw [hst1 j hj, hy]
    simp only [Option.map_some']
    rw [if_neg (by omega)]
  have htime : (advance st).systemTime % 2 ^ 64 = (st0.systemTime + (k + 1)) % 2 ^ 64 := by
    show (st.systemTime + 1) % 2 ^ 64 % 2 ^ 64 = _
    rw [Nat.mod_mod, Nat.add_mod, inv.time, ← Nat.add_mod, Nat.add_assoc]
  by_cases hnow : k + 1 = x.time
  · -- the deadline fires
    rw [if_pos ⟨rfl, hfi.2 hnow⟩]
    have hcount : (advance st).pumpLastRecipeCount = n := inv.count
    have hindex : (advance st).pumpLastIndex = I := hidx
    have hcur : (advance st).ingredients[(advance st).pumpLastIndex]? = some x := by
      rw [hindex]; exact hst1_live I x hI hIx hkx
    obtain ⟨st', hst', eff⟩ := pumpHandleRecipeState_effect (advance st) x inv.ptr hcur
      (by rw [hcount]; show n ≤ st.ingredients.length; rw [inv.len]; exact hnlen)
      (by rw [hcount]; exact hn20)
    refine ⟨st', hst', ?_⟩
    rw [hcount, hindex] at eff
    constructor
    · exact eff.pumpLastRecipe.trans inv.ptr
    · exact eff.pumpLastRecipeCount.trans inv.count
    · exact eff.len.trans inv.len
    · intro j hj
      rw [eff.entries j, hst1 j hj]
      cases hy : st0.ingredients[j]? with
      | none => rfl
      | some y =>
        simp only [Option.map_some']
        by_cases h1 : y.time ≤ k
        · rw [if_pos h1, if_pos (show y.time ≤ k + 1 by omega)]
          split_ifs <;> rfl
        · rw [if_neg h1]
          by_cases h2 : y.time ≤ k + 1
          · rw [if_pos h2, if_pos (Or.inr ⟨hj, by omega, by omega⟩)]
          · rw [if_neg h2, if_neg]
            intro h
            rcases h with h | ⟨_, _, h⟩
            · subst h; rw [hIx] at hy; cases hy; omega
            · omega
    · rw [eff.systemTime]; exact htime
    · intro j y hj hy hyk
      obtain ⟨y2, hy2, ⟨hp1, hp2⟩, ⟨ht1, _⟩, _⟩ := hv j hj
      rw [hy] at hy2; cases hy2
      by_cases h1 : y.time ≤ k
      · have := inv.off j y hj hy h1
        by_contra hcon
        have h3 := eff.offOnly y.pump (by simpa using hcon)
        have h4 : pumpOutput (advance st) y.pump = pumpOutput st y.pump :=
          pumpOutput_of_ports rfl rfl rfl _
        rw [h4, this] at h3
        cases h3
      · exact eff.off j y hj (hst1_live j y hj hy (by omega)) (by omega) (by omega) hp1 hp2
    · rcases eff.next with ⟨I', x', hI', hx', hlt, hlt2, hidx', _, hmin', _, hrun', hcb', hfire'⟩ |
        ⟨_, _, hrun', _, _, hnone⟩
      · -- the deadline is re-armed
        have hx0 : st0.ingredients[I']? = some x' := by
          rw [hst1 I' hI'] at hx'
          cases hy : st0.ingredients[I']? with
          | none => rw [hy] at hx'; cases hx'
          | some y =>
            rw [hy] at hx'
            simp only [Option.map_some'] at hx'
            by_cases h1 : y.time ≤ k
            · rw [if_pos h1] at hx'
              cases hx'
              simp [zeroed] at hlt
            · rw [if_neg h1] at hx'
              rw [← Option.some.inj hx']
        have hx'le : x'.time ≤ 65534 := by
          obtain ⟨x2, hx2, _, ⟨_, h⟩, _⟩ := hv I' hI'
          rw [hx0] at hx2; cases hx2; exact h
        refine Or.inl ⟨I', x', hI', hx0, by omega, hidx', ?_, hrun'.trans hrun, hcb', ?_⟩
        · intro j y hj hy hky
          exact hmin' j y hj (hst1_live j y hj hy (by omega)) (by omega)
        · rw [hfire', ← hnow]
          exact rearm_eq st.systemTime st0.systemTime k x'.time inv.time (by omega) hx'le
      · -- the dispense ends
        refine Or.inr ⟨?_, hrun'⟩
        intro j y hj hy
        by_contra hcon
        have := hnone j y hj (hst1_live j y hj hy (by omega)) (by omega)
        obtain ⟨y2, hy2, _, ⟨_, h⟩, _⟩ := hv j hj
        rw [hy] at hy2; cases hy2
        omega
  · -- only the tick counter advances
    rw [if_neg (fun h => hnow (hfi.1 h.2))]
    refine ⟨_, rfl, ?_⟩
    have hno : ∀ (j : Nat) (y : RecipeIngredient), j < n → st0.ingredients[j]? = some y →
        (y.time ≤ k + 1 ↔ y.time ≤ k) := by
      intro j y hj hy
      constructor
      · intro h
        by_contra hcon
        have := hmin j y hj hy (by omega)
        omega
      · intro h; omega
    constructor
    · exact inv.ptr
    · exact inv.count
    · exact inv.len
    · intro j hj
      show st.ingredients[j]? = _
      rw [inv.entries j hj]
      cases hy : st0.ingredients[j]? with
      | none => rfl
      | some y =>
        simp only [Option.map_some']
        by_cases h1 : y.time ≤ k
        · rw [if_pos h1, if_pos ((hno j y hj hy).2 h1)]
        · rw [if_neg h1, if_neg (fun h => h1 ((hno j y hj hy).1 h))]
    · exact htime
    · intro j y hj hy hyk
      exact inv.off j y hj hy ((hno j y hj hy).1 hyk)
    · exact Or.inl ⟨I, x, hI, hIx, by omega, hidx, fun j y hj hy hky => hmin j y hj hy (by omega),
        hrun, hcb, hfire⟩

theorem le_maxTime (l : List RecipeIngredient) (x : RecipeIngredient) (h : x ∈ l) :
    x.time ≤ maxTime l := by
  induction l with
  | nil => cases h
  | cons a l ih =>
    simp only [maxTime]
    rcases List.mem_cons.1 h with h | h
    · subst h; exact le_max_left _ _
    · exact le_trans (ih h) (le_max_right _ _)

theorem maxTime_mem (l : List RecipeIngredient) (h : l ≠ []) :
    ∃ x, x ∈ l ∧ x.time = maxTime l := by
  induction l with
  | nil => exact absurd rfl h
  | cons a l ih =>
    simp only [maxTime]
    by_cases hl : l = []
    · subst hl
      exact ⟨a, List.mem_cons_self _ _, by simp [maxTime]⟩
    · obtain ⟨x, hx, hxt⟩ := ih hl
      by_cases hle : maxTime l ≤ a.time
      · exact ⟨a, List.mem_cons_self _ _, by rw [max_eq_left hle]⟩
      · exact ⟨x, List.mem_cons_of_mem _ hx, by rw [max_eq_right (by omega)]; exact hxt⟩

theorem mem_take_iff (l : List RecipeIngredient) (n : Nat) (x : RecipeIngredient) :
    x ∈ l.take n ↔ ∃ j, j < n ∧ l[j]? = some x := by
  rw [List.mem_iff_getElem?]
  constructor
  · rintro ⟨j, hj⟩
    rw [List.getElem?_take] at hj
    by_cases h : j < n
    · rw [if_pos h] at hj; exact ⟨j, h, hj⟩
    · rw [if_neg h] at hj; cases hj
  · rintro ⟨j, h, hj⟩
    exact ⟨j, by rw [List.getElem?_take, if_pos h]; exact hj⟩

theorem ticks_succ (k : Nat) (st : Board) :
    ticks (k + 1) st = (ticks k st).bind tickISR := by
  induction k generalizing st with
  | zero =>
    show (match tickISR st with
      | none => none
      | some s => some s) = tickISR st
    cases tickISR st <;> rfl
  | succ k ih =>
    have h1 : ticks (k + 1 + 1) st =
        match tickISR st with
        | none => none
        | some s => ticks (k + 1) s := rfl
    have h2 : ticks (k + 1) st =
        match tickISR st with
        | none => none
        | some s => ticks k s := rfl
    rw [h1, h2]
    cases tickISR st with
    | none => rfl
    | some s => exact ih s

/-- The board right after an accepted zero-delay start. -/
theorem RunInv.start (st0 st1 : Board) (n I : Nat) (ingI : RecipeIngredient)
    (hv : ZeroDelayRecipe st0 n) (he : StartEffect st0 n st1 I ingI) : RunInv st0 n 0 st1 := by
  have hkey : ∀ (j : Nat) (y : RecipeIngredient), j < n → st0.ingredients[j]? = some y →
      rankKey y = y.time ∧ 0 < y.time := by
    intro j y hj hy
    obtain ⟨x, hx, _, ⟨h1, h2⟩, hd⟩ := hv j hj
    rw [hy] at hx; cases hx
    refine ⟨?_, h1⟩
    unfold rankKey
    rw [hd, Nat.add_zero]
    exact Nat.mod_eq_of_lt (by omega)
  constructor
  · exact he.pumpLastRecipe
  · exact he.pumpLastRecipeCount
  · rw [he.ingredients]
  · intro j hj
    rw [he.ingredients]
    cases hy : st0.ingredients[j]? with
    | none => rfl
    | some y =>
      simp only [Option.map_some']
      rw [if_neg (by have := (hkey j y hj hy).2; omega)]
  · rw [he.systemTime]; rfl
  · intro j y hj hy h0
    have := (hkey j y hj hy).2
    omega
  · have hI := hkey I ingI he.index_lt he.index_get
    refine Or.inl ⟨I, ingI, he.index_lt, he.index_get, hI.2, he.pumpLastIndex, ?_,
      he.pumpRunning, he.quickTimeCallback, by rw [he.quickTimeFire, hI.1]⟩
    intro j y hj hy _
    rw [← hI.1, ← (hkey j y hj hy).1]
    exact he.least j y hj hy

/-- The run invariant holds for as long as some pump is still due. -/
theorem RunInv.ticks (st0 st1 : Board) (n : Nat) (hn20 : n ≤ 20) (hv : ZeroDelayRecipe st0 n)
    (h0 : RunInv st0 n 0 st1) (k : Nat)
    (hk : ∃ j y, j < n ∧ st0.ingredients[j]? = some y ∧ k ≤ y.time) :
    ∃ st, PumpBoard.ticks k st1 = some st ∧ RunInv st0 n k st := by
  induction k with
  | zero => exact ⟨st1, rfl, h0⟩
  | succ k ih =>
    obtain ⟨j, y, hj, hy, hky⟩ := hk
    obtain ⟨st, hst, inv⟩ := ih ⟨j, y, hj, hy, by omega⟩
    obtain ⟨st', hst', inv'⟩ := inv.step st0 n k st hn20 hv ⟨j, y, hj, hy, by omega⟩
    refine ⟨st', ?_, inv'⟩
    rw [ticks_succ, hst]
    exact hst'

/-- Claim C1, amended: for a recipe of 1 to 20 ingredients with unique pump
ids in 1..20, durations in 1..65534 and zero delay, started by `pumpsRecipe`
at tick `s` while nothing runs, with only tick interrupts afterwards:
`pumpsDispensing()` is 1 after every `k < max duration` ticks, and after
exactly `max duration` ticks it is 0 and every pump of the recipe is off. -/
theorem dispense_completion (st0 : Board) (n : Nat) (hrun : pumpsDispensing st0 = 0)
    (hn1 : 1 ≤ n) (hn2 : n ≤ 20) (hv : ZeroDelayRecipe st0 n)
    (_huniq : ∀ i j x y, i < n → j < n → st0.ingredients[i]? = some x →
      st0.ingredients[j]? = some y → x.pump = y.pump → i = j) :
    ∃ st1, pumpsRecipe RecipePtr.ingredients n st0 = some st1 ∧
      (∀ k, k < maxTime (st0.ingredients.take n) →
        ∃ st, ticks k st1 = some st ∧ pumpsDispensing st = 1) ∧
      ∃ st, ticks (maxTime (st0.ingredients.take n)) st1 = some st ∧
        pumpsDispensing st = 0 ∧
        st.systemTime % 2 ^ 64 = (st0.systemTime + maxTime (st0.ingredients.take n)) % 2 ^ 64 ∧
        ∀ j x, j < n → st0.ingredients[j]? = some x → pumpOutput st x.pump = false := by
  -- the recipe is accepted
  have hkeyex : ∃ j ing, j < n ∧ st0.ingredients[j]? = some ing ∧ rankKey ing < 0xFFFF := by
    obtain ⟨x, hx, _, ⟨_, h2⟩, hd⟩ := hv 0 (by omega)
    refine ⟨0, x, by omega, hx, ?_⟩
    unfold rankKey
    rw [hd, Nat.add_zero, Nat.mod_eq_of_lt (by omega)]
    omega
  obtain ⟨st1, I, ingI, hstart, he⟩ := pumpsRecipe_start st0 n hrun hn1 hn2
    (fun j hj => by
      obtain ⟨x, hx, hp, ht, _⟩ := hv j hj
      exact ⟨x, hx, hp.1, hp.2, ht.1⟩) hkeyex
  have h0 := RunInv.start st0 st1 n I ingI hv he
  -- the longest duration
  have hne : st0.ingredients.take n ≠ [] := by
    obtain ⟨x, hx, _⟩ := hv 0 (by omega)
    intro hnil
    have := (mem_take_iff st0.ingredients n x).2 ⟨0, by omega, hx⟩
    rw [hnil] at this
    cases this
  obtain ⟨xm, hxm, hxmt⟩ := maxTime_mem _ hne
  obtain ⟨jm, hjm, hjmx⟩ := (mem_take_iff _ _ _).1 hxm
  have hle : ∀ (j : Nat) (y : RecipeIngredient), j < n → st0.ingredients[j]? = some y →
      y.time ≤ maxTime (st0.ingredients.take n) :=
    fun j y hj hy => le_maxTime _ y ((mem_take_iff _ _ _).2 ⟨j, hj, hy⟩)
  refine ⟨st1, hstart, ?_, ?_⟩
  · intro k hk
    obtain ⟨st, hst, inv⟩ := RunInv.ticks st0 st1 n hn2 hv h0 k ⟨jm, xm, hjm, hjmx, by omega⟩
    refine ⟨st, hst, ?_⟩
    rcases inv.ctl with ⟨_, _, _, _, _, _, _, hr, _⟩ | ⟨hall, _⟩
    · exact hr
    · have := hall jm xm hjm hjmx
      omega
  · obtain ⟨st, hst, inv⟩ := RunInv.ticks st0 st1 n hn2 hv h0 (maxTime (st0.ingredients.take n))
      ⟨jm, xm, hjm, hjmx, by omega⟩
    refine ⟨st, hst, ?_, inv.time, ?_⟩
    · rcases inv.ctl with ⟨_, x, hI, hx, hlt, _⟩ | ⟨_, hr⟩
      · have := hle _ x hI hx
        omega
      · exact hr
    · intro j x hj hx
      exact inv.off j x hj hx (hle j x hj hx)

theorem scenarioA_zeroDelay : ZeroDelayRecipe scenarioA 3 := by
  intro j hj
  interval_cases j
  · exact ⟨⟨1, 5, 0⟩, rfl, by decide⟩
  · exact ⟨⟨2, 3, 0⟩, rfl, by decide⟩
  · exact ⟨⟨3, 3, 0⟩, rfl, by decide⟩

theorem scenarioA_unique (i j : Nat) (x y : RecipeIngredient) (hi : i < 3) (hj : j < 3)
    (hx : scenarioA.ingredients[i]? = some x) (hy : scenarioA.ingredients[j]? = some y)
    (hp : x.pump = y.pump) : i = j := by
  interval_cases i <;> interval_cases j <;>
    first
    | rfl
    | (exfalso
       simp only [scenarioA, powerOn, List.cons_append, List.nil_append,
         List.getElem?_cons_zero, List.getElem?_cons_succ, Option.some.injEq] at hx hy
       subst hx hy
       simp at hp)

/-- Scenario A with durations 5, 3, 3: running for ticks 0..4, complete at
tick 5. -/
theorem dispense_completion_witness :
    ∃ st1, pumpsRecipe RecipePtr.ingredients 3 scenarioA = some st1 ∧
      (∀ k, k < 5 → ∃ st, ticks k st1 = some st ∧ pumpsDispensing st = 1) ∧
      ∃ st, ticks 5 st1 = some st ∧ pumpsDispensing st = 0 ∧
        st.systemTime % 2 ^ 64 = (scenarioA.systemTime + 5) % 2 ^ 64 ∧
        ∀ j x, j < 3 → scenarioA.ingredients[j]? = some x → pumpOutput st x.pump = false :=
  dispense_completion scenarioA 3 (by decide) (by decide) (by decide) scenarioA_zeroDelay
    scenarioA_unique

/-- Claim C1 as stated fails for a duration of 65535: beside a 1 ms ingredient,
the run is over after one tick with pump 2 still on; alone, the recipe is
rejected and nothing ever runs. -/
theorem dispense_completion_counterexample :
    ((pumpsRecipe RecipePtr.ingredients 2
        { powerOn with
          ingredients := [⟨1, 1, 0⟩, ⟨2, 65535, 0⟩] ++ List.replicate 18 ⟨0, 0, 0⟩ }).bind
      (ticks 1)).map (fun s => (pumpsDispensing s, pumpOutput s 2)) = some (0, true) ∧
    (pumpsRecipe RecipePtr.ingredients 1
        { powerOn with ingredients := [⟨1, 65535, 0⟩] ++ List.replicate 19 ⟨0, 0, 0⟩ }).map
      pumpsDispensing = some 0 := by
  decide

/-- While the armed fire tick equals the current tick, no tick interrupt fires
the deadline for the next `2^64 - 1` ticks. -/
theorem ticks_no_fire (st : Board) (hs : st.systemTime < 2 ^ 64)
    (hf : st.quickTimeFire = st.systemTime) (k : Nat) (hk : k < 2 ^ 64) :
    ∃ st', ticks k st = some st' ∧ st'.pumpRunning = st.pumpRunning ∧
      st'.quickTimeFire = st.quickTimeFire ∧ st'.systemTime = (st.systemTime + k) % 2 ^ 64 ∧
      (∀ q, pumpOutput st' q = pumpOutput st q) := by
  induction k with
  | zero =>
    exact ⟨st, rfl, rfl, rfl, by rw [Nat.add_zero, Nat.mod_eq_of_lt hs], fun _ => rfl⟩
  | succ k ih =>
    obtain ⟨st', hst', h1, h2, h3, h4⟩ := ih (by omega)
    have hne : ¬ (st'.quickTimeCallback = some CallbackType.pumpHandleRecipeState ∧
        (st'.systemTime + 1) % 2 ^ 64 = st'.quickTimeFire) := by
      intro h
      have h5 := h.2
      rw [h2, hf, h3] at h5
      have e : (2 : Nat) ^ 64 = 18446744073709551616 := by norm_num
      rw [e] at h5 hs hk
      omega
    refine ⟨advance st', ?_, h1, h2, ?_, h4⟩
    · rw [ticks_succ, hst']
      show tickISR st' = _
      rw [tickISR_eq, if_neg hne]
    · show (st'.systemTime + 1) % 2 ^ 64 = _
      rw [h3]
      have e : (2 : Nat) ^ 64 = 18446744073709551616 := by norm_num
      rw [e]
      omega

/-- Claim C5 at its failing input: the recipe (pump 1, duration 1, delay
65535) is accepted, its 16-bit stop value `1 + 65535` wraps to 0, the deadline
is armed for the current tick, and for each of the next `2^64 - 1` ticks
`pumpsDispensing()` is still 1 and pump 1 is still on. -/
theorem delay_overflow_never_completes :
    ∃ st1, pumpsRecipe RecipePtr.ingredients 1 overflowRecipe = some st1 ∧
      pumpsDispensing st1 = 1 ∧
      ∀ k, k < 2 ^ 64 → ∃ st, ticks k st1 = some st ∧ pumpsDispensing st = 1 ∧
        pumpOutput st 1 = true := by
  have h : ∃ st1, pumpsRecipe RecipePtr.ingredients 1 overflowRecipe = some st1 ∧
      st1.pumpRunning = 1 ∧ st1.systemTime = 0 ∧ st1.quickTimeFire = 0 ∧
      pumpOutput st1 1 = true := ⟨_, rfl, by decide⟩
  obtain ⟨st1, h1, h2, h3, h4, h5⟩ := h
  refine ⟨st1, h1, h2, ?_⟩
  intro k hk
  obtain ⟨st, hst, r1, _, _, r4⟩ := ticks_no_fire st1 (by rw [h3]; norm_num)
    (by rw [h3, h4]) k hk
  exact ⟨st, hst, r1.trans h2, by rw [r4, h5]⟩

/-! ## Manual pump control and the cleaning cycle -/

theorem pumpSet_bits_on (id state : Nat) (st : Board) (h1 : 1 ≤ id) (h2 : id ≤ 20)
    (hs : state ≠ 0) (j : Nat) :
    (pumpSet id state st).portA.testBit j = (st.portA.testBit j || pinOfPortA id j) ∧
    (pumpSet id state st).portB.testBit j = (st.portB.testBit j || pinOfPortB id j) ∧
    (pumpSet id state st).portH.testBit j = (st.portH.testBit j || pinOfPortH id j) := by
  rw [pumpSet_portA, pumpSet_portB, pumpSet_portH]
  simp only [hs, ne_eq, not_false_eq_true, if_true, pinOfPortA, pinOfPortB, pinOfPortH]
  refine ⟨?_, ?_, ?_⟩
  · split_ifs with h
    · rw [testBit_outSet]
      congr 1
      apply decide_eq_decide.2
      constructor <;> intro h' <;> omega
    · have : ¬ (1 ≤ id ∧ id ≤ 8 ∧ j = id - 1) := by omega
      simp [this]
  · split_ifs with h
    · rw [testBit_outSet]
      congr 1
      apply decide_eq_decide.2
      constructor <;> intro h' <;> omega
    · have : ¬ (9 ≤ id ∧ id ≤ 16 ∧ j = id - 9) := by omega
      simp [this]
  · split_ifs with h
    · rw [testBit_outSet]
      congr 1
      apply decide_eq_decide.2
      constructor <;> intro h' <;> omega
    · have : ¬ (17 ≤ id ∧ id ≤ 20 ∧ j = id - 17) := by omega
      simp [this]

theorem pumpSet_bits_off (id : Nat) (st : Board) (h1 : 1 ≤ id) (h2 : id ≤ 20)
    (j : Nat) (hj : j < 8) :
    (pumpSet id 0 st).portA.testBit j = (st.portA.testBit j && !pinOfPortA id j) ∧
    (pumpSet id 0 st).portB.testBit j = (st.portB.testBit j && !pinOfPortB id j) ∧
    (pumpSet id 0 st).portH.testBit j = (st.portH.testBit j && !pinOfPortH id j) := by
  rw [pumpSet_portA, pumpSet_portB, pumpSet_portH]
  simp only [ne_eq, not_true_eq_false, if_false, pinOfPortA, pinOfPortB, pinOfPortH]
  refine ⟨?_, ?_, ?_⟩
  · split_ifs with h
    · rw [testBit_outClr _ _ _ (by omega)]
      simp only [hj, decide_True, Bool.and_true]
      congr 2
      apply decide_eq_decide.2
      constructor <;> intro h' <;> omega
    · have : ¬ (1 ≤ id ∧ id ≤ 8 ∧ j = id - 1) := by omega
      simp [this]
  · split_ifs with h
    · rw [testBit_outClr _ _ _ (by omega)]
      simp only [hj, decide_True, Bool.and_true]
      congr 2
      apply decide_eq_decide.2
      constructor <;> intro h' <;> omega
    · have : ¬ (9 ≤ id ∧ id ≤ 16 ∧ j = id - 9) := by omega
      simp [this]
  · split_ifs with h
    · rw [testBit_outClr _ _ _ (by omega)]
      simp only [hj, decide_True, Bool.and_true]
      congr 2
      apply decide_eq_decide.2
      constructor <;> intro h' <;> omega
    · have : ¬ (17 ≤ id ∧ id ≤ 20 ∧ j = id - 17) := by omega
      simp [this]

/-- Claim C15: for every id in 1..20, `pumpOn(id)` sets and `pumpOff(id)`
clears exactly the documented output bit (ids 1..8 are port A bits 0..7, ids
9..16 port B bits 0..7, ids 17..20 port H bits 0..3): every other bit of the
three 8-bit output registers, so the output of every other pump, is unchanged. -/
theorem pump_pin_mapping (id : Nat) (st : Board) (h1 : 1 ≤ id) (h2 : id ≤ 20) (j : Nat)
    (hj : j < 8) :
    ((pumpOn id st).portA.testBit j = (st.portA.testBit j || pinOfPortA id j) ∧
     (pumpOn id st).portB.testBit j = (st.portB.testBit j || pinOfPortB id j) ∧
     (pumpOn id st).portH.testBit j = (st.portH.testBit j || pinOfPortH id j)) ∧
    ((pumpOff id st).portA.testBit j = (st.portA.testBit j && !pinOfPortA id j) ∧
     (pumpOff id st).portB.testBit j = (st.portB.testBit j && !pinOfPortB id j) ∧
     (pumpOff id st).portH.testBit j = (st.portH.testBit j && !pinOfPortH id j)) ∧
    (∀ q, 1 ≤ q → q ≤ 20 → q ≠ id →
      pumpOutput (pumpOn id st) q = pumpOutput st q ∧
      pumpOutput (pumpOff id st) q = pumpOutput st q) := by
  have hid : id % 256 = id := Nat.mod_eq_of_lt (by omega)
  unfold pumpOn pumpOff
  rw [hid]
  refine ⟨pumpSet_bits_on id 1 st h1 h2 (by decide) j, pumpSet_bits_off id st h1 h2 j hj, ?_⟩
  intro q hq1 hq2 hne
  exact ⟨pumpOutput_pumpSet_other id 1 q st hq1 hq2 hne,
    pumpOutput_pumpSet_other id 0 q st hq1 hq2 hne⟩

/-- Pump 10 is bit 1 of port B. -/
theorem pump_pin_mapping_witness :
    (pumpOn 10 powerOn).portB.testBit 1 = (powerOn.portB.testBit 1 || pinOfPortB 10 1) :=
  (pump_pin_mapping 10 powerOn (by decide) (by decide) 1 (by decide)).1.2.1

/-- Claim C13 at its failing input: the 16-bit argument 257 is outside 1..20,
but `pumpOn(257)` turns pump 1 on and `pumpOff(257)` turns it off again, and
neither reports an error. -/
theorem pumpOn_truncates_argument :
    pumpOutput (pumpOn 257 powerOn) 1 = true ∧ (pumpOn 257 powerOn).serial = [] ∧
    pumpOutput (pumpOn 1 powerOn) 1 = true ∧
    pumpOutput (pumpOff 257 (pumpOn 1 powerOn)) 1 = false ∧
    (pumpOff 257 (pumpOn 1 powerOn)).serial = [] := by
  decide

theorem pumpSet_serial (id state : Nat) (st : Board) (h1 : 1 ≤ id) (h2 : id ≤ 20) :
    (pumpSet id state st).serial = st.serial := by
  unfold pumpSet
  rw [if_neg (by omega)]
  exact (lightsSet_pumpPorts _ _ _).2.2.2.trans (by split_ifs <;> rfl)

/-- Claim C14, amended: `pumpOn` and `pumpOff` do not consult the running
flag.  Also while `pumpsDispensing()` is true, for every id in 1..20
`pumpOn(id)` sets and `pumpOff(id)` clears the output of pump `id`; neither
reports anything, and `pumpsDispensing()` keeps its value. -/
theorem toggle_while_dispensing (st : Board) (id : Nat) (_hrun : pumpsDispensing st ≠ 0)
    (h1 : 1 ≤ id) (h2 : id ≤ 20) :
    (pumpOutput (pumpOn id st) id = true ∧ (pumpOn id st).serial = st.serial ∧
      pumpsDispensing (pumpOn id st) = pumpsDispensing st) ∧
    (pumpOutput (pumpOff id st) id = false ∧ (pumpOff id st).serial = st.serial ∧
      pumpsDispensing (pumpOff id st) = pumpsDispensing st) := by
  have hid : id % 256 = id := Nat.mod_eq_of_lt (by omega)
  unfold pumpOn pumpOff pumpsDispensing
  rw [hid]
  exact ⟨⟨pumpOutput_pumpSet_on_self id st h1 h2, pumpSet_serial id 1 st h1 h2,
      (pumpSet_sameControl id 1 st).pumpRunning⟩,
    ⟨pumpOutput_pumpSet_off_self id st h1 h2, pumpSet_serial id 0 st h1 h2,
      (pumpSet_sameControl id 0 st).pumpRunning⟩⟩

/-- During a cleaning cycle, `pumpOff(1)` turns pump 1 off without a word. -/
theorem toggle_while_dispensing_witness :
    pumpOutput (pumpOff 1 (pumpsClean 1 powerOn)) 1 = false ∧
      (pumpOff 1 (pumpsClean 1 powerOn)).serial = (pumpsClean 1 powerOn).serial ∧
      pumpsDispensing (pumpOff 1 (pumpsClean 1 powerOn)) =
        pumpsDispensing (pumpsClean 1 powerOn) :=
  (toggle_while_dispensing (pumpsClean 1 powerOn) 1 (by decide) (by decide) (by decide)).2

/-- Claim C14 as stated fails: after `pumpsClean(1)` the running flag is set
and pump 1 is on; `pumpOff(1)` is not rejected, it reports nothing and turns
pump 1 off. -/
theorem toggle_while_dispensing_counterexample :
    pumpsDispensing (pumpsClean 1 powerOn) = 1 ∧
    pumpOutput (pumpsClean 1 powerOn) 1 = true ∧
    pumpOutput (pumpOff 1 (pumpsClean 1 powerOn)) 1 = false ∧
    (pumpOff 1 (pumpsClean 1 powerOn)).serial = (pumpsClean 1 powerOn).serial := by
  decide

theorem pumpOutput_pumpSet_nonzero_self (id state : Nat) (st : Board) (h1 : 1 ≤ id)
    (h2 : id ≤ 20) (hs : state ≠ 0) : pumpOutput (pumpSet id state st) id = true := by
  unfold pumpOutput
  rw [pumpSet_portA, pumpSet_portB, pumpSet_portH]
  simp only [hs, ne_eq, not_false_eq_true, if_true]
  split_ifs <;> first
    | (exfalso; omega)
    | (rw [testBit_outSet]; simp)

theorem pumpOutput_pumpSet_nonzero_mono (id state q : Nat) (st : Board) (hs : state ≠ 0)
    (h : pumpOutput st q = true) : pumpOutput (pumpSet id state st) q = true := by
  unfold pumpOutput at h ⊢
  rw [pumpSet_portA, pumpSet_portB, pumpSet_portH]
  simp only [hs, ne_eq, not_false_eq_true, if_true]
  split_ifs at h ⊢ <;> first
    | exact h
    | (rw [testBit_outSet, h]; rfl)

theorem pumpSetAll_nonzero_mem (l : List Nat) (state : Nat) (st : Board) (q : Nat)
    (hs : state ≠ 0) (hq : q ∈ l) (hl : ∀ i ∈ l, 1 ≤ i ∧ i ≤ 20) :
    pumpOutput (l.foldl (fun s i => pumpSet i state s) st) q = true := by
  induction l using List.reverseRecOn with
  | nil => cases hq
  | append_singleton l a ih =>
    rw [List.foldl_append]
    simp only [List.foldl_cons, List.foldl_nil]
    by_cases hqa : q = a
    · subst hqa
      exact pumpOutput_pumpSet_nonzero_self q state _
        (hl q (by simp)).1 (hl q (by simp)).2 hs
    · have hq2 : q ∈ l := by
        rcases List.mem_append.1 hq with h | h
        · exact h
        · exact absurd (List.mem_singleton.1 h) hqa
      exact pumpOutput_pumpSet_nonzero_mono a state q _ hs
        (ih hq2 (fun i hi => hl i (List.mem_append_left _ hi)))

theorem mem_range_one_twenty (q : Nat) (h1 : 1 ≤ q) (h2 : q ≤ 20) : q ∈ List.range' 1 20 := by
  simp only [List.mem_range']
  exact ⟨q - 1, by omega, by omega⟩

theorem range_one_twenty_valid (i : Nat) (hi : i ∈ List.range' 1 20) : 1 ≤ i ∧ i ≤ 20 := by
  simp only [List.mem_range'] at hi
  omega

/-- Claim C20: `pumpsClean(start)` while nothing runs turns all 20 pump
outputs on and sets the running flag; `pumpsClean(stop)` while the flag is set
turns all 20 outputs off and clears it; `pumpsClean(start)` while the flag is
set and `pumpsClean(stop)` while it is clear only report an error. -/
theorem clean_cycle (st : Board) (state : Nat) (hs : state ≠ 0) :
    (pumpsDispensing st = 0 →
      (∀ q, 1 ≤ q → q ≤ 20 → pumpOutput (pumpsClean state st) q = true) ∧
      pumpsDispensing (pumpsClean state st) = 1) ∧
    (pumpsDispensing st ≠ 0 →
      (∀ q, 1 ≤ q → q ≤ 20 → pumpOutput (pumpsClean 0 st) q = false) ∧
      pumpsDispensing (pumpsClean 0 st) = 0) ∧
    (pumpsDispensing st ≠ 0 →
      pumpsClean state st = { st with serial := st.serial ++
        [SerialItem.str "Error: can't clean while pumps are running!\n"] }) ∧
    (pumpsDispensing st = 0 →
      pumpsClean 0 st = { st with serial := st.serial ++
        [SerialItem.str "Error: can't stop cleaning while no pumps are running!\n"] }) := by
  unfold pumpsDispensing
  refine ⟨?_, ?_, ?_, ?_⟩
  · intro hr
    unfold pumpsClean
    rw [if_neg (by simp [hr]), if_neg (by simp [hs]), if_pos hs]
    refine ⟨fun q h1 h2 => ?_, ?_⟩
    · exact pumpSetAll_nonzero_mem _ state _ q hs (mem_range_one_twenty q h1 h2)
        range_one_twenty_valid
    · exact (pumpSetAll_sameControl state _ _).pumpRunning
  · intro hr
    unfold pumpsClean
    rw [if_neg (by simp), if_neg (by simp [hr])]
    refine ⟨fun q h1 h2 => ?_, ?_⟩
    · exact pumpSetAll_off_mem _ _ q (mem_range_one_twenty q h1 h2) range_one_twenty_valid
    · exact (pumpSetAll_sameControl 0 _ _).pumpRunning
  · intro hr
    unfold pumpsClean
    rw [if_pos ⟨hs, hr⟩]
    rfl
  · intro hr
    unfold pumpsClean
    rw [if_neg (by simp), if_pos ⟨rfl, hr⟩]
    rfl

/-- Start after power-on, then stop. -/
theorem clean_cycle_witness :
    ((∀ q, 1 ≤ q → q ≤ 20 → pumpOutput (pumpsClean 1 powerOn) q = true) ∧
      pumpsDispensing (pumpsClean 1 powerOn) = 1) ∧
    ((∀ q, 1 ≤ q → q ≤ 20 → pumpOutput (pumpsClean 0 (pumpsClean 1 powerOn)) q = false) ∧
      pumpsDispensing (pumpsClean 0 (pumpsClean 1 powerOn)) = 0) :=
  ⟨(clean_cycle powerOn 1 (by decide)).1 (by decide),
   (clean_cycle (pumpsClean 1 powerOn) 1 (by decide)).2.1 (by decide)⟩

/-! ## The tick interrupt and the deadline slot -/

theorem HandlerKeeps.reflKeeps (a : Board) : HandlerKeeps a a :=
  ⟨rfl, rfl, rfl, rfl, rfl, rfl, rfl, fun _ => Or.inl rfl⟩

theorem HandlerKeeps.transKeeps {a b c : Board} (h1 : HandlerKeeps a b)
    (h2 : HandlerKeeps b c) : HandlerKeeps a c := by
  refine ⟨h2.ingredientCount.trans h1.ingredientCount, h2.statePump.trans h1.statePump,
    h2.stateTime.trans h1.stateTime, h2.stateDelay.trans h1.stateDelay,
    h2.state.trans h1.state, h2.systemTime.trans h1.systemTime, h2.len.trans h1.len, ?_⟩
  intro j
  rcases h2.entries j with e2 | e2 <;> rcases h1.entries j with e1 | e1
  · exact Or.inl (e2.trans e1)
  · exact Or.inr (e2.trans e1)
  · right; rw [e2, e1]
  · right
    rw [e2, e1]
    cases a.ingredients[j]? <;> rfl

theorem HandlerKeeps.of_ingredients {a b : Board} (hi : b.ingredients = a.ingredients)
    (h1 : b.ingredientCount = a.ingredientCount) (h2 : b.statePump = a.statePump)
    (h3 : b.stateTime = a.stateTime) (h4 : b.stateDelay = a.stateDelay)
    (h5 : b.state = a.state) (h6 : b.systemTime = a.systemTime) : HandlerKeeps a b :=
  ⟨h1, h2, h3, h4, h5, h6, by rw [hi], fun _ => Or.inl (by rw [hi])⟩

theorem HandlerKeeps.of_sameControl {a b : Board} (h : SameControl a b) : HandlerKeeps a b :=
  HandlerKeeps.of_ingredients h.ingredients h.ingredientCount h.statePump h.stateTime
    h.stateDelay h.state h.systemTime

theorem LoopKeeps.reflLoop (a : Board) : LoopKeeps a a :=
  ⟨HandlerKeeps.reflKeeps a, rfl, rfl, rfl, rfl, rfl⟩

theorem LoopKeeps.transLoop {a b c : Board} (h1 : LoopKeeps a b) (h2 : LoopKeeps b c) :
    LoopKeeps a c :=
  ⟨h1.keeps.transKeeps h2.keeps, h2.pumpRunning.trans h1.pumpRunning,
    h2.quickTimeFire.trans h1.quickTimeFire, h2.quickTimeCallback.trans h1.quickTimeCallback,
    h2.pumpLastRecipe.trans h1.pumpLastRecipe,
    h2.pumpLastRecipeCount.trans h1.pumpLastRecipeCount⟩

/-- Zeroing the duration of slot `i`. -/
theorem HandlerKeeps.of_setTime (a : Board) (i : Nat) (ing : RecipeIngredient)
    (h : a.ingredients[i]? = some ing) :
    HandlerKeeps a { a with ingredients := a.ingredients.set i { ing with time := 0 } } := by
  refine ⟨rfl, rfl, rfl, rfl, rfl, rfl, by simp, ?_⟩
  intro j
  show (a.ingredients.set i { ing with time := 0 })[j]? = _ ∨
    (a.ingredients.set i { ing with time := 0 })[j]? = _
  rw [List.getElem?_set]
  by_cases hij : i = j
  · subst hij
    have hlt : i < a.ingredients.length := by
      by_contra hcon; rw [List.getElem?_eq_none (by omega)] at h; cases h
    right
    rw [if_pos rfl, if_pos hlt, h]
    rfl
  · left; rw [if_neg hij]

theorem handlerLoopBody_keeps (s : Board) (i : Nat) (s' : Board)
    (h : handlerLoopBody s i = some s') : LoopKeeps s s' := by
  unfold handlerLoopBody at h
  cases hg : s.pumpLastRecipe.get s i with
  | none => rw [hg] at h; cases h
  | some ing =>
    rw [hg] at h
    dsimp only at h
    split_ifs at h
    · obtain ⟨x, hx, _, hs⟩ := setTime_eq _ _ _ _ _ h
      have hsc := pumpSet_sameControl ing.pump 0 s
      have hk := HandlerKeeps.of_setTime (pumpSet ing.pump 0 s) i x hx
      rw [← hs] at hk
      refine ⟨(HandlerKeeps.of_sameControl hsc).transKeeps hk, ?_, ?_, ?_, ?_, ?_⟩ <;>
        rw [hs]
      · exact hsc.pumpRunning
      · exact hsc.quickTimeFire
      · exact hsc.quickTimeCallback
      · exact hsc.pumpLastRecipe
      · exact hsc.pumpLastRecipeCount
    · cases h
      exact ⟨⟨rfl, rfl, rfl, rfl, rfl, rfl, rfl, fun _ => Or.inl rfl⟩, rfl, rfl, rfl, rfl, rfl⟩
    · cases h; exact LoopKeeps.reflLoop _
    · cases h; exact LoopKeeps.reflLoop _

/-- Any run of the deadline handler, whatever the state it starts in. -/
theorem pumpHandleRecipeState_keeps (st st' : Board)
    (h : pumpHandleRecipeState st = some st') :
    HandlerKeeps st st' ∧ SlotAfter st st' ∧
      st'.pumpLastRecipe = st.pumpLastRecipe ∧
      st'.pumpLastRecipeCount = st.pumpLastRecipeCount := by
  unfold pumpHandleRecipeState at h
  cases hg : st.pumpLastRecipe.get st st.pumpLastIndex with
  | none => rw [hg] at h; cases h
  | some cur =>
    rw [hg] at h
    dsimp only at h
    have hsc := pumpSet_sameControl cur.pump 0 st
    split at h
    · cases h
    · next A hA =>
      obtain ⟨x, hx, _, hs⟩ := setTime_eq _ _ _ _ _ hA
      have kA : LoopKeeps st A := by
        have hk := HandlerKeeps.of_setTime
          { pumpSet cur.pump 0 st with pumpCurrentRunTime := cur.time }
          ({ pumpSet cur.pump 0 st with pumpCurrentRunTime := cur.time } : Board).pumpLastIndex
          x hx
        rw [← hs] at hk
        have h0 : HandlerKeeps st
            { pumpSet cur.pump 0 st with pumpCurrentRunTime := cur.time } :=
          HandlerKeeps.of_ingredients hsc.ingredients hsc.ingredientCount hsc.statePump
            hsc.stateTime hsc.stateDelay hsc.state hsc.systemTime
        refine ⟨h0.transKeeps hk, ?_, ?_, ?_, ?_, ?_⟩ <;> rw [hs]
        · exact hsc.pumpRunning
        · exact hsc.quickTimeFire
        · exact hsc.quickTimeCallback
        · exact hsc.pumpLastRecipe
        · exact hsc.pumpLastRecipeCount
      split at h
      · cases h
      · next B hB =>
        have kB : LoopKeeps A B := by
          have := foldlM_option_rel handlerLoopBody LoopKeeps LoopKeeps.reflLoop
            (fun a b c => LoopKeeps.transLoop) handlerLoopBody_keeps _ _ _ hB
          have h0 : LoopKeeps A
              { A with pumpLastTime := 0xFFFF, pumpLastIndex := RECIPE_MAX_INGREDIENTS } :=
            ⟨⟨rfl, rfl, rfl, rfl, rfl, rfl, rfl, fun _ => Or.inl rfl⟩, rfl, rfl, rfl, rfl, rfl⟩
          exact h0.transLoop this
        have k := kA.transLoop kB
        split_ifs at h with hidx
        · split at h
          · cases h
          · cases h
            exact ⟨⟨k.keeps.ingredientCount, k.keeps.statePump, k.keeps.stateTime,
                k.keeps.stateDelay, k.keeps.state, k.keeps.systemTime, k.keeps.len,
                k.keeps.entries⟩,
              Or.inl ⟨hidx, rfl, k.pumpRunning⟩, k.pumpLastRecipe, k.pumpLastRecipeCount⟩
        · cases h
          exact ⟨⟨k.keeps.ingredientCount, k.keeps.statePump, k.keeps.stateTime,
              k.keeps.stateDelay, k.keeps.state, k.keeps.systemTime, k.keeps.len,
              k.keeps.entries⟩,
            Or.inr ⟨hidx, k.quickTimeFire, k.quickTimeCallback, rfl⟩, k.pumpLastRecipe,
            k.pumpLastRecipeCount⟩

theorem tickISR_cases (st : Board) :
    tickISR st =
      match tickInvokes st with
      | none => some (advance st)
      | some CallbackType.pumpHandleRecipeState => pumpHandleRecipeState (advance st) := by
  rw [tickISR_eq]
  unfold tickInvokes
  cases hcb : st.quickTimeCallback with
  | none =>
    rw [if_neg (fun h => by cases h.1)]
    split_ifs <;> rfl
  | some cb =>
    cases cb
    by_cases h : (st.systemTime + 1) % 2 ^ 64 = st.quickTimeFire
    · rw [if_pos ⟨rfl, h⟩, if_pos h]
    · rw [if_neg (fun hc => h hc.2), if_neg h]

/-- Any tick interrupt, whatever the state. -/
theorem tickISR_keeps (st st' : Board) (h : tickISR st = some st') :
    st'.systemTime = (st.systemTime + 1) % 2 ^ 64 ∧
    st'.ingredientCount = st.ingredientCount ∧
    st'.ingredients.length = st.ingredients.length ∧
    (∀ (j : Nat), st'.ingredients[j]? = st.ingredients[j]? ∨
      st'.ingredients[j]? = (st.ingredients[j]?).map zeroed) ∧
    (tickInvokes st = none → st' = advance st) ∧
    (tickInvokes st ≠ none → SlotAfter st st') := by
  rw [tickISR_cases] at h
  cases hinv : tickInvokes st with
  | none =>
    rw [hinv] at h
    cases h
    exact ⟨rfl, rfl, rfl, fun _ => Or.inl rfl, fun _ => rfl,
      fun hc => absurd rfl hc⟩
  | some cb =>
    cases cb
    rw [hinv] at h
    obtain ⟨hk, hslot, _, _⟩ := pumpHandleRecipeState_keeps _ _ h
    exact ⟨hk.systemTime, hk.ingredientCount, hk.len, hk.entries,
      (fun hc => by cases hc), fun _ => hslot⟩

theorem ticks_systemTime (k : Nat) (st st' : Board) (hs : st.systemTime < 2 ^ 64)
    (h : ticks k st = some st') : st'.systemTime = (st.systemTime + k) % 2 ^ 64 := by
  induction k generalizing st' with
  | zero =>
    cases h
    rw [Nat.add_zero, Nat.mod_eq_of_lt hs]
  | succ k ih =>
    rw [ticks_succ] at h
    cases hk : ticks k st with
    | none => rw [hk] at h; cases h
    | some s1 =>
      rw [hk] at h
      have h1 := ih s1 hk
      have h2 := (tickISR_keeps s1 st' h).1
      rw [h2, h1, Nat.mod_add_mod, Nat.add_assoc]

/-- Claim C11: after `quickTimeFireIn(d, cb)` at tick `s`, with `d` in
0..65535, as long as the deadline slot is as this call left it (nobody has
called `quickTimeFireIn` again), the tick interrupt of the `k`-th following
tick, `1 <= k < 2^64`, increments the counter and calls `cb` if `k = d`, and
only increments the counter otherwise; so a deadline with `d = 0` does not
fire.  The slot after the call does not depend on what was armed before. -/
theorem deadline_fires_exactly (st stk : Board) (d k : Nat) (cb : CallbackType)
    (hs : st.systemTime < 2 ^ 64) (hd : d < 2 ^ 16) (hk1 : 1 ≤ k) (hk2 : k < 2 ^ 64)
    (hrun : ticks (k - 1) (quickTimeFireIn d (some cb) st) = some stk)
    (hslot : stk.quickTimeFire = (quickTimeFireIn d (some cb) st).quickTimeFire ∧
      stk.quickTimeCallback = (quickTimeFireIn d (some cb) st).quickTimeCallback) :
    tickISR stk = (if k = d then cb.invoke (advance stk) else some (advance stk)) ∧
    (d = 0 → tickISR stk = some (advance stk)) ∧
    tickInvokes stk = (if k = d then some cb else none) ∧
    (d = 0 → tickInvokes stk = none) ∧
    (∀ f c, quickTimeFireIn d (some cb) { st with quickTimeFire := f, quickTimeCallback := c } =
      quickTimeFireIn d (some cb) st) := by
  have htime := ticks_systemTime (k - 1) (quickTimeFireIn d (some cb) st) stk hs hrun
  have hfire : stk.quickTimeFire = (st.systemTime + d) % 2 ^ 64 := hslot.1
  have hcb : stk.quickTimeCallback = some cb := hslot.2
  have hst : (quickTimeFireIn d (some cb) st).systemTime = st.systemTime := rfl
  rw [hst] at htime
  have e : (2 : Nat) ^ 64 = 18446744073709551616 := by norm_num
  have e2 : (2 : Nat) ^ 16 = 65536 := by norm_num
  have key : ((stk.systemTime + 1) % 2 ^ 64 = stk.quickTimeFire) ↔ k = d := by
    rw [htime, hfire, e]
    rw [e] at hs hk2
    rw [e2] at hd
    omega
  have main : tickInvokes stk = (if k = d then some cb else none) := by
    unfold tickInvokes
    by_cases hkd : k = d
    · rw [if_pos (key.2 hkd), if_pos hkd, hcb]
    · rw [if_neg (fun h => hkd (key.1 h)), if_neg hkd]
  have isr : tickISR stk = (if k = d then cb.invoke (advance stk) else some (advance stk)) := by
    rw [tickISR_cases, main]
    by_cases hkd : k = d
    · rw [if_pos hkd, if_pos hkd]
      cases cb
      rfl
    · rw [if_neg hkd, if_neg hkd]
  refine ⟨isr, ?_, main, ?_, fun _ _ => rfl⟩
  · intro hd0
    rw [isr, if_neg (by omega)]
  · intro hd0
    rw [main, if_neg (by omega)]

/-- Scenario A just started, with the deadline armed anew 2 ticks ahead: the
second tick interrupt calls the handler, which stops pump 2 (recorded index
1) at tick 2. -/
theorem deadline_fires_exactly_witness :
    tickISR scenarioRearmed = pumpHandleRecipeState (advance scenarioRearmed) ∧
    (tickISR scenarioRearmed).map (fun s => (s.systemTime, pumpOutput s 2)) =
      some (2, false) := by
  refine ⟨?_, by decide⟩
  have h := (deadline_fires_exactly scenarioStarted scenarioRearmed 2 2
    CallbackType.pumpHandleRecipeState (by decide) (by decide) (by decide) (by decide)
    (by decide) (by decide)).1
  rw [if_pos rfl] at h
  exact h

/-- Claim C12, amended: when the tick interrupt fires an armed deadline, the
slot is not cleared: the callback is still armed when the interrupt returns.
If the callback did not re-arm the timer (the handler re-arms exactly when it
leaves a recorded index below `RECIPE_MAX_INGREDIENTS`), the fire tick is
unchanged as well and equals the current tick. -/
theorem fired_deadline_stays_armed (st st' : Board) (cb : CallbackType)
    (hfire : tickInvokes st = some cb) (hret : tickISR st = some st') :
    st'.quickTimeCallback = some cb ∧
    (¬ st'.pumpLastIndex < RECIPE_MAX_INGREDIENTS →
      st'.quickTimeFire = st.quickTimeFire ∧ st'.quickTimeFire = st'.systemTime) := by
  cases cb
  have hcond : (st.systemTime + 1) % 2 ^ 64 = st.quickTimeFire ∧
      st.quickTimeCallback = some CallbackType.pumpHandleRecipeState := by
    unfold tickInvokes at hfire
    by_cases h : (st.systemTime + 1) % 2 ^ 64 = st.quickTimeFire
    · rw [if_pos h] at hfire; exact ⟨h, hfire⟩
    · rw [if_neg h] at hfire; cases hfire
  obtain ⟨htime, _, _, _, _, hslot⟩ := tickISR_keeps st st' hret
  rcases hslot (by rw [hfire]; exact fun h => by cases h) with
    ⟨h1, h2, _⟩ | ⟨h1, h2, h3, _⟩
  · exact ⟨h2, fun hn => absurd h1 hn⟩
  · exact ⟨h3.trans hcond.2, fun _ => ⟨h2, by rw [h2, htime, hcond.1]⟩⟩

/-- The last deadline of scenario A: the handler ends the dispense and the
callback stays armed for tick 5. -/
theorem fired_deadline_stays_armed_witness :
    ((tickISR scenarioLastTick).getD powerOn).quickTimeCallback =
        some CallbackType.pumpHandleRecipeState ∧
      ((tickISR scenarioLastTick).getD powerOn).quickTimeFire = 5 :=
  ⟨(fired_deadline_stays_armed scenarioLastTick ((tickISR scenarioLastTick).getD powerOn)
      CallbackType.pumpHandleRecipeState (by decide) (by decide)).1,
    by decide⟩

/-- Claim C12 as stated fails: the tick that fires the last deadline of
scenario A runs the handler, which ends the dispense without re-arming, and
the slot still holds the callback when the interrupt returns. -/
theorem fired_deadline_stays_armed_counterexample :
    tickInvokes scenarioLastTick = some CallbackType.pumpHandleRecipeState ∧
    (tickISR scenarioLastTick).map
        (fun s => (s.pumpRunning, s.pumpLastIndex, s.quickTimeCallback)) =
      some (0, 20, some CallbackType.pumpHandleRecipeState) := by
  decide

/-! ## recipeGo and the recipe store during a dispense -/

theorem StoreKeeps.reflStore (a : Board) : StoreKeeps a a := ⟨rfl, rfl, fun _ => Or.inl rfl⟩

theorem StoreKeeps.transStore {a b c : Board} (h1 : StoreKeeps a b) (h2 : StoreKeeps b c) :
    StoreKeeps a c := by
  refine ⟨h2.ingredientCount.trans h1.ingredientCount, h2.len.trans h1.len, fun j => ?_⟩
  rcases h2.entries j with e2 | e2 <;> rcases h1.entries j with e1 | e1
  · exact Or.inl (e2.trans e1)
  · exact Or.inr (e2.trans e1)
  · exact Or.inr (by rw [e2, e1])
  · refine Or.inr ?_
    rw [e2, e1]
    cases a.ingredients[j]? <;> rfl

theorem ticks_storeKeeps (k : Nat) (st st' : Board) (h : ticks k st = some st') :
    StoreKeeps st st' := by
  induction k generalizing st with
  | zero => cases h; exact StoreKeeps.reflStore _
  | succ k ih =>
    unfold ticks at h
    cases ht : tickISR st with
    | none => rw [ht] at h; cases h
    | some s1 =>
      rw [ht] at h
      obtain ⟨_, h2, h3, h4, _⟩ := tickISR_keeps st s1 ht
      exact StoreKeeps.transStore ⟨h2, h3, h4⟩ (ih s1 h)

/-- The first loop of `pumpsRecipe` writes `pumpLastTime`, `pumpLastIndex`
and the serial log only. -/
theorem recipeScan_frame (p : RecipePtr) (fuel i : Nat) (st r : Board)
    (h : recipeScan p fuel i st = Scan.done r ∨ recipeScan p fuel i st = Scan.rejected r) :
    ∃ T I ser, r = { st with pumpLastTime := T, pumpLastIndex := I, serial := ser } := by
  induction fuel generalizing i st with
  | zero =>
    unfold recipeScan at h
    rcases h with h | h
    · cases h; exact ⟨_, _, _, rfl⟩
    · cases h
  | succ fuel ih =>
    unfold recipeScan at h
    cases hg : p.get st i with
    | none => rw [hg] at h; rcases h with h | h <;> cases h
    | some ing =>
      rw [hg] at h
      dsimp only at h
      split_ifs at h
      · rcases h with h | h
        · cases h
        · cases h; exact ⟨_, _, _, rfl⟩
      · rcases h with h | h
        · cases h
        · cases h; exact ⟨_, _, _, rfl⟩
      · obtain ⟨T, I, ser, e⟩ := ih _ _ h
        exact ⟨T, I, ser, e⟩
      · exact ih _ _ h

theorem recipeAllOn_sameControl (p : RecipePtr) (n : Nat) (st st' : Board)
    (h : recipeAllOn p n st = some st') : SameControl st st' := by
  unfold recipeAllOn at h
  refine foldlM_option_rel _ SameControl (fun s => SameControl.reflSame s)
    (fun _ _ _ h1 h2 => h1.transSame h2) ?_ _ _ _ h
  intro s x s' hs
  cases hg : p.get s x with
  | none => rw [hg] at hs; cases hs
  | some ing =>
    rw [hg] at hs
    cases hs
    exact pumpSet_sameControl _ _ _

/-- Whatever `pumpsRecipe` does, it leaves the recipe store and the tick
counter alone, and the running flag is as before or has been set. -/
theorem pumpsRecipe_keeps (p : RecipePtr) (n : Nat) (st st' : Board)
    (h : pumpsRecipe p n st = some st') :
    HandlerKeeps st st' ∧ st'.ingredients = st.ingredients ∧
      (st'.pumpRunning = st.pumpRunning ∨ st'.pumpRunning = 1) := by
  unfold pumpsRecipe at h
  split_ifs at h with c1 c2
  · cases h
    exact ⟨HandlerKeeps.of_ingredients rfl rfl rfl rfl rfl rfl rfl, rfl, Or.inl rfl⟩
  · cases h
    exact ⟨HandlerKeeps.of_ingredients rfl rfl rfl rfl rfl rfl rfl, rfl, Or.inl rfl⟩
  · dsimp only at h
    split at h
    · cases h
    · rename_i r hs
      cases h
      obtain ⟨T, I, ser, e⟩ := recipeScan_frame _ _ _ _ _ (Or.inr hs)
      subst e
      exact ⟨HandlerKeeps.of_ingredients rfl rfl rfl rfl rfl rfl rfl, rfl, Or.inl rfl⟩
    · rename_i r hs
      obtain ⟨T, I, ser, e⟩ := recipeScan_frame _ _ _ _ _ (Or.inl hs)
      subst e
      dsimp only at h
      split_ifs at h
      · cases h
        exact ⟨HandlerKeeps.of_ingredients rfl rfl rfl rfl rfl rfl rfl, rfl, Or.inl rfl⟩
      · split at h
        · cases h
        · rename_i s1 ha
          cases h
          have hc := recipeAllOn_sameControl _ _ _ _ ha
          refine ⟨HandlerKeeps.of_ingredients hc.ingredients hc.ingredientCount hc.statePump
            hc.stateTime hc.stateDelay hc.state hc.systemTime, hc.ingredients,
            Or.inr hc.pumpRunning⟩

theorem recipeGoWait_of_ticks (k fuel : Nat) (st1 stk : Board) (hk : k ≤ fuel)
    (hrun : ticks k st1 = some stk)
    (hbusy : ∀ j sj, j < k → ticks j st1 = some sj → pumpsDispensing sj ≠ 0)
    (hdone : pumpsDispensing stk = 0) : recipeGoWait fuel st1 = some stk := by
  induction k generalizing st1 fuel with
  | zero =>
    cases hrun
    cases fuel <;> (unfold recipeGoWait; rw [if_neg (by simp [hdone])])
  | succ k ih =>
    cases fuel with
    | zero => omega
    | succ f =>
      have hb0 := hbusy 0 st1 (by omega) rfl
      unfold recipeGoWait
      rw [if_pos hb0]
      unfold ticks at hrun
      cases ht : tickISR st1 with
      | none => rw [ht] at hrun; cases hrun
      | some s =>
        rw [ht] at hrun
        refine ih f s (by omega) hrun ?_
        intro j sj hj hsj
        refine hbusy (j + 1) sj (by omega) ?_
        unfold ticks
        rw [ht]
        exact hsj

/-- Claim C17, amended: from the moment `recipeGo` has started a dispense
until `pumpsDispensing()` becomes false, that is at every tick of the wait
loop of `recipeGo` (every earlier tick saw the flag set), the committed count
and the pump and the delay of every entry of the recipe store are as they
were, and the duration of an entry is either as it was or 0: the deadline
handler zeroes the stored duration of each pump it stops.  At the tick at
which the flag is clear the wait ends, and `recipeGo` returns with the store
reset. -/
theorem store_during_dispense (st st1 stk : Board) (k arg : Nat)
    (hne : st.ingredientCount ≠ 0) (hstart : recipeGoStart st = some st1)
    (hrun : ticks k st1 = some stk)
    (hbusy : ∀ j sj, j < k → ticks j st1 = some sj → pumpsDispensing sj ≠ 0) :
    (stk.ingredientCount = st.ingredientCount ∧
      stk.ingredients.length = st.ingredients.length ∧
      ∀ (j : Nat) (x : RecipeIngredient), st.ingredients[j]? = some x →
        ∃ y, stk.ingredients[j]? = some y ∧ y.pump = x.pump ∧ y.delay = x.delay ∧
          (y.time = x.time ∨ y.time = 0)) ∧
    (pumpsDispensing stk = 0 → ∀ fuel, k ≤ fuel →
      recipeGo fuel arg st =
          some (recipeReset 0 { stk with portE := outSet stk.portE PIN7_bm }) ∧
        (recipeReset 0 { stk with portE := outSet stk.portE PIN7_bm }).ingredientCount = 0) := by
  obtain ⟨hk, hi, _⟩ := pumpsRecipe_keeps _ _ _ _ hstart
  have ht := ticks_storeKeeps k st1 stk hrun
  have hi0 : st1.ingredients = st.ingredients := hi
  refine ⟨⟨ht.ingredientCount.trans hk.ingredientCount, ?_, ?_⟩, ?_⟩
  · rw [ht.len, hi0]
  · intro j x hx
    rcases ht.entries j with e | e
    · exact ⟨x, by rw [e, hi0, hx], rfl, rfl, Or.inl rfl⟩
    · exact ⟨zeroed x, by rw [e, hi0, hx]; rfl, rfl, rfl, Or.inr rfl⟩
  · intro hdone fuel hfuel
    refine ⟨?_, rfl⟩
    unfold recipeGo
    rw [if_neg hne, hstart]
    dsimp only
    rw [recipeGoWait_of_ticks k fuel st1 stk hfuel hrun hbusy hdone]

/-- Scenario A, started by `recipeGo`: the flag is set at ticks 0 to 4; at
tick 5 the count is still 3, the flag is clear, and `recipeGo` returns with
count 0. -/
theorem store_during_dispense_witness :
    ((recipeGoStart scenarioA).bind (ticks 5)).map (fun s => s.ingredientCount) = some 3 ∧
    (recipeGo 5 0 scenarioA).map (fun s => s.ingredientCount) = some 0 := by
  have h := store_during_dispense scenarioA ((recipeGoStart scenarioA).getD powerOn)
    (((recipeGoStart scenarioA).bind (ticks 5)).getD powerOn) 5 0 (by decide) (by decide)
    (by decide)
    (by
      intro j sj hj hsj
      have e : ∀ i, i < 5 →
          (ticks i ((recipeGoStart scenarioA).getD powerOn)).map pumpsDispensing = some 1 := by
        decide
      have ej := e j hj
      rw [hsj] at ej
      simp only [Option.map_some', Option.some.injEq] at ej
      rw [ej]
      decide)
  refine ⟨by decide, ?_⟩
  rw [(h.2 (by decide) 5 (le_refl _)).1]
  rfl

/-- Claim C17 as stated fails: three ticks after `recipeGo` has started
scenario A the dispense is still running (pump 1 has two more ticks to go),
and the stored durations of pumps 2 and 3 have been overwritten with 0. -/
theorem store_during_dispense_counterexample :
    pumpsDispensing scenarioGo = 1 ∧
    scenarioA.ingredients.take 3 = [⟨1, 5, 0⟩, ⟨2, 3, 0⟩, ⟨3, 3, 0⟩] ∧
    scenarioGo.ingredients.take 3 = [⟨1, 5, 0⟩, ⟨2, 0, 0⟩, ⟨3, 0, 0⟩] := by
  decide

/-- Claim C19, amended: `recipeGo` on an empty store writes the error message
and changes nothing else.  On a non-empty store, when `pumpsRecipe` refuses
the recipe while no pump is running, `recipeGo` returns at once, whatever the
number of ticks it is allowed to wait, and the recipe is gone: the status LED
is back off, `recipeReset` has cleared the count and the staged fields. -/
theorem go_rejected_resets (fuel arg : Nat) (st st1 : Board)
    (hne : st.ingredientCount ≠ 0) (hstart : recipeGoStart st = some st1)
    (hrej : pumpsDispensing st1 = 0) :
    recipeGo fuel arg st =
        some (recipeReset 0 { st1 with portE := outSet st1.portE PIN7_bm }) ∧
    (∀ r, recipeGo fuel arg st = some r → r.ingredientCount = 0 ∧ r.statePump = 0 ∧
      r.stateTime = 0 ∧ r.stateDelay = 0 ∧ r.state = 0 ∧ r.ingredients = st.ingredients) ∧
    (∀ s : Board, s.ingredientCount = 0 →
      recipeGo fuel arg s = some (serialWriteString "Error: no ingredients stored!\n" s)) := by
  have hwait : recipeGoWait fuel st1 = some st1 := by
    cases fuel <;> (unfold recipeGoWait; rw [if_neg (by simp [hrej])])
  have hgo : recipeGo fuel arg st =
      some (recipeReset 0 { st1 with portE := outSet st1.portE PIN7_bm }) := by
    unfold recipeGo
    rw [if_neg hne, hstart]
    dsimp only
    rw [hwait]
  refine ⟨hgo, ?_, ?_⟩
  · intro r hr
    rw [hgo] at hr
    cases hr
    exact ⟨rfl, rfl, rfl, rfl, rfl, (pumpsRecipe_keeps _ _ _ _ hstart).2.1⟩
  · intro s hs
    unfold recipeGo
    rw [if_pos hs]

/-- The recipe (pump 1, 65535 ms): `pumpsRecipe` finds no next pump, and
`recipeGo` returns with the store reset. -/
theorem go_rejected_resets_witness :
    (recipeGo 0 0 sentinelRecipe).map (fun r => r.ingredientCount) = some 0 := by
  rw [(go_rejected_resets 0 0 sentinelRecipe ((recipeGoStart sentinelRecipe).getD powerOn)
    (by decide) (by decide) (by decide)).1]
  rfl

/-- Claim C19 as stated fails: the committed recipe (pump 1, 65535 ms) is
refused by `pumpsRecipe` (no pump is turned on, the flag stays clear), and
`recipeGo` returns with the committed count reset from 1 to 0. -/
theorem go_rejected_resets_counterexample :
    committed sentinelRecipe = [⟨1, 65535, 0⟩] ∧
    (recipeGoStart sentinelRecipe).map (fun s => (pumpsDispensing s, s.serial, s.portA)) =
      some (0, [SerialItem.str "Error: no valid next pump found!\n"], 0) ∧
    (recipeGo 0 0 sentinelRecipe).map (fun r => (r.ingredientCount, committed r)) =
      some (0, []) := by
  decide

/-! ## Energized pumps and pending durations -/

/-- A recipe that `pumpsRecipe` accepts, on a board with no pump running,
passes the checks of the first loop and has a stop value below the sentinel. -/
theorem pumpsRecipe_accepted (st st1 : Board) (n : Nat) (hlen : n ≤ st.ingredients.length)
    (hrun : st.pumpRunning = 0) (h : pumpsRecipe RecipePtr.ingredients n st = some st1)
    (h1 : st1.pumpRunning = 1) :
    1 ≤ n ∧ (∀ j, j < n → ∃ ing, st.ingredients[j]? = some ing ∧ ValidIngredient ing) ∧
      ∃ j ing, j < n ∧ st.ingredients[j]? = some ing ∧ rankKey ing < 0xFFFF := by
  have hn : 1 ≤ n := by
    by_contra hcon
    unfold pumpsRecipe at h
    rw [if_neg (by simp [hrun]), if_pos (by omega)] at h
    cases h
    simp [serialWriteString, hrun] at h1
  have hv : ∀ j, j < n → ∃ ing, st.ingredients[j]? = some ing ∧ ValidIngredient ing := by
    intro j hj
    have hjl : j < st.ingredients.length := by omega
    refine ⟨st.ingredients[j], List.getElem?_eq_getElem hjl, ?_⟩
    by_contra hbad
    obtain ⟨T, I, msg, hs⟩ := recipeScan_rejects n 0 j
      { st with pumpLastRecipe := RecipePtr.ingredients, pumpLastRecipeCount := n,
                pumpLastTime := 0xFFFF, pumpLastIndex := RECIPE_MAX_INGREDIENTS }
      st.ingredients[j] (Nat.zero_le _) (by omega) (List.getElem?_eq_getElem hjl)
      (by unfold ValidIngredient at hbad; omega)
    unfold pumpsRecipe at h
    rw [if_neg (by simp [hrun]), if_neg (by omega)] at h
    dsimp only at h
    rw [hs] at h
    cases h
    simp [hrun] at h1
  refine ⟨hn, hv, ?_⟩
  by_contra hno
  obtain ⟨T, I, hscan, hT, hall, hcase⟩ := recipeScan_done n 0
    { st with pumpLastRecipe := RecipePtr.ingredients, pumpLastRecipeCount := n,
              pumpLastTime := 0xFFFF, pumpLastIndex := RECIPE_MAX_INGREDIENTS }
    (fun j _ h2 => hv j (by omega))
  dsimp only at hT hall hcase
  unfold pumpsRecipe at h
  rw [if_neg (by simp [hrun]), if_neg (by omega)] at h
  dsimp only at h
  rw [hscan] at h
  dsimp only at h
  rcases hcase with ⟨_, e2⟩ | ⟨_, c2, c3, ⟨ingI, c4, c4b⟩, _⟩
  · rw [if_pos (by rw [e2])] at h
    cases h
    simp [serialWriteString, hrun] at h1
  · exact hno ⟨I, ingI, by omega, c4, by omega⟩

theorem PendingInv.ofStart (st0 st1 : Board) (n I : Nat) (ingI : RecipeIngredient)
    (hv : ∀ j, j < n → ∃ ing, st0.ingredients[j]? = some ing ∧ ValidIngredient ing)
    (hoff : ∀ q, 1 ≤ q → q ≤ 20 → pumpOutput st0 q = false)
    (he : StartEffect st0 n st1 I ingI) : PendingInv st0 n st1 := by
  refine ⟨he.pumpLastRecipe, he.pumpLastRecipeCount, by rw [he.ingredients], ?_, ?_, ?_⟩
  · intro j x _ hx
    exact ⟨x, by rw [← he.ingredients]; exact hx, rfl⟩
  · exact Or.inl (by rw [he.pumpLastIndex]; exact he.index_lt)
  · intro q hq1 hq2
    rw [he.ingredients]
    constructor
    · intro hon
      by_contra hnone
      have hnot : ∀ j ing, j < n → st0.ingredients[j]? = some ing → ing.pump ≠ q := by
        intro j ing hj hget hp
        obtain ⟨ing', hget', _, _, ht⟩ := hv j hj
        rw [hget] at hget'
        cases hget'
        exact hnone ⟨j, ing, hj, hget, hp, by omega⟩
      rw [he.other q hq1 hq2 hnot, hoff q hq1 hq2] at hon
      cases hon
    · rintro ⟨j, x, hj, hget, hp, _⟩
      rw [← hp]
      exact he.turned_on j x hj hget

theorem PendingInv.afterAdvance {st0 st : Board} {n : Nat} (h : PendingInv st0 n st) :
    PendingInv st0 n (advance st) :=
  ⟨h.ptr, h.count, h.len, h.pumps, h.index, h.energized⟩

theorem PendingInv.afterHandler {st0 st st' : Board} {n : Nat} (h : PendingInv st0 n st)
    (hn : n ≤ st0.ingredients.length) (hn20 : n ≤ 20)
    (hlen20 : st0.ingredients.length ≤ RECIPE_MAX_INGREDIENTS)
    (huniq : ∀ (i j : Nat) (x y : RecipeIngredient), i < n → j < n →
      st0.ingredients[i]? = some x → st0.ingredients[j]? = some y → x.pump = y.pump → i = j)
    (hv : ∀ j, j < n → ∃ ing, st0.ingredients[j]? = some ing ∧ ValidIngredient ing)
    (hs : pumpHandleRecipeState st = some st') : PendingInv st0 n st' := by
  have hidx : ∃ cur, st.ingredients[st.pumpLastIndex]? = some cur := by
    cases hg : st.ingredients[st.pumpLastIndex]? with
    | some cur => exact ⟨cur, rfl⟩
    | none =>
      exfalso
      unfold pumpHandleRecipeState at hs
      rw [h.ptr] at hs
      simp [RecipePtr.get, hg] at hs
  obtain ⟨cur, hk⟩ := hidx
  have hklt : st.pumpLastIndex < n := by
    rcases h.index with a | a
    · exact a
    · exfalso
      rw [List.getElem?_eq_none (by rw [a, h.len]; exact hlen20)] at hk
      cases hk
  obtain ⟨s2, hs2, eff⟩ := pumpHandleRecipeState_effect st cur h.ptr hk
    (by rw [h.count, h.len]; exact hn) (by rw [h.count]; exact hn20)
  rw [hs] at hs2
  cases hs2
  rw [h.count] at eff
  have hu : ∀ (i j : Nat) (x y : RecipeIngredient), i < n → j < n →
      st.ingredients[i]? = some x → st.ingredients[j]? = some y → x.pump = y.pump → i = j := by
    intro i j x y hi hj hx hy hp
    obtain ⟨x0, hx0, ex⟩ := h.pumps i x hi hx
    obtain ⟨y0, hy0, ey⟩ := h.pumps j y hj hy
    exact huniq i j x0 y0 hi hj hx0 hy0 (by rw [ex, ey, hp])
  have hvalid : ∀ (j : Nat) (x : RecipeIngredient), j < n → st.ingredients[j]? = some x →
      1 ≤ x.pump ∧ x.pump ≤ 20 := by
    intro j x hj hx
    obtain ⟨x0, hx0, ex⟩ := h.pumps j x hj hx
    obtain ⟨ing, hget, hp1, hp2, _⟩ := hv j hj
    rw [hx0] at hget
    cases hget
    rw [← ex]
    exact ⟨hp1, hp2⟩
  refine ⟨eff.pumpLastRecipe.trans h.ptr, eff.pumpLastRecipeCount.trans h.count,
    eff.len.trans h.len, ?_, ?_, ?_⟩
  · intro j x' hj hx'
    rw [eff.entries j] at hx'
    cases hg : st.ingredients[j]? with
    | none => rw [hg] at hx'; cases hx'
    | some x =>
      rw [hg] at hx'
      obtain ⟨x0, hx0, ex⟩ := h.pumps j x hj hg
      refine ⟨x0, hx0, ?_⟩
      simp only [Option.map_some', Option.some.injEq] at hx'
      rw [ex, ← hx']
      split_ifs <;> rfl
  · rcases eff.next with ⟨I, x, hI, _, _, _, hidx, _⟩ | ⟨hidx, _⟩
    · exact Or.inl (by rw [hidx]; exact hI)
    · exact Or.inr hidx
  · intro q hq1 hq2
    constructor
    · intro hon
      obtain ⟨j, x, hj, hx, hp, ht⟩ := (h.energized q hq1 hq2).1 (eff.offOnly q hon)
      have hjk : j ≠ st.pumpLastIndex := by
        intro e
        rw [e, hk] at hx
        cases hx
        rw [← hp, eff.off_cur (by omega) (by omega)] at hon
        cases hon
      have hgt : ¬ (0 < x.time ∧ x.time ≤ cur.time) := by
        intro hle
        rw [← hp, eff.off j x hj hx hle.1 hle.2 (by omega) (by omega)] at hon
        cases hon
      refine ⟨j, x, hj, ?_, hp, ht⟩
      rw [eff.entries j, hx]
      simp only [Option.map_some', Option.some.injEq]
      rw [if_neg (by tauto)]
    · rintro ⟨j, x', hj, hx', hp, ht⟩
      rw [eff.entries j] at hx'
      cases hg : st.ingredients[j]? with
      | none => rw [hg] at hx'; cases hx'
      | some x =>
        rw [hg] at hx'
        simp only [Option.map_some', Option.some.injEq] at hx'
        by_cases hc : j = st.pumpLastIndex ∨ (j < n ∧ 0 < x.time ∧ x.time ≤ cur.time)
        · rw [if_pos hc] at hx'
          rw [← hx'] at ht
          exact absurd rfl ht
        · rw [if_neg hc] at hx'
          subst hx'
          have hon : pumpOutput st q = true :=
            (h.energized q hq1 hq2).2 ⟨j, x, hj, hg, hp, ht⟩
          rw [eff.keep q hq1 hq2 ?_ ?_]
          · exact hon
          · intro e
            have := hu j st.pumpLastIndex x cur hj hklt hg hk (by rw [hp, e])
            exact hc (Or.inl this)
          · intro j2 x2 hj2 hx2 h0 hle e
            have hjj := hu j2 j x2 x hj2 hj hx2 hg (by rw [e, hp])
            subst hjj
            rw [hg] at hx2
            cases hx2
            exact hc (Or.inr ⟨hj, h0, hle⟩)

theorem PendingInv.afterTick {st0 st st' : Board} {n : Nat} (h : PendingInv st0 n st)
    (hn : n ≤ st0.ingredients.length) (hn20 : n ≤ 20)
    (hlen20 : st0.ingredients.length ≤ RECIPE_MAX_INGREDIENTS)
    (huniq : ∀ (i j : Nat) (x y : RecipeIngredient), i < n → j < n →
      st0.ingredients[i]? = some x → st0.ingredients[j]? = some y → x.pump = y.pump → i = j)
    (hv : ∀ j, j < n → ∃ ing, st0.ingredients[j]? = some ing ∧ ValidIngredient ing)
    (hs : tickISR st = some st') : PendingInv st0 n st' := by
  rw [tickISR_cases] at hs
  cases hinv : tickInvokes st with
  | none =>
    rw [hinv] at hs
    cases hs
    exact h.afterAdvance
  | some cb =>
    cases cb
    rw [hinv] at hs
    exact h.afterAdvance.afterHandler hn hn20 hlen20 huniq hv hs

theorem PendingInv.afterTicks {st0 st : Board} {n : Nat} (k : Nat) (st' : Board)
    (h : PendingInv st0 n st)
    (hn : n ≤ st0.ingredients.length) (hn20 : n ≤ 20)
    (hlen20 : st0.ingredients.length ≤ RECIPE_MAX_INGREDIENTS)
    (huniq : ∀ (i j : Nat) (x y : RecipeIngredient), i < n → j < n →
      st0.ingredients[i]? = some x → st0.ingredients[j]? = some y → x.pump = y.pump → i = j)
    (hv : ∀ j, j < n → ∃ ing, st0.ingredients[j]? = some ing ∧ ValidIngredient ing)
    (hs : PumpBoard.ticks k st = some st') : PendingInv st0 n st' := by
  induction k generalizing st with
  | zero => cases hs; exact h
  | succ k ih =>
    unfold PumpBoard.ticks at hs
    cases ht : tickISR st with
    | none => rw [ht] at hs; cases hs
    | some s1 =>
      rw [ht] at hs
      exact ih (h.afterTick hn hn20 hlen20 huniq hv ht) hs

/-- Claim C16: starting from all pumps off, for a recipe of at most 20
ingredients with unique pump ids that `pumpsRecipe` accepts (nothing was
running, and `pumpsDispensing()` is 1 afterwards), in the state right after
the start and after any number of tick interrupts, hence after every run of
the deadline handler: a pump is on exactly when an ingredient of the recipe
with a non-zero stored duration names it. -/
theorem energized_iff_pending (st0 st1 st : Board) (n k : Nat)
    (hlen : st0.ingredients.length = RECIPE_MAX_INGREDIENTS) (hn : n ≤ RECIPE_MAX_INGREDIENTS)
    (hidle : pumpsDispensing st0 = 0)
    (hoff : ∀ q, 1 ≤ q → q ≤ 20 → pumpOutput st0 q = false)
    (huniq : ∀ (i j : Nat) (x y : RecipeIngredient), i < n → j < n →
      st0.ingredients[i]? = some x → st0.ingredients[j]? = some y → x.pump = y.pump → i = j)
    (hstart : pumpsRecipe RecipePtr.ingredients n st0 = some st1)
    (hacc : pumpsDispensing st1 = 1) (hrun : ticks k st1 = some st) :
    ∀ q, 1 ≤ q → q ≤ 20 →
      (pumpOutput st q = true ↔
        ∃ (j : Nat) (x : RecipeIngredient), j < n ∧ st.ingredients[j]? = some x ∧ x.pump = q ∧
          x.time ≠ 0) := by
  have hnl : n ≤ st0.ingredients.length := by rw [hlen]; exact hn
  obtain ⟨hn1, hv, hkey⟩ := pumpsRecipe_accepted st0 st1 n hnl hidle hstart hacc
  obtain ⟨s1, I, ingI, hs1, he⟩ := pumpsRecipe_start st0 n hidle hn1 hn hv hkey
  rw [hstart] at hs1
  cases hs1
  have inv := PendingInv.afterTicks k st (PendingInv.ofStart st0 st1 n I ingI hv hoff he) hnl hn
    (by rw [hlen]) huniq hv hrun
  exact inv.energized

/-- Scenario A three ticks after the start: pump 1 is on, pumps 2 and 3 are
off, and the only non-zero stored duration is that of pump 1. -/
theorem energized_iff_pending_witness :
    ∃ (j : Nat) (x : RecipeIngredient), j < 3 ∧ scenarioGo.ingredients[j]? = some x ∧
      x.pump = 1 ∧ x.time ≠ 0 :=
  (energized_iff_pending { scenarioA with portE := outClr scenarioA.portE PIN7_bm }
    ((recipeGoStart scenarioA).getD powerOn) scenarioGo 3 3 (by decide) (by decide) (by decide)
    (by intro q _ _; simp [pumpOutput, scenarioA, powerOn])
    scenarioA_unique (by decide) (by decide) (by decide) 1 (by decide) (by decide)).1 (by decide)

/-! ## Stored delays and the first deadline -/

theorem eraseDelay_lightsSet (id state : Nat) (st : Board) :
    lightsSet id state (eraseDelay st) = eraseDelay (lightsSet id state st) := by
  unfold lightsSet
  dsimp only
  split_ifs <;> rfl

theorem eraseDelay_pumpSet (id state : Nat) (st : Board) :
    pumpSet id state (eraseDelay st) = eraseDelay (pumpSet id state st) := by
  unfold pumpSet
  dsimp only
  split_ifs
  · rfl
  · exact eraseDelay_lightsSet (id - 1) state { st with portA := outSet st.portA (1 <<< (id - 1)) }
  · exact eraseDelay_lightsSet (id - 1) state { st with portA := outClr st.portA (1 <<< (id - 1)) }
  · exact eraseDelay_lightsSet (id - 1) state
      { st with portB := outSet st.portB (1 <<< (id - 1 - 8)) }
  · exact eraseDelay_lightsSet (id - 1) state
      { st with portB := outClr st.portB (1 <<< (id - 1 - 8)) }
  · exact eraseDelay_lightsSet (id - 1) state
      { st with portH := outSet st.portH (1 <<< (id - 1 - 16)) }
  · exact eraseDelay_lightsSet (id - 1) state
      { st with portH := outClr st.portH (1 <<< (id - 1 - 16)) }

theorem get_eraseDelay (p : RecipePtr) (st : Board) (i : Nat) :
    p.get (eraseDelay st) i = (p.get st i).map noDelay := by
  cases p
  · rfl
  · simp [RecipePtr.get, eraseDelay]

theorem setTime_eraseDelay (p : RecipePtr) (st : Board) (i v : Nat) :
    p.setTime (eraseDelay st) i v = (p.setTime st i v).map eraseDelay := by
  unfold RecipePtr.setTime
  rw [get_eraseDelay]
  cases p.get st i with
  | none => rfl
  | some ing =>
    simp only [Option.map_some', eraseDelay, List.map_set]
    rfl

theorem handlerLoopBody_eraseDelay (st : Board) (i : Nat) :
    handlerLoopBody (eraseDelay st) i = (handlerLoopBody st i).map eraseDelay := by
  unfold handlerLoopBody
  have hp : (eraseDelay st).pumpLastRecipe = st.pumpLastRecipe := rfl
  rw [hp, get_eraseDelay]
  cases st.pumpLastRecipe.get st i with
  | none => rfl
  | some ing =>
    simp only [Option.map_some']
    have ht : (noDelay ing).time = ing.time := rfl
    have hq : (noDelay ing).pump = ing.pump := rfl
    have h1 : (eraseDelay st).pumpCurrentRunTime = st.pumpCurrentRunTime := rfl
    have h2 : (eraseDelay st).pumpLastTime = st.pumpLastTime := rfl
    rw [ht, hq, h1, h2]
    split_ifs
    · rw [eraseDelay_pumpSet, setTime_eraseDelay]
    · rfl
    · rfl
    · rfl

theorem foldlM_option_comm {σ α : Type} (f : σ → α → Option σ) (g : σ → σ)
    (hstep : ∀ s x, f (g s) x = (f s x).map g) (l : List α) (s : σ) :
    l.foldlM f (g s) = (l.foldlM f s).map g := by
  induction l generalizing s with
  | nil => rfl
  | cons x l ih =>
    simp only [List.foldlM_cons]
    rw [hstep]
    cases f s x with
    | none => rfl
    | some s1 => exact ih s1

theorem recipeAllOn_eraseDelay (p : RecipePtr) (n : Nat) (st : Board) :
    recipeAllOn p n (eraseDelay st) = (recipeAllOn p n st).map eraseDelay := by
  unfold recipeAllOn
  refine foldlM_option_comm _ eraseDelay ?_ _ _
  intro s x
  rw [get_eraseDelay]
  cases p.get s x with
  | none => rfl
  | some ing => exact congrArg some (eraseDelay_pumpSet _ _ _)

theorem handlerEntry_eraseDelay (st : Board) (cur : RecipeIngredient) :
    handlerEntry (eraseDelay st) (noDelay cur) = eraseDelay (handlerEntry st cur) := by
  unfold handlerEntry
  rw [eraseDelay_pumpSet]
  simp only [eraseDelay, List.map_set]
  rfl

theorem handlerExit_eraseDelay (b : Board) :
    handlerExit (eraseDelay b) = (handlerExit b).map eraseDelay := by
  unfold handlerExit
  have h1 : (eraseDelay b).pumpLastIndex = b.pumpLastIndex := rfl
  have h2 : (eraseDelay b).pumpLastRecipe = b.pumpLastRecipe := rfl
  have h3 : (eraseDelay b).pumpCurrentRunTime = b.pumpCurrentRunTime := rfl
  rw [h1, h2, h3, get_eraseDelay]
  split_ifs
  · cases b.pumpLastRecipe.get b b.pumpLastIndex with
    | none => rfl
    | some nxt => rfl
  · rfl

theorem pumpHandleRecipeState_eraseDelay (st : Board) :
    pumpHandleRecipeState (eraseDelay st) = (pumpHandleRecipeState st).map eraseDelay := by
  cases hp : st.pumpLastRecipe with
  | null =>
    have hp1 : (eraseDelay st).pumpLastRecipe = RecipePtr.null := hp
    unfold pumpHandleRecipeState
    rw [hp, hp1]
    rfl
  | ingredients =>
    have hp1 : (eraseDelay st).pumpLastRecipe = RecipePtr.ingredients := hp
    cases hk : st.ingredients[st.pumpLastIndex]? with
    | none =>
      have hk1 : (eraseDelay st).ingredients[(eraseDelay st).pumpLastIndex]? = none := by
        show (st.ingredients.map noDelay)[st.pumpLastIndex]? = none
        rw [List.getElem?_map, hk]
        rfl
      unfold pumpHandleRecipeState
      rw [hp, hp1]
      simp only [RecipePtr.get, hk, hk1, Option.map_none']
    | some cur =>
      have hk1 : (eraseDelay st).ingredients[(eraseDelay st).pumpLastIndex]? =
          some (noDelay cur) := by
        show (st.ingredients.map noDelay)[st.pumpLastIndex]? = _
        rw [List.getElem?_map, hk]
        rfl
      rw [pumpHandleRecipeState_eq (eraseDelay st) (noDelay cur) hp1 hk1,
        pumpHandleRecipeState_eq st cur hp hk, handlerEntry_eraseDelay]
      have hc : (eraseDelay st).pumpLastRecipeCount = st.pumpLastRecipeCount := rfl
      rw [hc, foldlM_option_comm handlerLoopBody eraseDelay handlerLoopBody_eraseDelay]
      cases (List.range st.pumpLastRecipeCount).foldlM handlerLoopBody (handlerEntry st cur) with
      | none => rfl
      | some b => exact handlerExit_eraseDelay b

theorem tickISR_eraseDelay (st : Board) :
    tickISR (eraseDelay st) = (tickISR st).map eraseDelay := by
  rw [tickISR_cases, tickISR_cases]
  have h : tickInvokes (eraseDelay st) = tickInvokes st := rfl
  rw [h]
  cases tickInvokes st with
  | none => rfl
  | some cb =>
    cases cb
    exact pumpHandleRecipeState_eraseDelay (advance st)

theorem ticks_eraseDelay (k : Nat) (st : Board) :
    ticks k (eraseDelay st) = (ticks k st).map eraseDelay := by
  induction k generalizing st with
  | zero => rfl
  | succ k ih =>
    unfold ticks
    rw [tickISR_eraseDelay]
    cases tickISR st with
    | none => rfl
    | some s1 => exact ih s1

theorem recipeScan_done_frame (p : RecipePtr) (fuel i : Nat) (st r : Board)
    (h : recipeScan p fuel i st = Scan.done r) :
    ∃ T I, r = { st with pumpLastTime := T, pumpLastIndex := I } := by
  induction fuel generalizing i st with
  | zero =>
    unfold recipeScan at h
    cases h
    exact ⟨_, _, rfl⟩
  | succ fuel ih =>
    unfold recipeScan at h
    cases hg : p.get st i with
    | none => rw [hg] at h; cases h
    | some ing =>
      rw [hg] at h
      dsimp only at h
      split_ifs at h
      · obtain ⟨T, I, e⟩ := ih _ _ h
        exact ⟨T, I, e⟩
      · exact ih _ _ h

/-- An accepted `pumpsRecipe(p, n)`: the second loop has run on the board
with the recorded stop, and the deadline is armed for that stop value. -/
theorem pumpsRecipe_accepted_shape (p : RecipePtr) (n : Nat) (st st' : Board)
    (hrun : st.pumpRunning = 0) (h : pumpsRecipe p n st = some st')
    (h1 : st'.pumpRunning = 1) :
    ∃ T I s1, T = st'.pumpLastTime ∧ I = st'.pumpLastIndex ∧
      recipeAllOn p n (startEntry p n T I st) = some s1 ∧
      st' = quickTimeFireIn T (some CallbackType.pumpHandleRecipeState) s1 := by
  unfold pumpsRecipe at h
  split_ifs at h with c1 c2
  · exact absurd hrun c1
  · cases h
    simp [serialWriteString, hrun] at h1
  · dsimp only at h
    split at h
    · cases h
    · rename_i r hs
      cases h
      obtain ⟨T, I, ser, e⟩ := recipeScan_frame _ _ _ _ _ (Or.inr hs)
      subst e
      simp [hrun] at h1
    · rename_i r hs
      obtain ⟨T, I, e⟩ := recipeScan_done_frame _ _ _ _ _ hs
      subst e
      dsimp only at h
      split_ifs at h
      · cases h
        simp [serialWriteString, hrun] at h1
      · split at h
        · cases h
        · rename_i s1 ha
          cases h
          have hc := recipeAllOn_sameControl _ _ _ _ ha
          exact ⟨T, I, s1, hc.pumpLastTime.symm, hc.pumpLastIndex.symm, ha,
            by rw [hc.pumpLastTime]; rfl⟩

/-- Claim C18, amended: the stored delays enter the first deadline only.  Two
recipes that differ only in their delays, started from the same state and
both accepted, for which `pumpsRecipe` records the same first index and the
same first stop value (the least 16-bit `time + delay`), run alike: after any
number of ticks the two boards differ in the stored delays only, so every
pump has the same output in both runs. -/
theorem delay_only_first_deadline (stA stB sA sB : Board) (n k : Nat)
    (hsame : eraseDelay stA = eraseDelay stB) (hidle : pumpsDispensing stA = 0)
    (hA : pumpsRecipe RecipePtr.ingredients n stA = some sA)
    (hB : pumpsRecipe RecipePtr.ingredients n stB = some sB)
    (haccA : pumpsDispensing sA = 1) (haccB : pumpsDispensing sB = 1)
    (hidx : sA.pumpLastIndex = sB.pumpLastIndex) (htime : sA.pumpLastTime = sB.pumpLastTime) :
    (ticks k sA).map eraseDelay = (ticks k sB).map eraseDelay ∧
    ∀ q, (ticks k sA).map (fun s => pumpOutput s q) =
      (ticks k sB).map (fun s => pumpOutput s q) := by
  have hidleB : stB.pumpRunning = 0 := by
    have e : (eraseDelay stB).pumpRunning = (eraseDelay stA).pumpRunning := by rw [hsame]
    exact e.trans hidle
  obtain ⟨TA, IA, a1, hTA, hIA, ha1, ea⟩ :=
    pumpsRecipe_accepted_shape _ n stA sA hidle hA haccA
  obtain ⟨TB, IB, b1, hTB, hIB, hb1, eb⟩ :=
    pumpsRecipe_accepted_shape _ n stB sB hidleB hB haccB
  have hT : TA = TB := by rw [hTA, hTB, htime]
  have hI : IA = IB := by rw [hIA, hIB, hidx]
  subst hT hI
  have e1 := recipeAllOn_eraseDelay RecipePtr.ingredients n (startEntry RecipePtr.ingredients n TA IA stA)
  have e2 := recipeAllOn_eraseDelay RecipePtr.ingredients n (startEntry RecipePtr.ingredients n TA IA stB)
  rw [ha1] at e1
  rw [hb1] at e2
  have e3 : eraseDelay (startEntry RecipePtr.ingredients n TA IA stA) =
      eraseDelay (startEntry RecipePtr.ingredients n TA IA stB) :=
    congrArg (startEntry RecipePtr.ingredients n TA IA) hsame
  rw [e3, e2] at e1
  have e4 : eraseDelay b1 = eraseDelay a1 := by
    simpa using e1
  have hs : eraseDelay sA = eraseDelay sB := by
    rw [ea, eb]
    exact congrArg (quickTimeFireIn TA (some CallbackType.pumpHandleRecipeState)) e4.symm
  have main : (ticks k sA).map eraseDelay = (ticks k sB).map eraseDelay := by
    rw [← ticks_eraseDelay, ← ticks_eraseDelay, hs]
  refine ⟨main, fun q => ?_⟩
  have hq : ∀ o : Option Board, o.map (fun s => pumpOutput s q) =
      (o.map eraseDelay).map (fun s => pumpOutput s q) := by
    intro o
    cases o <;> rfl
  rw [hq (ticks k sA), hq (ticks k sB), main]

/-- The recipes (pump 1, 3 ms), (pump 2, 5 ms) and (pump 1, 3 ms), (pump 2,
5 ms, delay 4 ms): in both, pump 1 is recorded with stop value 3, and pump 2
has the same output after 5 ticks. -/
theorem delay_only_first_deadline_witness :
    (ticks 5 ((pumpsRecipe RecipePtr.ingredients 2 delayPairA).getD powerOn)).map
        (fun s => pumpOutput s 2) =
      (ticks 5 ((pumpsRecipe RecipePtr.ingredients 2 delayPairB).getD powerOn)).map
        (fun s => pumpOutput s 2) :=
  (delay_only_first_deadline delayPairA delayPairB
    ((pumpsRecipe RecipePtr.ingredients 2 delayPairA).getD powerOn)
    ((pumpsRecipe RecipePtr.ingredients 2 delayPairB).getD powerOn) 2 5
    (by decide) (by decide) (by decide) (by decide) (by decide) (by decide) (by decide)
    (by decide)).2 2

/-- Claim C18 as stated fails: the recipes (pump 1, 2 ms) and (pump 1, 2 ms,
delay 1 ms) differ in the delay only and both are accepted; after two ticks
pump 1 is off in the first run and still on in the second, where it goes off
one tick later. -/
theorem delay_only_first_deadline_counterexample :
    eraseDelay delayFree = eraseDelay delayed ∧
    ((pumpsRecipe RecipePtr.ingredients 1 delayFree).bind (ticks 2)).map
        (fun s => pumpOutput s 1) = some false ∧
    ((pumpsRecipe RecipePtr.ingredients 1 delayed).bind (ticks 2)).map
        (fun s => pumpOutput s 1) = some true ∧
    ((pumpsRecipe RecipePtr.ingredients 1 delayed).bind (ticks 3)).map
        (fun s => pumpOutput s 1) = some false := by
  decide

/-! ## Staged delays, status lights and stale deadlines -/

theorem stateDelay_run (op : RecipeOp) (st : Board) :
    (op.run st).stateDelay = lastDelay [op] st.stateDelay := by
  cases op with
  | reset => rfl
  | pump arg =>
    simp only [RecipeOp.run, recipePump, lastDelay]
    split_ifs <;> rfl
  | duration arg =>
    simp only [RecipeOp.run, recipeDuration, lastDelay]
    split_ifs <;> rfl
  | delay arg => rfl
  | store =>
    simp only [RecipeOp.run, recipeStore, lastDelay]
    split_ifs
    · rfl
    · rfl
    · split <;> rfl

theorem stateDelay_runOps (ops : List RecipeOp) (st : Board) :
    (runOps ops st).stateDelay = lastDelay ops st.stateDelay := by
  induction ops generalizing st with
  | nil => rfl
  | cons op ops ih =>
    have h : runOps (op :: ops) st = runOps ops (op.run st) := rfl
    rw [h, ih, stateDelay_run]
    cases op <;> rfl

/-- Claim C28: after `recipeReset` and any further calls `ops` of the recipe
store, the staged delay is the argument of the most recent `recipeDelay` of
`ops`, or 0 if there is none (a `recipeStore` in between does not clear it),
and a `recipeStore` that succeeds now (it reports nothing) commits the staged
pump and duration with exactly this delay. -/
theorem staged_delay_carries_over (st0 : Board) (ops : List RecipeOp)
    (hlen : st0.ingredients.length = 20)
    (hok : (recipeStore 0 (runOps ops (recipeReset 0 st0))).serial =
      (runOps ops (recipeReset 0 st0)).serial) :
    (runOps ops (recipeReset 0 st0)).stateDelay = lastDelay ops 0 ∧
    committed (recipeStore 0 (runOps ops (recipeReset 0 st0))) =
      upsert (committed (runOps ops (recipeReset 0 st0)))
        ⟨(runOps ops (recipeReset 0 st0)).statePump, (runOps ops (recipeReset 0 st0)).stateTime,
          lastDelay ops 0⟩ := by
  have inv := StoreInv.runOps ops (recipeReset 0 st0) (StoreInv.reset st0 hlen)
  have hd : (runOps ops (recipeReset 0 st0)).stateDelay = lastDelay ops 0 :=
    stateDelay_runOps ops (recipeReset 0 st0)
  refine ⟨hd, ?_⟩
  generalize runOps ops (recipeReset 0 st0) = st at inv hd hok
  have hacc : ¬ (st.ingredientCount ≥ 20 ∨ st.state.testBit 0 = false ∨
      st.state.testBit 1 = false) := by
    intro hrej
    rcases recipeStore_rejected st hrej with e | e <;>
      (rw [e] at hok; exact serial_append_ne _ _ hok)
  have hc : st.ingredientCount < 20 := by omega
  have hp : st.state.testBit 0 = true := by
    cases h : st.state.testBit 0
    · exact absurd (Or.inr (Or.inl h)) hacc
    · rfl
  have ht : st.state.testBit 1 = true := by
    cases h : st.state.testBit 1
    · exact absurd (Or.inr (Or.inr h)) hacc
    · rfl
  rw [(recipeStore_upsert st inv.len hc inv.nodup hp ht).1, ← hd]
  rfl

/-- The delay 7 staged for pump 1 is committed again with pump 2. -/
theorem staged_delay_carries_over_witness :
    committed (recipeStore 0 (runOps [RecipeOp.pump 1, RecipeOp.duration 5, RecipeOp.delay 7,
        RecipeOp.store, RecipeOp.pump 2] (recipeReset 0 powerOn))) =
      upsert [⟨1, 5, 7⟩] ⟨2, 5, 7⟩ :=
  (staged_delay_carries_over powerOn [RecipeOp.pump 1, RecipeOp.duration 5, RecipeOp.delay 7,
    RecipeOp.store, RecipeOp.pump 2] (by decide) (by decide)).2

/-- Claim C27 at its failing inputs: `pumpOn(1)` turns pump 1 on and changes
no light register at all; `pumpOn(2)` turns on light 1 and not light 2, where
`lightsSet(2, 1)` itself turns on light 2; `pumpOff(2)` turns light 1 off. -/
theorem pump_light_off_by_one :
    (pumpOutput (pumpOn 1 powerOn) 1 = true ∧ (pumpOn 1 powerOn).portC = 0 ∧
      (pumpOn 1 powerOn).portD = 0 ∧ (pumpOn 1 powerOn).portE = 0 ∧
      (pumpOn 1 powerOn).portF = 0) ∧
    (pumpOutput (pumpOn 2 powerOn) 2 = true ∧ lightOutput (pumpOn 2 powerOn) 1 = true ∧
      lightOutput (pumpOn 2 powerOn) 2 = false) ∧
    lightOutput (lightsSet 2 1 powerOn) 2 = true ∧
    lightOutput (pumpOff 2 (lightsSet 1 1 (lightsSet 2 1 powerOn))) 1 = false ∧
    lightOutput (pumpOff 2 (lightsSet 1 1 (lightsSet 2 1 powerOn))) 2 = true := by
  decide

/-- Claim C23 at its failing input: the handler is entered at tick 1 of the
recipe (pump 1, 1 ms), (pump 2, 65535 ms) with recorded index 0, whose stored
duration is 1.  It stops pump 1 and zeroes its duration; ingredient 2 still has
the non-zero stored duration 65535 and pump 2 is on, yet the handler clears the
running flag and arms nothing (the fire tick stays at 1). -/
theorem handler_skips_sentinel_duration :
    committed sentinelPair = [⟨1, 1, 0⟩, ⟨2, 65535, 0⟩] ∧
    (sentinelPairDue.pumpLastIndex = 0 ∧ sentinelPairDue.pumpLastRecipeCount = 2 ∧
      sentinelPairDue.ingredients[0]? = some ⟨1, 1, 0⟩ ∧ sentinelPairDue.pumpRunning = 1 ∧
      sentinelPairDue.systemTime = 1 ∧ sentinelPairDue.quickTimeFire = 1) ∧
    (pumpHandleRecipeState sentinelPairDue).map (fun s => s.ingredients.take 2) =
      some [⟨1, 0, 0⟩, ⟨2, 65535, 0⟩] ∧
    (pumpHandleRecipeState sentinelPairDue).map
        (fun s => (s.pumpCurrentRunTime, pumpOutput s 1, pumpOutput s 2)) =
      some (1, false, true) ∧
    (pumpHandleRecipeState sentinelPairDue).map
        (fun s => (s.pumpRunning, s.pumpLastIndex, s.quickTimeFire)) = some (0, 20, 1) := by
  decide

/-- Claim C25 at its failing input: in the run `staleDeadline` the deadline of
the faulted dispense is still armed for tick 5 while the refused `pumpsRecipe`
has left the recorded index at 20 and the recorded count at 1.  The tick
interrupt of tick 5 invokes the handler, whose first statement reads
`pumpLastRecipe[20]`, outside the 20 slots of the array. -/
theorem stale_deadline_out_of_bounds :
    staleDeadline.map (fun s => (s.systemTime, s.quickTimeFire, tickInvokes s)) =
      some (4, 5, some CallbackType.pumpHandleRecipeState) ∧
    staleDeadline.map (fun s => (s.pumpLastIndex, s.pumpLastRecipeCount, s.ingredients.length)) =
      some (20, 1, 20) ∧
    staleDeadline.map (fun s => s.pumpLastRecipe.get (advance s) (advance s).pumpLastIndex) =
      some none ∧
    staleDeadline.bind tickISR = none := by
  decide

/-! ## The timeline of a zero-delay dispense -/

theorem ticks_add (a b : Nat) (st : Board) :
    ticks (a + b) st = (ticks a st).bind (ticks b) := by
  induction b with
  | zero =>
    rw [Nat.add_zero]
    cases ticks a st <;> rfl
  | succ b ih =>
    rw [← Nat.add_assoc, ticks_succ, ih]
    cases ticks a st with
    | none => rfl
    | some s => exact (ticks_succ b s).symm

/-- The board on which a zero-delay dispense has ended: the fire tick is the
current tick, so nothing fires before the counter wraps. -/
theorem RunInv.finished (st0 st1 : Board) (n : Nat) (hn1 : 1 ≤ n) (hn20 : n ≤ 20)
    (hv : ZeroDelayRecipe st0 n) (h0 : RunInv st0 n 0 st1) :
    ∃ st, PumpBoard.ticks (maxTime (st0.ingredients.take n)) st1 = some st ∧
      RunInv st0 n (maxTime (st0.ingredients.take n)) st ∧ st.pumpRunning = 0 ∧
      st.systemTime < 2 ^ 64 ∧ st.quickTimeFire = st.systemTime := by
  have hne : st0.ingredients.take n ≠ [] := by
    obtain ⟨x, hx, _⟩ := hv 0 (by omega)
    intro hnil
    have := (mem_take_iff st0.ingredients n x).2 ⟨0, by omega, hx⟩
    rw [hnil] at this
    cases this
  obtain ⟨xm, hxm, hxmt⟩ := maxTime_mem _ hne
  obtain ⟨jm, hjm, hjmx⟩ := (mem_take_iff _ _ _).1 hxm
  have hle : ∀ (j : Nat) (y : RecipeIngredient), j < n → st0.ingredients[j]? = some y →
      y.time ≤ maxTime (st0.ingredients.take n) :=
    fun j y hj hy => le_maxTime _ y ((mem_take_iff _ _ _).2 ⟨j, hj, hy⟩)
  have hM1 : 1 ≤ maxTime (st0.ingredients.take n) := by
    obtain ⟨x, hx, _, ⟨h1, _⟩, _⟩ := hv jm hjm
    rw [hjmx] at hx
    cases hx
    omega
  have hM64 : maxTime (st0.ingredients.take n) ≤ 65534 := by
    obtain ⟨x, hx, _, ⟨_, h2⟩, _⟩ := hv jm hjm
    rw [hjmx] at hx
    cases hx
    omega
  generalize maxTime (st0.ingredients.take n) = M at *
  obtain ⟨sp, hsp, invp⟩ := RunInv.ticks st0 st1 n hn20 hv h0 (M - 1)
    ⟨jm, xm, hjm, hjmx, by omega⟩
  obtain ⟨sm, hsm, invm⟩ := RunInv.ticks st0 st1 n hn20 hv h0 M ⟨jm, xm, hjm, hjmx, by omega⟩
  have hstep : tickISR sp = some sm := by
    have e : M = (M - 1) + 1 := by omega
    rw [e, ticks_succ, hsp] at hsm
    exact hsm
  have hrun0 : sm.pumpRunning = 0 := by
    rcases invm.ctl with ⟨_, x, hI, hx, hlt, _⟩ | ⟨_, hr⟩
    · have := hle _ x hI hx
      omega
    · exact hr
  obtain ⟨I, x, hI, hIx, hkx, _, _, hrun1, hcb, hfire⟩ : ∃ I x, I < n ∧
      st0.ingredients[I]? = some x ∧ M - 1 < x.time ∧ sp.pumpLastIndex = I ∧
      (∀ j y, j < n → st0.ingredients[j]? = some y → M - 1 < y.time → x.time ≤ y.time) ∧
      sp.pumpRunning = 1 ∧
      sp.quickTimeCallback = some CallbackType.pumpHandleRecipeState ∧
      sp.quickTimeFire = (st0.systemTime + x.time) % 2 ^ 64 := by
    rcases invp.ctl with h | ⟨hall, _⟩
    · exact h
    · have := hall jm xm hjm hjmx
      omega
  have hxM : x.time = M := by
    have := hle I x hI hIx
    omega
  obtain ⟨htime, _, _, _, hnone, hslot⟩ := tickISR_keeps sp sm hstep
  have hinv : tickInvokes sp ≠ none := by
    intro hc
    have e := hnone hc
    rw [e] at hrun0
    have e2 : (advance sp).pumpRunning = sp.pumpRunning := rfl
    rw [e2, hrun1] at hrun0
    cases hrun0
  have hlt : sm.systemTime < 2 ^ 64 := by
    rw [htime]
    exact Nat.mod_lt _ (by norm_num)
  refine ⟨sm, hsm, invm, hrun0, hlt, ?_⟩
  have hsys : sm.systemTime = (st0.systemTime + M) % 2 ^ 64 := by
    rw [← invm.time, Nat.mod_eq_of_lt hlt]
  rcases hslot hinv with ⟨_, _, hr⟩ | ⟨_, hf, _, _⟩
  · rw [hr, hrun1] at hrun0
    cases hrun0
  · rw [hf, hfire, hxM, hsys]

/-- Claim C24: for a recipe of 1 to 20 ingredients with unique pump ids in
1..20, zero delays and durations in 1..65534, started by `pumpsRecipe` at tick
`s` from the all-pumps-off state, with only tick interrupts afterwards: after
`k` ticks, for every `k` below `2^64` (every tick until the 64-bit counter is
back at `s`), the counter is at `s + k`, the pump of each ingredient is on
exactly if `k` is below its duration, and `pumpsDispensing()` is 1 exactly if
`k` is below the longest duration, and 0 otherwise. -/
theorem zero_delay_timeline (st0 : Board) (n : Nat) (hrun : pumpsDispensing st0 = 0)
    (hn1 : 1 ≤ n) (hn2 : n ≤ 20) (hlen : st0.ingredients.length = RECIPE_MAX_INGREDIENTS)
    (hv : ZeroDelayRecipe st0 n)
    (huniq : ∀ (i j : Nat) (x y : RecipeIngredient), i < n → j < n →
      st0.ingredients[i]? = some x → st0.ingredients[j]? = some y → x.pump = y.pump → i = j)
    (hoff : ∀ q, 1 ≤ q → q ≤ 20 → pumpOutput st0 q = false) :
    ∃ st1, pumpsRecipe RecipePtr.ingredients n st0 = some st1 ∧
      ∀ k, k < 2 ^ 64 → ∃ st, ticks k st1 = some st ∧
        st.systemTime % 2 ^ 64 = (st0.systemTime + k) % 2 ^ 64 ∧
        (∀ (j : Nat) (x : RecipeIngredient), j < n → st0.ingredients[j]? = some x →
          (pumpOutput st x.pump = true ↔ k < x.time)) ∧
        (pumpsDispensing st = 1 ↔ k < maxTime (st0.ingredients.take n)) ∧
        (pumpsDispensing st = 0 ↔ maxTime (st0.ingredients.take n) ≤ k) := by
  have hvalid : ∀ j, j < n → ∃ ing, st0.ingredients[j]? = some ing ∧ ValidIngredient ing := by
    intro j hj
    obtain ⟨x, hx, hp, ht, _⟩ := hv j hj
    exact ⟨x, hx, hp.1, hp.2, ht.1⟩
  have hkeyex : ∃ j ing, j < n ∧ st0.ingredients[j]? = some ing ∧ rankKey ing < 0xFFFF := by
    obtain ⟨x, hx, _, ⟨_, h2⟩, hd⟩ := hv 0 (by omega)
    refine ⟨0, x, by omega, hx, ?_⟩
    unfold rankKey
    rw [hd, Nat.add_zero, Nat.mod_eq_of_lt (by omega)]
    omega
  obtain ⟨st1, I, ingI, hstart, he⟩ := pumpsRecipe_start st0 n hrun hn1 hn2 hvalid hkeyex
  have h0 := RunInv.start st0 st1 n I ingI hv he
  have p0 := PendingInv.ofStart st0 st1 n I ingI hvalid hoff he
  have hnl : n ≤ st0.ingredients.length := by rw [hlen]; exact hn2
  have hle : ∀ (j : Nat) (y : RecipeIngredient), j < n → st0.ingredients[j]? = some y →
      y.time ≤ maxTime (st0.ingredients.take n) :=
    fun j y hj hy => le_maxTime _ y ((mem_take_iff _ _ _).2 ⟨j, hj, hy⟩)
  have hne : st0.ingredients.take n ≠ [] := by
    obtain ⟨x, hx, _⟩ := hv 0 (by omega)
    intro hnil
    have := (mem_take_iff st0.ingredients n x).2 ⟨0, by omega, hx⟩
    rw [hnil] at this
    cases this
  obtain ⟨xm, hxm, hxmt⟩ := maxTime_mem _ hne
  obtain ⟨jm, hjm, hjmx⟩ := (mem_take_iff _ _ _).1 hxm
  refine ⟨st1, hstart, ?_⟩
  intro k hk
  by_cases hkM : k ≤ maxTime (st0.ingredients.take n)
  · obtain ⟨st, hst, inv⟩ := RunInv.ticks st0 st1 n hn2 hv h0 k ⟨jm, xm, hjm, hjmx, by omega⟩
    have pinv := PendingInv.afterTicks k st p0 hnl hn2 (by rw [hlen]) huniq hvalid hst
    have hrunning : (st.pumpRunning = 1 ∧ k < maxTime (st0.ingredients.take n)) ∨
        (st.pumpRunning = 0 ∧ maxTime (st0.ingredients.take n) ≤ k) := by
      rcases inv.ctl with ⟨_, x, hI, hx, hlt, _, _, hr, _⟩ | ⟨hall, hr⟩
      · have := hle _ x hI hx
        exact Or.inl ⟨hr, by omega⟩
      · have := hall jm xm hjm hjmx
        exact Or.inr ⟨hr, by omega⟩
    refine ⟨st, hst, inv.time, ?_, ?_, ?_⟩
    · intro j x hj hx
      obtain ⟨_, hx', hp, _, _⟩ := hv j hj
      rw [hx] at hx'
      cases hx'
      by_cases hkx : k < x.time
      · have hent := inv.entries j hj
        rw [hx] at hent
        simp only [Option.map_some'] at hent
        rw [if_neg (by omega)] at hent
        have hon := (pinv.energized x.pump hp.1 hp.2).2 ⟨j, x, hj, hent, rfl, by omega⟩
        exact ⟨fun _ => hkx, fun _ => hon⟩
      · have hoff' := inv.off j x hj hx (by omega)
        rw [hoff']
        exact ⟨(fun h => by cases h), fun h => absurd h hkx⟩
    · unfold pumpsDispensing
      rcases hrunning with ⟨hr, hlt⟩ | ⟨hr, hge⟩
      · rw [hr]; exact ⟨fun _ => hlt, fun _ => rfl⟩
      · rw [hr]; exact ⟨(fun h => by cases h), fun h => by omega⟩
    · unfold pumpsDispensing
      rcases hrunning with ⟨hr, hlt⟩ | ⟨hr, hge⟩
      · rw [hr]; exact ⟨(fun h => by cases h), fun h => by omega⟩
      · rw [hr]; exact ⟨fun _ => hge, fun _ => rfl⟩
  · obtain ⟨sm, hsm, invm, hrun0, hlt, hfire⟩ := RunInv.finished st0 st1 n hn1 hn2 hv h0
    obtain ⟨st, hst, hr, _, htime, hout⟩ := ticks_no_fire sm hlt hfire
      (k - maxTime (st0.ingredients.take n)) (by omega)
    have hk : k = maxTime (st0.ingredients.take n) + (k - maxTime (st0.ingredients.take n)) := by
      omega
    refine ⟨st, ?_, ?_, ?_, ?_, ?_⟩
    · rw [hk, ticks_add, hsm]
      exact hst
    · have h1 := invm.time
      have e : (2 : Nat) ^ 64 = 18446744073709551616 := by norm_num
      rw [htime]
      rw [e] at h1 ⊢
      omega
    · intro j x hj hx
      have hxle := hle j x hj hx
      rw [hout, invm.off j x hj hx hxle]
      exact ⟨(fun h => by cases h), fun h => by omega⟩
    · unfold pumpsDispensing
      rw [hr, hrun0]
      exact ⟨(fun h => by cases h), fun h => by omega⟩
    · unfold pumpsDispensing
      rw [hr, hrun0]
      exact ⟨fun _ => by omega, fun _ => rfl⟩

/-- Scenario A: after 4 ticks pump 1 (5 ms) is on and pump 2 (3 ms) is off. -/
theorem zero_delay_timeline_witness :
    ∃ st1, pumpsRecipe RecipePtr.ingredients 3 scenarioA = some st1 ∧
      ∃ st, ticks 4 st1 = some st ∧ pumpOutput st 1 = true ∧ pumpOutput st 2 = false ∧
        pumpsDispensing st = 1 := by
  obtain ⟨st1, h1, h⟩ := zero_delay_timeline scenarioA 3 (by decide) (by decide) (by decide)
    (by decide) scenarioA_zeroDelay scenarioA_unique
    (by intro q _ _; simp [pumpOutput, scenarioA, powerOn])
  obtain ⟨st, hst, _, hout, hrun, _⟩ := h 4 (by norm_num)
  refine ⟨st1, h1, st, hst, ?_, ?_, ?_⟩
  · exact (hout 0 ⟨1, 5, 0⟩ (by decide) rfl).2 (by decide)
  · have h2 := hout 1 ⟨2, 3, 0⟩ (by decide) rfl
    cases hp : pumpOutput st 2
    · rfl
    · have := h2.1 hp
      simp at this
  · exact hrun.2 (by decide)

/-! ## A fault interrupt inside pumpsRecipe -/

theorem recipeAllOn_split (p : RecipePtr) (j n : Nat) (st : Board) (hj : j ≤ n) :
    (recipeAllOn p j st).bind (recipeAllOnFrom p j n) = recipeAllOn p n st := by
  unfold recipeAllOn recipeAllOnFrom
  have e : List.range n = List.range j ++ List.range' j (n - j) := by
    rw [List.range_eq_range', List.range_eq_range']
    have := List.range'_append_1 0 j (n - j)
    rw [Nat.zero_add, Nat.sub_add_cancel hj] at this
    exact this.symm
  rw [e, List.foldlM_append]
  rfl

/-- Without a preemption the steps of `pumpsRecipePreempted` are those of an
accepted `pumpsRecipe`. -/
theorem pumpsRecipe_unpreempted (p : RecipePtr) (n j : Nat) (st st1 : Board) (hj : j ≤ n)
    (hrun : st.pumpRunning = 0) (h : pumpsRecipe p n st = some st1)
    (h1 : st1.pumpRunning = 1) :
    pumpsRecipePreempted id p n st1.pumpLastTime st1.pumpLastIndex j st = some st1 := by
  obtain ⟨T, I, s1, hT, hI, hs1, e⟩ := pumpsRecipe_accepted_shape p n st st1 hrun h h1
  have hc := recipeAllOn_sameControl _ _ _ _ hs1
  have hT1 : s1.pumpLastTime = T := hc.pumpLastTime
  unfold pumpsRecipePreempted
  rw [← hT, ← hI]
  have hsplit := recipeAllOn_split p j n (startEntry p n T I st) hj
  rw [hs1] at hsplit
  cases hj1 : recipeAllOn p j (startEntry p n T I st) with
  | none => rw [hj1] at hsplit; cases hsplit
  | some s =>
    rw [hj1] at hsplit
    simp only [Option.some_bind, id] at hsplit ⊢
    rw [hsplit]
    simp only [Option.map_some', hT1]
    exact congrArg some e.symm

theorem recipeAllOnFrom_effect (i0 m : Nat) (st : Board)
    (hv : ∀ i, i0 ≤ i → i < i0 + m →
      ∃ ing, st.ingredients[i]? = some ing ∧ ValidIngredient ing) :
    ∃ st', recipeAllOnFrom RecipePtr.ingredients i0 (i0 + m) st = some st' ∧
      SameControl st st' ∧
      (∀ i ing, i0 ≤ i → i < i0 + m → st.ingredients[i]? = some ing →
        pumpOutput st' ing.pump = true) ∧
      (∀ q, 1 ≤ q → q ≤ 20 →
        (∀ i ing, i0 ≤ i → i < i0 + m → st.ingredients[i]? = some ing → ing.pump ≠ q) →
        pumpOutput st' q = pumpOutput st q) := by
  induction m with
  | zero =>
    refine ⟨st, ?_, SameControl.reflSame _, ?_, fun _ _ _ _ => rfl⟩
    · unfold recipeAllOnFrom
      rw [Nat.add_zero, Nat.sub_self]
      rfl
    · intro i ing h1 h2; omega
  | succ m ih =>
    obtain ⟨s1, h1, hc, hon, hother⟩ := ih (fun i hi1 hi2 => hv i hi1 (by omega))
    obtain ⟨ing, hget, hp1, hp2, _⟩ := hv (i0 + m) (by omega) (by omega)
    have hget1 : s1.ingredients[i0 + m]? = some ing := by rw [hc.ingredients]; exact hget
    refine ⟨pumpSet ing.pump 1 s1, ?_, hc.transSame (pumpSet_sameControl _ _ _), ?_, ?_⟩
    · unfold recipeAllOnFrom at h1 ⊢
      have e1 : i0 + (m + 1) - i0 = m + 1 := by omega
      have e2 : i0 + m - i0 = m := by omega
      rw [e2] at h1
      rw [e1, List.range'_1_concat, List.foldlM_append, h1]
      simp [RecipePtr.get, hget1]
    · intro i x hi1 hi2 hx
      by_cases him : i = i0 + m
      · subst him
        rw [hget] at hx; cases hx
        exact pumpOutput_pumpSet_on_self _ _ hp1 hp2
      · exact pumpOutput_pumpSet_on_mono _ _ _ (hon i x hi1 (by omega) hx)
    · intro q hq1 hq2 hne
      rw [pumpOutput_pumpSet_other _ _ _ _ hq1 hq2
        (fun e => hne (i0 + m) ing (by omega) (by omega) hget e.symm)]
      exact hother q hq1 hq2 (fun i x hi1 hi2 hx => hne i x hi1 (by omega) hx)

theorem pumpErrorInterrupt_sameControl (f : Nat) (st : Board) :
    SameControl { st with pumpRunning := 0 } (pumpErrorInterrupt f st) := by
  have h := pumpSetAll_sameControl 0 (List.range' 1 20)
    (serialWriteString " reports a problem!\n"
      (serialWriteInt16 f (serialWriteString "Error: pump driver port " st)))
  exact ⟨h.ingredients, h.ingredientCount, h.statePump, h.stateTime, h.stateDelay, h.state, rfl,
    h.pumpLastTime, h.pumpLastIndex, h.pumpLastRecipe, h.pumpLastRecipeCount,
    h.pumpCurrentRunTime, h.systemTime, h.quickTimeFire, h.quickTimeCallback⟩

/-- Claim C22, amended: `pumpsRecipe` holds no critical section.  If the fault
interrupt of driver port `f` is taken after `pumpsRecipe` has turned on the
first `j` pumps of a recipe of `n` valid ingredients, `pumpsRecipe` carries on
after the handler: when it returns, the running flag is 0, the deadline is
armed, the pumps of the ingredients `j .. n - 1` are on and every other pump
is off. -/
theorem fault_during_start (st : Board) (n T I j f : Nat) (hj : j ≤ n)
    (hv : ∀ i, i < n → ∃ ing, st.ingredients[i]? = some ing ∧ ValidIngredient ing) :
    ∃ st', pumpsRecipePreempted (pumpErrorInterrupt f) RecipePtr.ingredients n T I j st =
        some st' ∧
      pumpsDispensing st' = 0 ∧
      st'.quickTimeCallback = some CallbackType.pumpHandleRecipeState ∧
      st'.quickTimeFire = (st.systemTime + T) % 2 ^ 64 ∧
      (∀ i x, j ≤ i → i < n → st.ingredients[i]? = some x → pumpOutput st' x.pump = true) ∧
      (∀ q, 1 ≤ q → q ≤ 20 →
        (∀ i x, j ≤ i → i < n → st.ingredients[i]? = some x → x.pump ≠ q) →
        pumpOutput st' q = false) := by
  obtain ⟨s1, hs1, hc1, _⟩ := recipeAllOn_effect j (startEntry RecipePtr.ingredients n T I st)
    (fun i hi => hv i (by omega))
  have hc2 := pumpErrorInterrupt_sameControl f s1
  have hing2 : (pumpErrorInterrupt f s1).ingredients = st.ingredients :=
    hc2.ingredients.trans hc1.ingredients
  have hnj : n = j + (n - j) := by omega
  obtain ⟨s3, hs3, hc3, hon, hother⟩ := recipeAllOnFrom_effect j (n - j) (pumpErrorInterrupt f s1)
    (fun i hi1 hi2 => by rw [hing2]; exact hv i (by omega))
  rw [← hnj] at hs3 hon hother
  refine ⟨quickTimeFireIn s3.pumpLastTime (some CallbackType.pumpHandleRecipeState) s3,
    ?_, ?_, rfl, ?_, ?_, ?_⟩
  · unfold pumpsRecipePreempted
    rw [hs1]
    simp only [Option.some_bind]
    rw [hs3]
    rfl
  · exact hc3.pumpRunning.trans hc2.pumpRunning
  · have e1 : s3.systemTime = st.systemTime :=
      hc3.systemTime.trans (hc2.systemTime.trans hc1.systemTime)
    have e2 : s3.pumpLastTime = T :=
      hc3.pumpLastTime.trans (hc2.pumpLastTime.trans hc1.pumpLastTime)
    show (s3.systemTime + s3.pumpLastTime) % 2 ^ 64 = _
    rw [e1, e2]
  · intro i x hi1 hi2 hx
    exact hon i x hi1 hi2 (by rw [hing2]; exact hx)
  · intro q hq1 hq2 hne
    have h := hother q hq1 hq2 (fun i x hi1 hi2 hx => hne i x hi1 hi2 (by rw [← hing2]; exact hx))
    show pumpOutput s3 q = false
    rw [h]
    exact (pumpErrorInterrupt_off f s1).1 q hq1 hq2

/-- Scenario A with a fault on port 0 after the first `pumpSet`: pump 2 is on
when `pumpsRecipe` returns, and `pumpsDispensing()` is 0. -/
theorem fault_during_start_witness :
    ∃ st', pumpsRecipePreempted (pumpErrorInterrupt 0) RecipePtr.ingredients 3 3 1 1 scenarioA =
        some st' ∧ pumpsDispensing st' = 0 ∧ pumpOutput st' 2 = true := by
  obtain ⟨st', h1, h2, _, _, h3, _⟩ := fault_during_start scenarioA 3 3 1 1 0 (by decide)
    (by
      intro i hi
      interval_cases i
      · exact ⟨⟨1, 5, 0⟩, rfl, by decide, by decide, by decide⟩
      · exact ⟨⟨2, 3, 0⟩, rfl, by decide, by decide, by decide⟩
      · exact ⟨⟨3, 3, 0⟩, rfl, by decide, by decide, by decide⟩)
  exact ⟨st', h1, h2, h3 1 ⟨2, 3, 0⟩ (by decide) (by decide) rfl⟩

/-- Claim C22 as stated fails: in scenario A, where an undisturbed
`pumpsRecipe` records stop value 3 at index 1, a fault interrupt taken between
the first and the second `pumpSet` of the second loop turns every pump off and
clears the running flag, and `pumpsRecipe` then turns pumps 2 and 3 on and arms
the deadline: it returns with two pumps on and `pumpsDispensing()` 0. -/
theorem fault_during_start_counterexample :
    pumpsRecipePreempted id RecipePtr.ingredients 3 3 1 1 scenarioA =
      pumpsRecipe RecipePtr.ingredients 3 scenarioA ∧
    (pumpsRecipe RecipePtr.ingredients 3 scenarioA).map
        (fun s => (pumpsDispensing s, pumpOutput s 1, pumpOutput s 2, pumpOutput s 3)) =
      some (1, true, true, true) ∧
    (pumpsRecipePreempted (pumpErrorInterrupt 0) RecipePtr.ingredients 3 3 1 1 scenarioA).map
        (fun s => (pumpsDispensing s, pumpOutput s 1, pumpOutput s 2, pumpOutput s 3)) =
      some (0, false, true, true) := by
  decide

/-! ## The serial command interface -/

theorem tenTimes_succ (n : Nat) : tenTimes (n + 1) = (tenTimes n * 10) % 2 ^ 16 := by
  unfold tenTimes
  rw [List.range_succ, List.foldl_append]
  rfl

/-- The inner loop of `convertAsciiToInt` computes the power of ten in 16 bits. -/
theorem tenTimes_eq (n : Nat) : tenTimes n = 10 ^ n % 2 ^ 16 := by
  induction n with
  | zero => rfl
  | succ n ih =>
    rw [tenTimes_succ, ih, Nat.mod_mul_mod]
    exact congrArg (fun x => x % 2 ^ 16) (@Nat.pow_succ 10 n).symm

theorem decimalValue_concat (ds : List Nat) (d : Nat) :
    decimalValue (ds ++ [d]) = 10 * decimalValue ds + (d - 48) := by
  unfold decimalValue
  rw [List.foldl_append]
  rfl

/-- The outer loop of `convertAsciiToInt` after `i` of its `l` iterations:
`res` is the value of the first `i` digits, scaled, in 16 bits. -/
theorem convertStep_after (s : List Nat) (l i : Nat) (hl : l ≤ 255) (hs : l ≤ s.length)
    (hd : ∀ (k : Nat) (d : Nat), k < l → s[k]? = some d → 48 ≤ d ∧ d ≤ 57) (hi : i ≤ l) :
    (List.range i).foldlM (convertStep s) (0, (l + 255) % 256) =
      some ((decimalValue (s.take i) * 10 ^ (l - i)) % 2 ^ 16, (l + 255 - i) % 256) := by
  induction i with
  | zero =>
    simp [decimalValue]
  | succ i ih =>
    have hil : i < s.length := by omega
    have hget : s[i]? = some s[i] := List.getElem?_eq_getElem hil
    obtain ⟨hd1, hd2⟩ := hd i s[i] (by omega) hget
    have hn : (l + 255 - i) % 256 = l - (i + 1) := by omega
    have hdig : (s[i] + 2 ^ 16 - 48) % 2 ^ 16 = s[i] - 48 := by
      have e : (2 : Nat) ^ 16 = 65536 := by norm_num
      rw [e]
      omega
    have hpow : (10 : Nat) ^ (l - i) = 10 ^ (l - (i + 1)) * 10 := by
      have e : l - i = (l - (i + 1)) + 1 := by omega
      rw [e, Nat.pow_succ]
    have htake : s.take (i + 1) = s.take i ++ [s[i]] := by
      rw [List.take_succ, hget]
      rfl
    have hn2 : (l - (i + 1) + 255) % 256 = (l + 255 - (i + 1)) % 256 := by omega
    have hstep : convertStep s
        ((decimalValue (s.take i) * 10 ^ (l - i)) % 2 ^ 16, (l + 255 - i) % 256) i =
        some ((decimalValue (s.take (i + 1)) * 10 ^ (l - (i + 1))) % 2 ^ 16,
          (l + 255 - (i + 1)) % 256) := by
      unfold convertStep
      rw [hget]
      dsimp only
      rw [hn, hdig, tenTimes_eq, htake, decimalValue_concat, hpow, hn2, Nat.mul_mod_mod,
        ← Nat.add_mod]
      generalize decimalValue (s.take i) = V
      generalize 10 ^ (l - (i + 1)) = p
      generalize s[i] - 48 = d'
      have e : V * (p * 10) + d' * p = (10 * V + d') * p := by ring
      rw [e]
    rw [List.range_succ, List.foldlM_append, ih (by omega)]
    show (List.foldlM (convertStep s) _ [i]) = _
    rw [List.foldlM_cons, hstep]
    rfl

theorem convertAsciiToInt_digits (ds junk : List Nat) (_h1 : 1 ≤ ds.length)
    (h5 : ds.length ≤ 5) (hd : ∀ d ∈ ds, 48 ≤ d ∧ d ≤ 57) :
    convertAsciiToInt (ds ++ junk) ds.length = some (decimalValue ds % 65536) := by
  unfold convertAsciiToInt
  rw [convertStep_after (ds ++ junk) ds.length ds.length (by omega) (by simp) ?_ (le_refl _)]
  · simp
  · intro k d hk hget
    rw [List.getElem?_append_left hk] at hget
    exact hd d (List.mem_iff_getElem?.2 ⟨k, hget⟩)

/-- Claim C26: for every string of 1 to 5 ASCII digits (whatever follows them
in the buffer), `convertAsciiToInt` returns the decimal value of the string
reduced modulo 65536, hence the decimal value itself whenever that is at most
65535; leading zeros are digits like any other. -/
theorem convert_decimal (ds junk : List Nat) (h1 : 1 ≤ ds.length) (h5 : ds.length ≤ 5)
    (hd : ∀ d ∈ ds, 48 ≤ d ∧ d ≤ 57) :
    convertAsciiToInt (ds ++ junk) ds.length = some (decimalValue ds % 65536) ∧
    (decimalValue ds ≤ 65535 →
      convertAsciiToInt (ds ++ junk) ds.length = some (decimalValue ds)) := by
  have main := convertAsciiToInt_digits ds junk h1 h5 hd
  refine ⟨main, fun hle => ?_⟩
  rw [main, Nat.mod_eq_of_lt (by omega)]

/-- The string "99999": the value 99999 is returned as 34463. -/
theorem convert_decimal_witness :
    convertAsciiToInt ([57, 57, 57, 57, 57] ++ [0]) 5 = some (99999 % 65536) :=
  (convert_decimal [57, 57, 57, 57, 57] [0] (by decide) (by decide) (by decide)).1

/-- The parameter loop on up to 5 digits: they are copied to `digitBuffer`. -/
theorem interfaceDigits_ok (lb pre rest post w z : List Nat) (hlb : lb = pre ++ rest ++ post)
    (hd : ∀ d ∈ rest, 48 ≤ d ∧ d ≤ 57) (hlen : w.length + rest.length ≤ 5)
    (hz : w.length + z.length = MAX_PARAMETER_LEN) :
    interfaceDigits lb rest.length pre.length (w ++ z) w.length =
      some (DigitScan.done (w ++ rest ++ z.drop rest.length) (w.length + rest.length)) := by
  simp only [MAX_PARAMETER_LEN] at hz
  induction rest generalizing pre w z with
  | nil => simp [interfaceDigits]
  | cons ch r ih =>
    have hch := hd ch (List.mem_cons_self _ _)
    have hget : lb[pre.length]? = some ch := by
      rw [hlb, List.append_assoc, List.getElem?_append_right (le_refl _)]
      simp
    simp only [List.length_cons] at hlen ⊢
    unfold interfaceDigits
    rw [hget]
    dsimp only
    rw [if_neg (by omega), if_pos (by simp only [List.length_append]; omega),
      if_pos (by simp only [MAX_PARAMETER_LEN]; omega)]
    cases z with
    | nil => simp only [List.length_nil] at hz; omega
    | cons z0 z1 =>
      have hset : (w ++ z0 :: z1).set w.length ch = (w ++ [ch]) ++ z1 := by
        rw [List.set_append_right _ _ (le_refl _)]
        simp
      have h := ih (pre ++ [ch]) (w ++ [ch]) z1 (by rw [hlb]; simp)
        (fun d hdm => hd d (List.mem_cons_of_mem _ hdm))
        (by simp only [List.length_append, List.length_singleton]; omega)
        (by simp only [List.length_append, List.length_cons, List.length_nil] at hz ⊢; omega)
      simp only [List.length_append, List.length_singleton] at h
      rw [hset, h]
      simp [Nat.add_assoc, Nat.add_comm 1]

/-- The parameter loop on anything else: it ends with an error message. -/
theorem interfaceDigits_error (lb pre rest post buf : List Nat) (di : Nat)
    (hlb : lb = pre ++ rest ++ post) (hbuf : buf.length = MAX_PARAMETER_LEN)
    (hdi : di < MAX_PARAMETER_LEN)
    (hbad : (∃ d ∈ rest, d < 48 ∨ 57 < d) ∨ 5 < di + rest.length) :
    ∃ msg, interfaceDigits lb rest.length pre.length buf di = some (DigitScan.error msg) := by
  induction rest generalizing pre buf di with
  | nil =>
    simp only [MAX_PARAMETER_LEN] at hdi
    rcases hbad with ⟨d, hdm, _⟩ | h
    · cases hdm
    · simp only [List.length_nil] at h; omega
  | cons ch r ih =>
    have hget : lb[pre.length]? = some ch := by
      rw [hlb, List.append_assoc, List.getElem?_append_right (le_refl _)]
      simp
    simp only [List.length_cons]
    unfold interfaceDigits
    rw [hget]
    dsimp only
    by_cases hch : ch < 48 ∨ ch > 57
    · rw [if_pos hch]
      exact ⟨_, rfl⟩
    · rw [if_neg hch, if_pos (by rw [hbuf]; exact hdi)]
      by_cases h5 : di < MAX_PARAMETER_LEN - 1
      · rw [if_pos h5]
        have hbad' : (∃ d ∈ r, d < 48 ∨ 57 < d) ∨ 5 < di + 1 + r.length := by
          rcases hbad with ⟨d, hdm, hdb⟩ | h
          · rcases List.mem_cons.1 hdm with e | e
            · subst e; exact absurd (by omega) hch
            · exact Or.inl ⟨d, e, hdb⟩
          · simp only [List.length_cons] at h
            exact Or.inr (by omega)
        have h := ih (pre ++ [ch]) (buf.set di ch) (di + 1) (by rw [hlb]; simp)
          (by rw [List.length_set]; exact hbuf)
          (by simp only [MAX_PARAMETER_LEN] at h5 ⊢; omega) hbad'
        simp only [List.length_append, List.length_singleton] at h
        exact h
      · rw [if_neg h5]
        exact ⟨_, rfl⟩

/-- Claim C21, amended: with the empty command prefix and `line` collected in
`lineBuffer`, `interfaceHandleLine` does nothing on the empty line, calls
`interfaceHandler(c, 0)` on the one-byte line `c`, and on `c` followed by 1
to 5 ASCII digits calls `interfaceHandler(c, v)` once, where `v` is the
decimal value of the digits reduced modulo 65536 (the argument is a
`uint16_t`); if some byte after `c` is not an ASCII digit or more than 5
bytes follow `c`, it writes an error message and calls nothing. -/
theorem line_dispatch (ifc : Interface) (line junk : List Nat)
    (hbuf : ifc.lineBuffer = line ++ junk) (hlen : ifc.lineBufferLen = line.length) :
    (line = [] → interfaceHandleLine ifc = some ifc) ∧
    (∀ c, line = [c] → interfaceHandleLine ifc = some (interfaceHandler c 0 ifc)) ∧
    (∀ c ds, line = c :: ds → 1 ≤ ds.length → ds.length ≤ 5 →
      (∀ d ∈ ds, 48 ≤ d ∧ d ≤ 57) →
      interfaceHandleLine ifc = some (interfaceHandler c (decimalValue ds % 65536) ifc)) ∧
    (∀ c rest, line = c :: rest → ((∃ d ∈ rest, d < 48 ∨ 57 < d) ∨ 5 < rest.length) →
      ∃ msg, interfaceHandleLine ifc = some (ifc.emit (InterfaceEvent.write msg))) := by
  refine ⟨?_, ?_, ?_, ?_⟩
  · intro hl
    subst hl
    unfold interfaceHandleLine
    rw [if_pos (by rw [hlen]; simp [PREFIX_LEN])]
  · intro c hl
    subst hl
    unfold interfaceHandleLine
    rw [if_neg (by rw [hlen]; simp [PREFIX_LEN]), hbuf]
    simp only [PREFIX_LEN, List.singleton_append, List.getElem?_cons_zero]
    rw [if_pos (by rw [hlen]; simp)]
  · intro c ds hl h1 h5 hd
    subst hl
    unfold interfaceHandleLine
    rw [if_neg (by rw [hlen]; simp [PREFIX_LEN]), hbuf]
    simp only [PREFIX_LEN, List.cons_append, List.getElem?_cons_zero]
    rw [if_neg (by rw [hlen]; simp only [List.length_cons]; omega)]
    have hd1 := interfaceDigits_ok (c :: ds ++ junk) [c] ds junk [] (List.replicate 6 0) rfl hd
      (by simpa using h5) (by simp [MAX_PARAMETER_LEN])
    have e1 : ifc.lineBufferLen - (0 + 1) = ds.length := by rw [hlen]; simp
    simp only [List.length_singleton, List.nil_append, List.length_nil, Nat.zero_add] at hd1
    simp only [Nat.zero_add] at e1 ⊢
    rw [e1]
    simp only [MAX_PARAMETER_LEN, List.cons_append] at hd1 ⊢
    rw [hd1]
    dsimp only
    rw [convertAsciiToInt_digits ds _ h1 h5 hd]
  · intro c rest hl hbad
    subst hl
    have hlong : ¬ (0 + 1 ≥ ifc.lineBufferLen) := by
      rw [hlen]
      simp only [List.length_cons]
      rcases hbad with ⟨d, hdm, _⟩ | h
      · cases rest with
        | nil => cases hdm
        | cons a r => simp
      · omega
    unfold interfaceHandleLine
    rw [if_neg (by rw [hlen]; simp [PREFIX_LEN]), hbuf]
    simp only [PREFIX_LEN, List.cons_append, List.getElem?_cons_zero]
    rw [if_neg hlong]
    obtain ⟨msg, hmsg⟩ := interfaceDigits_error (c :: rest ++ junk) [c] rest junk
      (List.replicate MAX_PARAMETER_LEN 0) 0 rfl (by simp) (by simp [MAX_PARAMETER_LEN])
      (by simpa using hbad)
    have e1 : ifc.lineBufferLen - (0 + 1) = rest.length := by rw [hlen]; simp
    simp only [List.length_singleton, List.cons_append] at hmsg
    simp only [Nat.zero_add] at e1 ⊢
    rw [e1, hmsg]
    exact ⟨msg, rfl⟩

/-- The line "p10": `recipePump` is called with 10. -/
theorem line_dispatch_witness :
    interfaceHandleLine (interfaceWithLine [112, 49, 48]) =
      some (interfaceHandler 112 (decimalValue [49, 48] % 65536)
        (interfaceWithLine [112, 49, 48])) :=
  (line_dispatch (interfaceWithLine [112, 49, 48]) [112, 49, 48] (List.replicate 13 0) rfl
    rfl).2.2.1 112 [49, 48] rfl (by decide) (by decide) (by decide)

/-- Claim C21 as stated fails: the bytes of the line "p65537" and a new-line
are received after reset; the digits have the decimal value 65537, and
`recipePump` is called with the argument 1. -/
theorem line_dispatch_counterexample :
    decimalValue [54, 53, 53, 51, 55] = 65537 ∧
    (interfaceRun ([[112, 54, 53, 53, 51, 55, 10]] ++ List.replicate 7 []) interfaceAtReset).map
        (fun ifc => ifc.events) =
      some [InterfaceEvent.write "?> ", InterfaceEvent.echo 112, InterfaceEvent.echo 54,
        InterfaceEvent.echo 53, InterfaceEvent.echo 53, InterfaceEvent.echo 51,
        InterfaceEvent.echo 55, InterfaceEvent.echo 10,
        InterfaceEvent.call InterfaceMethod.recipePump 1] := by
  decide

set_option maxRecDepth 100000 in
/-- Claim C29 at its failing input: the byte 0 is none of the listed command
characters, but it equals the unused third slot of the table entry of
`methodVersion`: `interfaceHandler(0, arg)` calls `methodVersion` and reports
no unknown command, also when the byte arrives as a line of its own.  For
every other byte value the method search succeeds exactly on the listed
characters. -/
theorem nul_byte_runs_version :
    (0 ∉ listedCommandChars ∧
      interfaceFind 0 commands = some InterfaceMethod.methodVersion) ∧
    (interfaceHandler 0 7 interfaceAtReset).events =
      [InterfaceEvent.call InterfaceMethod.methodVersion 7] ∧
    (interfaceRun [[0, 10], [], []] interfaceAtReset).map (fun ifc => ifc.events) =
      some [InterfaceEvent.write "?> ", InterfaceEvent.echo 0, InterfaceEvent.echo 10,
        InterfaceEvent.call InterfaceMethod.methodVersion 0] ∧
    (∀ c, c < 256 → c ≠ 0 →
      ((interfaceFind c commands).isSome = true ↔ c ∈ listedCommandChars)) := by
  refine ⟨by decide, by decide, by decide, ?_⟩
  decide

/-! ## Buffer bounds of the command interface -/

theorem foldlM_option_total {σ α : Type} (f : σ → α → Option σ) (l : List α)
    (h : ∀ s, ∀ x ∈ l, ∃ s', f s x = some s') (s : σ) : ∃ s', l.foldlM f s = some s' := by
  induction l generalizing s with
  | nil => exact ⟨s, rfl⟩
  | cons x l ih =>
    obtain ⟨s1, h1⟩ := h s x (List.mem_cons_self _ _)
    obtain ⟨s2, h2⟩ := ih (fun s y hy => h s y (List.mem_cons_of_mem _ hy)) s1
    exact ⟨s2, by simp only [List.foldlM_cons, h1]; exact h2⟩

/-- Every read of `convertAsciiToInt(s, l)` is inside `s` when `l` is at most
its length. -/
theorem convertAsciiToInt_total (s : List Nat) (l : Nat) (h : l ≤ s.length) :
    ∃ v, convertAsciiToInt s l = some v := by
  unfold convertAsciiToInt
  rw [← Option.isSome_iff_exists, Option.isSome_map', Option.isSome_iff_exists]
  apply foldlM_option_total
  intro acc i hi
  have hil : i < s.length := by
    have := List.mem_range.1 hi
    omega
  unfold convertStep
  simp only [List.getElem?_eq_getElem hil]
  exact ⟨_, rfl⟩

/-- The parameter loop stays inside both buffers, and `digitIndex` is at most
5 when it ends. -/
theorem interfaceDigits_total (lb : List Nat) (fuel n : Nat) (buf : List Nat) (di : Nat)
    (hn : n + fuel ≤ lb.length) (hbuf : buf.length = MAX_PARAMETER_LEN) (hdi : di ≤ 5) :
    ∃ r, interfaceDigits lb fuel n buf di = some r ∧
      ∀ b d, r = DigitScan.done b d → b.length = MAX_PARAMETER_LEN ∧ d ≤ 5 := by
  induction fuel generalizing n buf di with
  | zero =>
    refine ⟨_, rfl, ?_⟩
    intro b d h
    cases h
    exact ⟨hbuf, hdi⟩
  | succ fuel ih =>
    unfold interfaceDigits
    rw [List.getElem?_eq_getElem (by omega)]
    dsimp only
    split_ifs with h1 h2 h3
    · exact ⟨_, rfl, fun b d h => by cases h⟩
    · exact ih (n + 1) (buf.set di lb[n]) (di + 1) (by omega)
        (by rw [List.length_set]; exact hbuf) (by simp only [MAX_PARAMETER_LEN] at h3; omega)
    · exact ⟨_, rfl, fun b d h => by cases h⟩
    · exfalso
      rw [hbuf] at h2
      simp only [MAX_PARAMETER_LEN] at h2
      omega

theorem interfaceHandler_frame (c arg : Nat) (ifc : Interface) :
    (interfaceHandler c arg ifc).lineBuffer = ifc.lineBuffer ∧
    (interfaceHandler c arg ifc).lineBufferLen = ifc.lineBufferLen := by
  unfold interfaceHandler
  split <;> exact ⟨rfl, rfl⟩

/-- Every access of `interfaceHandleLine` is inside `lineBuffer` and
`digitBuffer`, and the function leaves the line buffer alone. -/
theorem interfaceHandleLine_total (ifc : Interface) (h : InterfaceInv ifc) :
    ∃ ifc', interfaceHandleLine ifc = some ifc' ∧ ifc'.lineBuffer = ifc.lineBuffer ∧
      ifc'.lineBufferLen = ifc.lineBufferLen := by
  obtain ⟨hl, hn⟩ := h
  simp only [BUF_LEN, MAX_PARAMETER_LEN, PREFIX_LEN] at hl hn
  have hpl : PREFIX_LEN < ifc.lineBuffer.length := by rw [hl]; simp [PREFIX_LEN]
  have hget := List.getElem?_eq_getElem hpl
  unfold interfaceHandleLine
  split_ifs with h1 h2
  · exact ⟨ifc, rfl, rfl, rfl⟩
  · rw [hget]
    exact ⟨_, rfl, interfaceHandler_frame _ _ _⟩
  · rw [hget]
    dsimp only
    obtain ⟨r, hr, hdone⟩ := interfaceDigits_total ifc.lineBuffer
      (ifc.lineBufferLen - (PREFIX_LEN + 1)) (PREFIX_LEN + 1)
      (List.replicate MAX_PARAMETER_LEN 0) 0
      (by simp only [PREFIX_LEN] at h1 ⊢; omega) (by simp) (by omega)
    rw [hr]
    cases r with
    | error msg => exact ⟨_, rfl, rfl, rfl⟩
    | done b d =>
      obtain ⟨hb, hd⟩ := hdone b d rfl
      obtain ⟨v, hv⟩ := convertAsciiToInt_total b d
        (by rw [hb]; simp only [MAX_PARAMETER_LEN]; omega)
      dsimp only
      rw [hv]
      exact ⟨_, rfl, interfaceHandler_frame _ _ _⟩

/-- One call of `interfaceLoop` stays inside `lineBuffer` and keeps the
invariant. -/
theorem interfaceLoop_total (ifc : Interface) (h : InterfaceInv ifc) :
    ∃ ifc', interfaceLoop ifc = some ifc' ∧ InterfaceInv ifc' := by
  have h0 := h
  obtain ⟨hl, hn⟩ := h
  unfold interfaceLoop
  split_ifs with h1 h2
  · exact ⟨_, rfl, hl, Nat.zero_le _⟩
  · cases hrx : ifc.rx with
    | nil => exact ⟨ifc, rfl, h0⟩
    | cons c rest =>
      dsimp only
      split_ifs with h3 h4 h5 h6
      · exact ⟨_, rfl, by
          show (ifc.lineBuffer.set ifc.lineBufferLen c).length = BUF_LEN
          rw [List.length_set]; exact hl, by
          show ifc.lineBufferLen + 1 ≤ BUF_LEN - 1
          have : ifc.lineBufferLen < BUF_LEN - 1 := h5
          omega⟩
      · exact ⟨_, rfl, by
          show (ifc.lineBuffer.set ifc.lineBufferLen c).length = BUF_LEN
          rw [List.length_set]; exact hl, hn⟩
      · exfalso
        apply h4
        show ifc.lineBufferLen < ifc.lineBuffer.length
        rw [hl]
        simp only [BUF_LEN, MAX_PARAMETER_LEN, PREFIX_LEN] at hn ⊢
        omega
      · obtain ⟨i1, hi1, e1, e2⟩ := interfaceHandleLine_total
          (({ ifc with rx := rest } : Interface).emit (InterfaceEvent.echo c)) ⟨hl, hn⟩
        rw [hi1]
        exact ⟨_, rfl, by
          show i1.lineBuffer.length = BUF_LEN
          rw [e1]; exact hl, by
          show i1.lineBufferLen ≤ BUF_LEN - 1
          rw [e2]; exact hn⟩
      · exact ⟨_, rfl, hl, hn⟩
  · exact ⟨_, rfl, hl, hn⟩

theorem interfaceRun_total (arrivals : List (List Nat)) (ifc : Interface)
    (h : InterfaceInv ifc) :
    ∃ ifc', interfaceRun arrivals ifc = some ifc' ∧ InterfaceInv ifc' := by
  induction arrivals generalizing ifc with
  | nil => exact ⟨ifc, rfl, h⟩
  | cons bytes rest ih =>
    obtain ⟨i1, h1, inv1⟩ := interfaceLoop_total { ifc with rx := ifc.rx ++ bytes } h
    obtain ⟨i2, h2, inv2⟩ := ih i1 inv1
    refine ⟨i2, ?_, inv2⟩
    unfold interfaceRun
    rw [h1]
    exact h2

/-- Claim C30: from a state in which `lineBuffer` has its 16 slots and
`lineBufferLen` is at most 15, whatever bytes are received and whenever they
arrive, every call of `interfaceLoop` (with the `interfaceHandleLine` it
makes) returns without an access outside `lineBuffer` or `digitBuffer`, and
`lineBufferLen` is at most 15 afterwards; the parameter loop, entered with
`digitIndex` at most 5, writes inside the 6 slots of `digitBuffer` and ends
with `digitIndex` at most 5. -/
theorem buffers_in_bounds (ifc : Interface) (arrivals : List (List Nat))
    (h : InterfaceInv ifc) :
    (∃ ifc', interfaceRun arrivals ifc = some ifc' ∧ ifc'.lineBuffer.length = 16 ∧
      ifc'.lineBufferLen ≤ 15) ∧
    (∀ (lineBuffer digitBuffer : List Nat) (fuel n digitIndex : Nat),
      n + fuel ≤ lineBuffer.length → digitBuffer.length = 6 → digitIndex ≤ 5 →
      ∃ r, interfaceDigits lineBuffer fuel n digitBuffer digitIndex = some r ∧
        ∀ b d, r = DigitScan.done b d → b.length = 6 ∧ d ≤ 5) := by
  constructor
  · obtain ⟨i, hi, hl, hn⟩ := interfaceRun_total arrivals ifc h
    exact ⟨i, hi, hl, hn⟩
  · intro lb buf fuel n di hn hbuf hdi
    exact interfaceDigits_total lb fuel n buf di hn hbuf hdi

/-- After reset, the line "p" with 20 digits arrives in one piece: 25 calls of
`interfaceLoop` later the buffer length is still at most 15. -/
theorem buffers_in_bounds_witness :
    ∃ ifc', interfaceRun
        ([[112, 49, 50, 51, 52, 53, 54, 55, 56, 57, 48, 49, 50, 51, 52, 53, 54, 55, 56, 57, 48,
          10]] ++ List.replicate 24 []) interfaceAtReset = some ifc' ∧
      ifc'.lineBuffer.length = 16 ∧ ifc'.lineBufferLen ≤ 15 :=
  (buffers_in_bounds interfaceAtReset _ ⟨rfl, by decide⟩).1

/-! ## A fault handler that preempts a command -/

end PumpBoard
